import Mathlib

/-!
html_tokenizer: the scanning engine of `ext/html_tokenizer/tokenizer.c`

A shallow embedding of the tokenizer's C code, followed by theorems about it.

Conventions of the embedding.

* Bytes are natural numbers (`60` is `<`, `62` is `>`, `47` is `/`, ...).
* `uint32_t` arithmetic is arithmetic modulo `2 ^ 32` (`u32`, `u32sub`),
  `int` is a 32-bit two's complement integer (`int32`).
* Undefined behaviour is an explicit failure, the `none` of `Option`:
  reading the string past its terminating NUL, dereferencing a NULL
  `current_tag`, and popping the context stack at index 0.
* `realloc` and `calloc` are taken to succeed.
* The driver loop of `scan_all` runs on fuel; `tokenizer_tokenize_method`
  supplies `2 * length + current_context + 1`, and `scan_loop_spec` shows that
  this is always enough, so that the fuel never decides a result.
-/


namespace HtmlTokenizer

/-- Modelled from the spec: `tokenizer.h` is not among the sources. These are
the state tags that `scan_once` dispatches on. -/
inductive tokenizer_context
  | TOKENIZER_NONE
  | TOKENIZER_HTML
  | TOKENIZER_OPEN_TAG
  | TOKENIZER_COMMENT
  | TOKENIZER_CDATA
  | TOKENIZER_RCDATA
  | TOKENIZER_RAWTEXT
  | TOKENIZER_SCRIPT_DATA
  | TOKENIZER_PLAINTEXT
  | TOKENIZER_ATTRIBUTES
  | TOKENIZER_ATTRIBUTE_NAME
  | TOKENIZER_ATTRIBUTE_VALUE
  | TOKENIZER_ATTRIBUTE_STRING
  deriving DecidableEq

open tokenizer_context

/-- The token kinds: the symbols interned by `Init_tokenizer`. -/
inductive symbol
  | text
  | comment_start
  | comment_end
  | tag_start
  | tag_name
  | cdata_start
  | cdata_end
  | whitespace
  | attribute_name
  | solidus
  | equal
  | tag_end
  | attribute_value_start
  | attribute_value_end
  | attribute_unquoted_value
  | malformed
  deriving DecidableEq

/-- A yielded token: the three values that `tokenizer_yield_tag` hands to the
block, the symbol, the start offset and the end offset. -/
structure token where
  kind : symbol
  start : Nat
  stop : Nat
  deriving DecidableEq

/-- Modelled from the spec: `struct scan_t` is declared in `tokenizer.h`. The
string is the byte sequence of the Ruby string; `cursor` and `length` are
32-bit unsigned. -/
structure scan_t where
  string : List Nat
  cursor : Nat
  length : Nat

/-- The functions that can be installed as `f_callback`; the source has one. -/
inductive callback_t
  | yield_tag
  deriving DecidableEq

/-- Modelled from the spec: `struct tokenizer_t` is declared in `tokenizer.h`.
The fields are those the functions of `tokenizer.c` use. The capacity of the
`context` array is declared in the header; the array is unbounded here.
`current_tag` is `none` for NULL and otherwise the bytes before the NUL.
`yielded` is not a field of the C struct: it records the values passed to
`rb_yield_values` during the current call. -/
structure tokenizer_t where
  context : Nat → tokenizer_context
  current_context : Nat
  attribute_value_start : Nat
  found_attribute : Bool
  current_tag : Option (List Nat)
  is_closing_tag : Bool
  last_token : Option symbol
  f_callback : Option callback_t
  scan : scan_t
  yielded : List token

/-- Reduction of a natural number to `uint32_t`. -/
def u32 (n : Nat) : Nat := n % 2 ^ 32

/-- Subtraction of `uint32_t` values, wrapping around. -/
def u32sub (a b : Nat) : Nat := (u32 a + (2 ^ 32 - u32 b)) % 2 ^ 32

/-- Conversion of a `uint32_t` value to `int`. -/
def int32 (n : Nat) : Int :=
  if u32 n < 2 ^ 31 then (u32 n : Int) else (u32 n : Int) - 2 ^ 32

/-- Conversion of an `int` to `uint32_t`. -/
def u32_of_int (x : Int) : Nat := (x % 2 ^ 32).toNat

/-- The byte `scan->string[i]`. A Ruby string is followed by a NUL; reading
further is a failure. -/
def char_at (scan : scan_t) (i : Nat) : Option Nat := (scan.string ++ [0])[i]?

/-- Assignment to one slot of the context array. -/
def set_slot (a : Nat → tokenizer_context) (i : Nat) (v : tokenizer_context) :
    Nat → tokenizer_context :=
  fun j => if j = i then v else a j

/-- The struct after `tokenizer_allocate`: everything zero, every context slot
`TOKENIZER_NONE`. -/
def tokenizer_allocate : tokenizer_t :=
  { context := fun _ => TOKENIZER_NONE
    current_context := 0
    attribute_value_start := 0
    found_attribute := false
    current_tag := none
    is_closing_tag := false
    last_token := none
    f_callback := none
    scan := ⟨[], 0, 0⟩
    yielded := [] }

/-- C `tokenizer_init`. -/
def tokenizer_init (tk : tokenizer_t) : tokenizer_t :=
  { tk with
    current_context := 0
    context := set_slot tk.context 0 TOKENIZER_HTML
    attribute_value_start := 0
    found_attribute := false
    current_tag := none
    is_closing_tag := false
    last_token := none
    f_callback := none }

/-- C `tokenizer_yield_tag`. -/
def tokenizer_yield_tag (tk : tokenizer_t) (sym : symbol) (length : Nat) : tokenizer_t :=
  { tk with
    last_token := some sym
    yielded := tk.yielded ++ [⟨sym, tk.scan.cursor, u32 (tk.scan.cursor + length)⟩] }

/-- C `tokenizer_callback`. -/
def tokenizer_callback (tk : tokenizer_t) (sym : symbol) (length : Nat) : tokenizer_t :=
  let tk1 := match tk.f_callback with
    | some callback_t.yield_tag => tokenizer_yield_tag tk sym length
    | none => tk
  { tk1 with scan := { tk1.scan with cursor := u32 (tk1.scan.cursor + length) } }

/-- C `tokenizer_initialize_method`. -/
def tokenizer_initialize_method (tk : tokenizer_t) : tokenizer_t :=
  { tokenizer_init tk with f_callback := some callback_t.yield_tag }

/-- A freshly constructed instance: `Tokenizer.new`. -/
def fresh : tokenizer_t := tokenizer_initialize_method tokenizer_allocate

/-- C `eos`. -/
def eos (scan : scan_t) : Bool := decide (scan.cursor ≥ scan.length)

/-- C `length_remaining`. -/
def length_remaining (scan : scan_t) : Int := int32 (u32sub scan.length scan.cursor)

/-- C `push_context`. -/
def push_context (tk : tokenizer_t) (ctx : tokenizer_context) : tokenizer_t :=
  { tk with
    current_context := tk.current_context + 1
    context := set_slot tk.context (tk.current_context + 1) ctx }

/-- C `pop_context`. At index 0 the index would leave the array. -/
def pop_context (tk : tokenizer_t) : Option tokenizer_t :=
  if tk.current_context = 0 then none
  else some { tk with
    context := set_slot tk.context tk.current_context TOKENIZER_NONE
    current_context := tk.current_context - 1 }

/-- The loop shared by the run classifiers:
`for(i = ...; i < scan->length; i++, (*length)++) if(stop(scan->string[i])) break;`
The first argument is the number of iterations left, `scan->length - i`. -/
def run_loop (scan : scan_t) (stop : Nat → Bool) : Nat → Nat → Nat → Option Nat
  | 0, _, len => some len
  | n + 1, i, len =>
    if i < scan.length then
      (char_at scan i).bind fun c =>
        if stop c then some len else run_loop scan stop n (i + 1) (len + 1)
    else some len

/-- A run classifier: the run from the cursor, and whether it is non-empty. -/
def run_from_cursor (scan : scan_t) (stop : Nat → Bool) : Option (Bool × Nat) :=
  (run_loop scan stop (scan.length - scan.cursor) scan.cursor 0).map fun n => (n != 0, n)

/-- C `is_text`. -/
def is_text (scan : scan_t) : Option (Bool × Nat) :=
  run_from_cursor scan fun c => c == 60

/-- The test `!strncmp(&scan->string[i], lit, n)` for a literal of `n` bytes
without NUL. -/
def strncmp_eq (scan : scan_t) : Nat → List Nat → Option Bool
  | _, [] => some true
  | i, c :: cs => (char_at scan i).bind fun b =>
      if b = c then strncmp_eq scan (i + 1) cs else some false

/-- C `tolower` on a byte, in the C locale. -/
def tolower (c : Nat) : Nat := if 65 ≤ c ∧ c ≤ 90 then c + 32 else c

/-- The test `!strncasecmp(&scan->string[i], lit, n)` for a literal of `n`
bytes without NUL. -/
def strncasecmp_eq (scan : scan_t) : Nat → List Nat → Option Bool
  | _, [] => some true
  | i, c :: cs => (char_at scan i).bind fun b =>
      if tolower b = tolower c then strncasecmp_eq scan (i + 1) cs else some false

/-- C `is_comment_start`. -/
def is_comment_start (scan : scan_t) : Option Bool :=
  if length_remaining scan ≥ 4 then strncmp_eq scan scan.cursor [60, 33, 45, 45]
  else some false

/-- C `is_doctype`. -/
def is_doctype (scan : scan_t) : Option Bool :=
  if length_remaining scan ≥ 9 then
    strncasecmp_eq scan scan.cursor [60, 33, 68, 79, 67, 84, 89, 80, 69]
  else some false

/-- C `is_cdata_start`. -/
def is_cdata_start (scan : scan_t) : Option Bool :=
  if length_remaining scan ≥ 9 then
    strncasecmp_eq scan scan.cursor [60, 33, 91, 67, 68, 65, 84, 65, 91]
  else some false

/-- C `is_char`. -/
def is_char (scan : scan_t) (c : Nat) : Option Bool :=
  if length_remaining scan ≥ 1 then (char_at scan scan.cursor).map fun b => decide (b = c)
  else some false

/-- C `is_alnum`. -/
def is_alnum (c : Nat) : Bool :=
  (decide (c ≥ 97) && decide (c ≤ 122)) || (decide (c ≥ 65) && decide (c ≤ 90)) ||
    (decide (c ≥ 48) && decide (c ≤ 57))

/-- The outputs of `is_tag_start`. When the function returns 0 at once the
outputs keep the values the caller initialised them with, all zero. -/
structure tag_start_t where
  matched : Bool
  length : Nat
  closing_tag : Bool
  tag_name : Nat
  tag_name_length : Nat

/-- C `is_tag_start`. `tag_name` is the offset of the name in the string. -/
def is_tag_start (scan : scan_t) : Option tag_start_t :=
  (char_at scan scan.cursor).bind fun c0 =>
    if c0 ≠ 60 then some ⟨false, 0, false, 0, 0⟩
    else
      (char_at scan (u32 (scan.cursor + 1))).bind fun c1 =>
        let closing := decide (c1 = 47)
        let start := if closing then 2 else 1
        (run_loop scan (fun c => !is_alnum c && c != 58)
            (scan.length - u32 (scan.cursor + start)) (u32 (scan.cursor + start)) start).map
          fun len => ⟨decide (len > start), len, closing, u32 (scan.cursor + start), len - start⟩

/-- C `is_tag_name`. -/
def is_tag_name (scan : scan_t) : Option (Bool × Nat) :=
  run_from_cursor scan fun c => c == 32 || c == 9 || c == 13 || c == 10 || c == 62 || c == 47

/-- C `is_whitespace`. -/
def is_whitespace (scan : scan_t) : Option (Bool × Nat) :=
  run_from_cursor scan fun c => c != 32 && c != 9 && c != 13 && c != 10

/-- C `is_attribute_name`. -/
def is_attribute_name (scan : scan_t) : Option (Bool × Nat) :=
  run_from_cursor scan fun c => !is_alnum c && c != 58 && c != 45 && c != 95 && c != 46

/-- C `is_unquoted_value`. -/
def is_unquoted_value (scan : scan_t) : Option (Bool × Nat) :=
  run_from_cursor scan fun c => c == 32 || c == 13 || c == 10 || c == 9 || c == 62

/-- C `is_attribute_string`. -/
def is_attribute_string (scan : scan_t) (attribute_value_start : Nat) : Option (Bool × Nat) :=
  run_from_cursor scan fun c => c == attribute_value_start

/-- The test `scan->string[i] == a && scan->string[i+1] == b && scan->string[i+2] == c`,
reading a byte only when the bytes before it matched. -/
def match3 (scan : scan_t) (i a b c : Nat) : Option Bool :=
  (char_at scan i).bind fun x =>
    if x = a then
      (char_at scan (u32 (i + 1))).bind fun y =>
        if y = b then (char_at scan (u32 (i + 2))).map fun z => decide (z = c)
        else some false
    else some false

/-- The loop of `is_comment_end` and `is_cdata_end`:
`for(i = scan->cursor; i < (scan->length - 2); i++, (*length)++)`, with the
matched length and whether `*end` was set. The first argument is the number of
iterations left. -/
def end_loop (scan : scan_t) (a b c bound : Nat) : Nat → Nat → Nat → Option (Nat × Bool)
  | 0, _, len => some (len, false)
  | n + 1, i, len =>
    if i < bound then
      (match3 scan i a b c).bind fun m =>
        if m then some (len, true) else end_loop scan a b c bound n (i + 1) (len + 1)
    else some (len, false)

/-- The terminator classifiers: result, matched length and whether `*end` was set. -/
def find_end (scan : scan_t) (a b c : Nat) : Option (Bool × Nat × Bool) :=
  (end_loop scan a b c (u32sub scan.length 2) (u32sub scan.length 2 - scan.cursor)
      scan.cursor 0).map fun r => (r.1 != 0, r.1, r.2)

/-- C `is_comment_end`. -/
def is_comment_end (scan : scan_t) : Option (Bool × Nat × Bool) := find_end scan 45 45 62

/-- C `is_cdata_end`. -/
def is_cdata_end (scan : scan_t) : Option (Bool × Nat × Bool) := find_end scan 93 93 62

/-- A C string as the bytes before its first NUL. -/
def cstr (s : List Nat) : List Nat := s.takeWhile fun c => c != 0

/-- The test `!strcasecmp(a, b)`. -/
def strcasecmp_eq (a b : List Nat) : Bool :=
  decide ((cstr a).map tolower = (cstr b).map tolower)

/-- The test `!strncasecmp(&scan->string[p], t, n)` of `scan_rawtext`, for the
C string `t`: byte `k` of `t` is `t[k]`, or NUL past its end. The first
argument is the number of bytes left to compare. -/
def strncasecmp_tag (scan : scan_t) (t : List Nat) : Nat → Nat → Nat → Option Bool
  | 0, _, _ => some true
  | n + 1, p, k => (char_at scan p).bind fun a =>
      let b := (cstr t).getD k 0
      if tolower a ≠ tolower b then some false
      else if a = 0 then some true
      else strncasecmp_tag scan t n (p + 1) (k + 1)

/-- The bytes `strncat(tk->current_tag, tag_name, tag_name_length)` appends. -/
def strncat_bytes (scan : scan_t) (tag_name tag_name_length : Nat) : List Nat :=
  cstr ((scan.string.drop tag_name).take tag_name_length)

/-- The statement `if(tk->current_tag) *tk->current_tag = 0;` of `scan_html`:
the tracked tag name becomes the empty string, unless it is NULL. -/
def clear_current_tag (tk : tokenizer_t) : tokenizer_t :=
  { tk with current_tag := tk.current_tag.map fun _ => [] }

/-- C `scan_html`. In the branch for `<` the two statements after the test for
`/` are written once in each arm of the test. -/
def scan_html (tk : tokenizer_t) : Option (Bool × tokenizer_t) :=
  (is_comment_start tk.scan).bind fun b1 =>
  if b1 then
    some (true, push_context (tokenizer_callback tk symbol.comment_start 4) TOKENIZER_COMMENT)
  else (is_doctype tk.scan).bind fun b2 =>
  if b2 then
    some (true, push_context (tokenizer_callback tk symbol.tag_start 9) TOKENIZER_ATTRIBUTES)
  else (is_cdata_start tk.scan).bind fun b3 =>
  if b3 then
    some (true, push_context (tokenizer_callback tk symbol.cdata_start 9) TOKENIZER_CDATA)
  else (is_char tk.scan 60).bind fun b4 =>
  if b4 then
    let tk1 := tokenizer_callback tk symbol.tag_start 1
    (is_char tk1.scan 47).bind fun b5 =>
    if b5 then
      let tk2 := tokenizer_callback { tk1 with is_closing_tag := true } symbol.solidus 1
      some (true, push_context (clear_current_tag tk2) TOKENIZER_OPEN_TAG)
    else
      let tk2 := { tk1 with is_closing_tag := false }
      some (true, push_context (clear_current_tag tk2) TOKENIZER_OPEN_TAG)
  else (is_char tk.scan 62).bind fun b6 =>
  if b6 then
    let tk1 := tokenizer_callback tk symbol.tag_end 1
    match tk1.current_tag with
    | some tag =>
      if !tk1.is_closing_tag then
        if strcasecmp_eq [116, 105, 116, 108, 101] tag ||
            strcasecmp_eq [116, 101, 120, 116, 97, 114, 101, 97] tag then
          some (true, push_context tk1 TOKENIZER_RCDATA)
        else if strcasecmp_eq [115, 116, 121, 108, 101] tag ||
            strcasecmp_eq [120, 109, 112] tag ||
            strcasecmp_eq [105, 102, 114, 97, 109, 101] tag ||
            strcasecmp_eq [110, 111, 101, 109, 98, 101, 100] tag ||
            strcasecmp_eq [110, 111, 102, 114, 97, 109, 101, 115] tag ||
            strcasecmp_eq [108, 105, 115, 116, 105, 110, 103] tag then
          some (true, push_context tk1 TOKENIZER_RAWTEXT)
        else if strcasecmp_eq [115, 99, 114, 105, 112, 116] tag then
          some (true, push_context tk1 TOKENIZER_SCRIPT_DATA)
        else if strcasecmp_eq [112, 108, 97, 105, 110, 116, 101, 120, 116] tag then
          some (true, push_context tk1 TOKENIZER_PLAINTEXT)
        else some (true, tk1)
      else some (true, tk1)
    | none => some (true, tk1)
  else (is_text tk.scan).bind fun r =>
  if r.1 then some (true, tokenizer_callback tk symbol.text r.2)
  else some (false, tk)

/-- C `scan_open_tag`. The allocation is taken to succeed. -/
def scan_open_tag (tk : tokenizer_t) : Option (Bool × tokenizer_t) :=
  (is_tag_name tk.scan).bind fun r =>
  if r.1 then
    let tk1 := tokenizer_callback tk symbol.tag_name r.2
    some (true, { tk1 with
      current_tag := some (tk1.current_tag.getD [] ++ strncat_bytes tk.scan tk.scan.cursor r.2) })
  else (is_char tk.scan 47).bind fun b2 =>
  if b2 then
    some (true, push_context (tokenizer_callback tk symbol.solidus 1) TOKENIZER_ATTRIBUTES)
  else (is_whitespace tk.scan).bind fun w =>
  if w.1 then
    some (true, push_context (tokenizer_callback tk symbol.whitespace w.2) TOKENIZER_ATTRIBUTES)
  else (is_char tk.scan 62).bind fun b4 =>
  if b4 then (pop_context tk).map fun tk1 => (true, tk1)
  else some (false, tk)

/-- C `scan_attributes`. -/
def scan_attributes (tk : tokenizer_t) : Option (Bool × tokenizer_t) :=
  (is_whitespace tk.scan).bind fun w =>
  if w.1 then some (true, tokenizer_callback tk symbol.whitespace w.2)
  else (is_char tk.scan 61).bind fun b2 =>
  if b2 then
    let tk1 := tokenizer_callback tk symbol.equal 1
    some (true, push_context { tk1 with found_attribute := false } TOKENIZER_ATTRIBUTE_VALUE)
  else (is_char tk.scan 47).bind fun b3 =>
  if b3 then some (true, tokenizer_callback tk symbol.solidus 1)
  else (is_char tk.scan 62).bind fun b4 =>
  if b4 then (pop_context tk).map fun tk1 => (true, tk1)
  else (is_char tk.scan 39).bind fun b5 =>
  (if b5 then some true else is_char tk.scan 34).bind fun b6 =>
  if b6 then
    (char_at tk.scan tk.scan.cursor).bind fun q =>
    let tk1 := tokenizer_callback { tk with attribute_value_start := q }
      symbol.attribute_value_start 1
    some (true, push_context tk1 TOKENIZER_ATTRIBUTE_STRING)
  else (is_attribute_name tk.scan).bind fun r =>
  if r.1 then
    some (true, push_context (tokenizer_callback tk symbol.attribute_name r.2)
      TOKENIZER_ATTRIBUTE_NAME)
  else some (false, tk)

/-- C `scan_attribute_name`. -/
def scan_attribute_name (tk : tokenizer_t) : Option (Bool × tokenizer_t) :=
  (is_attribute_name tk.scan).bind fun r =>
  if r.1 then some (true, tokenizer_callback tk symbol.attribute_name r.2)
  else (is_whitespace tk.scan).bind fun w =>
  (if w.1 then some true else is_char tk.scan 47).bind fun b2 =>
  (if b2 then some true else is_char tk.scan 62).bind fun b3 =>
  (if b3 then some true else is_char tk.scan 61).bind fun b4 =>
  if b4 then (pop_context tk).map fun tk1 => (true, tk1)
  else some (false, tk)

/-- C `scan_attribute_value`. -/
def scan_attribute_value (tk : tokenizer_t) : Option (Bool × tokenizer_t) :=
  if tk.last_token = some symbol.attribute_value_end then
    (pop_context tk).map fun tk1 => (true, tk1)
  else (is_char tk.scan 47).bind fun b1 =>
  (if b1 then some true else is_char tk.scan 62).bind fun b2 =>
  if b2 then (pop_context tk).map fun tk1 => (true, tk1)
  else (is_whitespace tk.scan).bind fun w =>
  if w.1 then
    let tk1 := tokenizer_callback tk symbol.whitespace w.2
    if tk1.found_attribute then (pop_context tk1).map fun tk2 => (true, tk2)
    else some (true, tk1)
  else (is_char tk.scan 39).bind fun b5 =>
  (if b5 then some true else is_char tk.scan 34).bind fun b6 =>
  if b6 then
    (char_at tk.scan tk.scan.cursor).bind fun q =>
    let tk1 := tokenizer_callback { tk with attribute_value_start := q }
      symbol.attribute_value_start 1
    some (true, { push_context tk1 TOKENIZER_ATTRIBUTE_STRING with found_attribute := true })
  else (is_unquoted_value tk.scan).bind fun r =>
  if r.1 then
    some (true, { tokenizer_callback tk symbol.attribute_unquoted_value r.2 with
      found_attribute := true })
  else some (false, tk)

/-- C `scan_attribute_string`. -/
def scan_attribute_string (tk : tokenizer_t) : Option (Bool × tokenizer_t) :=
  (is_char tk.scan tk.attribute_value_start).bind fun b1 =>
  if b1 then
    (pop_context (tokenizer_callback tk symbol.attribute_value_end 1)).map fun tk1 => (true, tk1)
  else (is_attribute_string tk.scan tk.attribute_value_start).bind fun r =>
  if r.1 then some (true, tokenizer_callback tk symbol.text r.2)
  else some (false, tk)

/-- The common body of `scan_comment` and `scan_cdata`, for the terminator
classifier and the symbol of the terminator. -/
def scan_until_end (tk : tokenizer_t) (e : Option (Bool × Nat × Bool)) (sym : symbol) :
    Option (Bool × tokenizer_t) :=
  e.bind fun r =>
  if r.1 then
    let tk1 := tokenizer_callback tk symbol.text r.2.1
    if r.2.2 then some (true, tokenizer_callback tk1 sym 3) else some (true, tk1)
  else
    some (true, tokenizer_callback tk symbol.text (u32_of_int (length_remaining tk.scan)))

/-- C `scan_comment`. -/
def scan_comment (tk : tokenizer_t) : Option (Bool × tokenizer_t) :=
  scan_until_end tk (is_comment_end tk.scan) symbol.comment_end

/-- C `scan_cdata`. -/
def scan_cdata (tk : tokenizer_t) : Option (Bool × tokenizer_t) :=
  scan_until_end tk (is_cdata_end tk.scan) symbol.cdata_end

/-- C `scan_rawtext`. -/
def scan_rawtext (tk : tokenizer_t) : Option (Bool × tokenizer_t) :=
  (is_tag_start tk.scan).bind fun t =>
  if t.matched then
    (if t.closing_tag then
        tk.current_tag.bind fun tag =>
          strncasecmp_tag tk.scan tag t.tag_name_length t.tag_name 0
      else some false).bind fun same =>
    if same then (pop_context tk).map fun tk1 => (true, tk1)
    else some (true, tokenizer_callback tk symbol.text t.length)
  else (is_text tk.scan).bind fun r =>
  if r.1 then some (true, tokenizer_callback tk symbol.text r.2)
  else some (true, tokenizer_callback tk symbol.text (u32_of_int (length_remaining tk.scan)))

/-- C `scan_plaintext`. -/
def scan_plaintext (tk : tokenizer_t) : Option (Bool × tokenizer_t) :=
  some (true, tokenizer_callback tk symbol.text (u32_of_int (length_remaining tk.scan)))

/-- C `scan_once`. -/
def scan_once (tk : tokenizer_t) : Option (Bool × tokenizer_t) :=
  match tk.context tk.current_context with
  | TOKENIZER_NONE => some (false, tk)
  | TOKENIZER_HTML => scan_html tk
  | TOKENIZER_OPEN_TAG => scan_open_tag tk
  | TOKENIZER_COMMENT => scan_comment tk
  | TOKENIZER_CDATA => scan_cdata tk
  | TOKENIZER_RCDATA => scan_rawtext tk
  | TOKENIZER_RAWTEXT => scan_rawtext tk
  | TOKENIZER_SCRIPT_DATA => scan_rawtext tk
  | TOKENIZER_PLAINTEXT => scan_plaintext tk
  | TOKENIZER_ATTRIBUTES => scan_attributes tk
  | TOKENIZER_ATTRIBUTE_NAME => scan_attribute_name tk
  | TOKENIZER_ATTRIBUTE_VALUE => scan_attribute_value tk
  | TOKENIZER_ATTRIBUTE_STRING => scan_attribute_string tk

/-- How a call of `scan_all` comes to an end: it returns, it runs into
undefined behaviour, or the fuel of the model runs out. -/
inductive outcome
  | done (tk : tokenizer_t)
  | fault
  | timeout

/-- The loop `while(!eos(&tk->scan) && scan_once(tk)) {}` of `scan_all`. -/
def scan_loop : Nat → tokenizer_t → outcome
  | 0, _ => outcome.timeout
  | n + 1, tk =>
    if eos tk.scan then outcome.done tk
    else match scan_once tk with
      | none => outcome.fault
      | some (true, tk1) => scan_loop n tk1
      | some (false, tk1) => outcome.done tk1

/-- The statement after the loop of `scan_all`. -/
def scan_tail (tk : tokenizer_t) : tokenizer_t :=
  if !eos tk.scan then
    tokenizer_callback tk symbol.malformed (u32_of_int (length_remaining tk.scan))
  else tk

/-- C `scan_all`, on fuel. -/
def scan_all (fuel : Nat) (tk : tokenizer_t) : outcome :=
  match scan_loop fuel tk with
  | outcome.done tk1 => outcome.done (scan_tail tk1)
  | outcome.fault => outcome.fault
  | outcome.timeout => outcome.timeout

/-- The assignments of `tokenizer_tokenize_method` before `scan_all`; the
record of yielded values starts empty for the block of this call. -/
def bind_source (tk : tokenizer_t) (source : List Nat) : tokenizer_t :=
  { tk with scan := ⟨source, 0, u32 source.length⟩, yielded := [] }

/-- The fuel that `tokenizer_tokenize_method` gives the loop. -/
def fuel_of (tk : tokenizer_t) : Nat :=
  2 * (tk.scan.length - tk.scan.cursor) + tk.current_context + 1

/-- C `tokenizer_tokenize_method`. -/
def tokenizer_tokenize_method (tk : tokenizer_t) (source : List Nat) : outcome :=
  scan_all (fuel_of (bind_source tk source)) (bind_source tk source)

/-- The tokens yielded by a call, when it returned. -/
def outcome.tokens : outcome → Option (List token)
  | outcome.done tk => some tk.yielded
  | _ => none

/-- The context stack, slot 0 first, up to the current context. -/
def stack (tk : tokenizer_t) : List tokenizer_context :=
  (List.range (tk.current_context + 1)).map tk.context

/-- The context stack after a call, when it returned. -/
def outcome.stack : outcome → Option (List tokenizer_context)
  | outcome.done tk => some (HtmlTokenizer.stack tk)
  | _ => none

/-- The bytes of a string literal. -/
def bytes (s : String) : List Nat := s.toList.map Char.toNat

/-- Shorthand for a token. -/
def tok (kind : symbol) (start stop : Nat) : token := ⟨kind, start, stop⟩

/-- A scan over a whole Ruby string shorter than 2 GiB, with the cursor inside. -/
def scan_ok (s : scan_t) : Prop :=
  s.length = s.string.length ∧ s.length < 2 ^ 31 ∧ s.cursor ≤ s.length

/-- The length of the run of bytes before the first stop byte. -/
def run_length (stop : Nat → Bool) (l : List Nat) : Nat :=
  (l.takeWhile fun c => !stop c).length

/-- The bytes from the cursor on. -/
def rest (s : scan_t) : List Nat := s.string.drop s.cursor

/-- The result of the terminator loop on the bytes from the cursor on: the
number of bytes before the first terminator, or the number of positions at
which three bytes can be read. -/
def scan3 (a b c : Nat) : List Nat → Nat × Bool
  | x :: y :: z :: t =>
    if x = a ∧ y = b ∧ z = c then (0, true)
    else ((scan3 a b c (y :: z :: t)).1 + 1, (scan3 a b c (y :: z :: t)).2)
  | _ => (0, false)

/-- The stop test of the loop of `is_tag_start`. -/
def tag_stop (c : Nat) : Bool := !is_alnum c && c != 58

/-- The outputs of `is_tag_start` as a function of the cursor and the bytes
from the cursor on. -/
def tag_start_of (cur : Nat) (l : List Nat) : tag_start_t :=
  match l with
  | [] => ⟨false, 0, false, 0, 0⟩
  | c0 :: t =>
    if c0 ≠ 60 then ⟨false, 0, false, 0, 0⟩
    else if t.head? = some 47 then
      ⟨decide (run_length tag_stop t.tail > 0), 2 + run_length tag_stop t.tail, true, cur + 2,
        run_length tag_stop t.tail⟩
    else
      ⟨decide (run_length tag_stop t > 0), 1 + run_length tag_stop t, false, cur + 1,
        run_length tag_stop t⟩

/-- Tokens that follow one another from offset `a` to offset `b`. -/
def chained : Nat → List token → Nat → Prop
  | a, [], b => a = b
  | a, t :: ts, b => t.start = a ∧ chained t.stop ts b

instance chained_decidable : ∀ (a : Nat) (l : List token) (b : Nat), Decidable (chained a l b)
  | a, [], b => inferInstanceAs (Decidable (a = b))
  | a, t :: ts, b =>
    have := chained_decidable t.stop ts b
    inferInstanceAs (Decidable (t.start = a ∧ chained t.stop ts b))

/-- The contexts in which the content is raw text with a tracked tag name. -/
def is_raw (c : tokenizer_context) : Bool :=
  c = TOKENIZER_RCDATA || c = TOKENIZER_RAWTEXT || c = TOKENIZER_SCRIPT_DATA

/-- What a handler call that reported a match did to the state: the buffer is
the same, the new tokens follow one another from the old cursor to the new
one, each is non-empty and none is malformed, and either the cursor advanced
with at most one push of a context of `P`, or the cursor stayed and one
context was popped, or the cursor advanced and one context was popped. -/
structure step_post (P : List tokenizer_context) (tk tk1 : tokenizer_t) : Prop where
  string_eq : tk1.scan.string = tk.scan.string
  length_eq : tk1.scan.length = tk.scan.length
  callback_eq : tk1.f_callback = tk.f_callback
  cursor_le : tk1.scan.cursor ≤ tk.scan.length
  tokens : ∃ new, tk1.yielded = tk.yielded ++ new ∧
    chained tk.scan.cursor new tk1.scan.cursor ∧
    ∀ t ∈ new, t.start < t.stop ∧ t.kind ≠ symbol.malformed
  tag : tk.current_tag ≠ none → tk1.current_tag ≠ none
  move :
    (tk.scan.cursor < tk1.scan.cursor ∧
      (stack tk1 = stack tk ∨
        ∃ c, c ∈ P ∧ stack tk1 = stack tk ++ [c] ∧
          (is_raw c = true → tk1.current_tag ≠ none) ∧
          (c = TOKENIZER_COMMENT ∨ c = TOKENIZER_CDATA → 2 ≤ tk.scan.length))) ∨
    (tk1.scan.cursor = tk.scan.cursor ∧ tk1.yielded = tk.yielded ∧
      tk.current_context ≠ 0 ∧ tk1.current_context + 1 = tk.current_context ∧
      stack tk1 = (stack tk).dropLast) ∨
    (tk.scan.cursor < tk1.scan.cursor ∧
      tk.current_context ≠ 0 ∧ tk1.current_context + 1 = tk.current_context ∧
      stack tk1 = (stack tk).dropLast)

/-- What a handler call did, by its result: `F` when it failed, `S` when it
reported no match, in which case the state is unchanged, and `step_post` when
it reported a match. -/
def handler_post (P : List tokenizer_context) (F S : Prop) (tk : tokenizer_t) :
    Option (Bool × tokenizer_t) → Prop
  | none => F
  | some (false, tk1) => tk1 = tk ∧ S
  | some (true, tk1) => step_post P tk tk1

/-- Agreement of two states on the fields that `step_post` looks at, the
tracked tag name apart. -/
def core_eq (X Y : tokenizer_t) : Prop :=
  X.scan = Y.scan ∧ X.yielded = Y.yielded ∧ X.f_callback = Y.f_callback ∧
    X.context = Y.context ∧ X.current_context = Y.current_context

/-- The bytes at which `scan_attributes` reports no match. -/
def attributes_stuck (c : Nat) : Bool :=
  (c != 32 && c != 9 && c != 13 && c != 10) && c != 61 && c != 47 && c != 62 && c != 39 &&
    c != 34 && (!is_alnum c && c != 58 && c != 45 && c != 95 && c != 46)

/-- The bytes at which `scan_attribute_name` reports no match. -/
def attribute_name_stuck (c : Nat) : Bool :=
  (!is_alnum c && c != 58 && c != 45 && c != 95 && c != 46) &&
    (c != 32 && c != 9 && c != 13 && c != 10) && c != 47 && c != 62 && c != 61

/-- The contexts that `scan_html` can push. -/
def html_pushes : List tokenizer_context :=
  [TOKENIZER_COMMENT, TOKENIZER_ATTRIBUTES, TOKENIZER_CDATA, TOKENIZER_OPEN_TAG,
    TOKENIZER_RCDATA, TOKENIZER_RAWTEXT, TOKENIZER_SCRIPT_DATA, TOKENIZER_PLAINTEXT]

/-- The active context: the top of the stack. -/
def top (tk : tokenizer_t) : tokenizer_context := tk.context tk.current_context

/-- The contexts that the handler of a context can push. -/
def pushes_of : tokenizer_context → List tokenizer_context
  | TOKENIZER_HTML => html_pushes
  | TOKENIZER_OPEN_TAG => [TOKENIZER_ATTRIBUTES]
  | TOKENIZER_ATTRIBUTES =>
    [TOKENIZER_ATTRIBUTE_VALUE, TOKENIZER_ATTRIBUTE_STRING, TOKENIZER_ATTRIBUTE_NAME]
  | TOKENIZER_ATTRIBUTE_VALUE => [TOKENIZER_ATTRIBUTE_STRING]
  | _ => []

/-- The states in which a handler call runs into undefined behaviour: a pop
at index 0, a NULL tag name in raw text, or a comment or CDATA section in a
buffer shorter than two bytes. -/
def fault_cond (tk : tokenizer_t) : Prop :=
  (top tk ≠ TOKENIZER_HTML ∧ tk.current_context = 0) ∨
  (is_raw (top tk) = true ∧ (tk.current_context = 0 ∨ tk.current_tag = none)) ∨
  ((top tk = TOKENIZER_COMMENT ∨ top tk = TOKENIZER_CDATA) ∧ tk.scan.length < 2)

/-- The states in which the handler reports no match. -/
def stuck_cond (tk : tokenizer_t) : Prop :=
  top tk = TOKENIZER_NONE ∨
  (top tk = TOKENIZER_ATTRIBUTES ∧ ∃ c t, rest tk.scan = c :: t ∧ attributes_stuck c = true) ∨
  (top tk = TOKENIZER_ATTRIBUTE_NAME ∧
    ∃ c t, rest tk.scan = c :: t ∧ attribute_name_stuck c = true)

/-- The measure that every matching handler call decreases. -/
def potential (tk : tokenizer_t) : Nat :=
  2 * (tk.scan.length - tk.scan.cursor) + tk.current_context

/-- A state of an instance created by `Tokenizer.new` during a call on a string
shorter than 2 GiB. -/
def base (tk : tokenizer_t) : Prop :=
  scan_ok tk.scan ∧ tk.f_callback = some callback_t.yield_tag

/-- The states that the loop of `scan_all` passes through: each is reached
from the one before by a handler call that reported a match, made while input
remained. -/
inductive steps : tokenizer_t → tokenizer_t → Prop
  | refl (tk : tokenizer_t) : steps tk tk
  | step (tk tk1 tk2 : tokenizer_t) : steps tk tk1 → eos tk1.scan = false →
      scan_once tk1 = some (true, tk2) → steps tk tk2

/-- The context stacks that can arise. -/
def valid_stacks : List (List tokenizer_context) :=
  [[TOKENIZER_HTML],
   [TOKENIZER_HTML, TOKENIZER_COMMENT],
   [TOKENIZER_HTML, TOKENIZER_CDATA],
   [TOKENIZER_HTML, TOKENIZER_RCDATA],
   [TOKENIZER_HTML, TOKENIZER_RAWTEXT],
   [TOKENIZER_HTML, TOKENIZER_SCRIPT_DATA],
   [TOKENIZER_HTML, TOKENIZER_PLAINTEXT],
   [TOKENIZER_HTML, TOKENIZER_OPEN_TAG],
   [TOKENIZER_HTML, TOKENIZER_ATTRIBUTES],
   [TOKENIZER_HTML, TOKENIZER_ATTRIBUTES, TOKENIZER_ATTRIBUTE_NAME],
   [TOKENIZER_HTML, TOKENIZER_ATTRIBUTES, TOKENIZER_ATTRIBUTE_STRING],
   [TOKENIZER_HTML, TOKENIZER_ATTRIBUTES, TOKENIZER_ATTRIBUTE_VALUE],
   [TOKENIZER_HTML, TOKENIZER_ATTRIBUTES, TOKENIZER_ATTRIBUTE_VALUE, TOKENIZER_ATTRIBUTE_STRING],
   [TOKENIZER_HTML, TOKENIZER_OPEN_TAG, TOKENIZER_ATTRIBUTES],
   [TOKENIZER_HTML, TOKENIZER_OPEN_TAG, TOKENIZER_ATTRIBUTES, TOKENIZER_ATTRIBUTE_NAME],
   [TOKENIZER_HTML, TOKENIZER_OPEN_TAG, TOKENIZER_ATTRIBUTES, TOKENIZER_ATTRIBUTE_STRING],
   [TOKENIZER_HTML, TOKENIZER_OPEN_TAG, TOKENIZER_ATTRIBUTES, TOKENIZER_ATTRIBUTE_VALUE],
   [TOKENIZER_HTML, TOKENIZER_OPEN_TAG, TOKENIZER_ATTRIBUTES, TOKENIZER_ATTRIBUTE_VALUE,
     TOKENIZER_ATTRIBUTE_STRING]]

/-- The invariant of the context stack and the tracked tag name that holds
across calls: the stack is one of `valid_stacks`, and a raw text context is
on it only while a tag name is tracked. -/
def shape (tk : tokenizer_t) : Prop :=
  stack tk ∈ valid_stacks ∧ ((∃ c ∈ stack tk, is_raw c = true) → tk.current_tag ≠ none)

/-- A view of a tokenizer state during a call, used to follow the handlers on
buffers of a given form: the cursor, the bytes from the cursor on, the context
stack, the tokens yielded so far and the scalar fields. -/
structure cfg where
  pos : Nat
  rest : List Nat
  stk : List tokenizer_context
  toks : List token
  tag : Option (List Nat)
  closing : Bool
  last : Option symbol
  found : Bool
  quote : Nat

/-- The state `tk` is the one that the view `c` describes. -/
def sees (tk : tokenizer_t) (c : cfg) : Prop :=
  scan_ok tk.scan ∧ tk.scan.cursor = c.pos ∧ rest tk.scan = c.rest ∧
    tk.f_callback = some callback_t.yield_tag ∧ stack tk = c.stk ∧ tk.yielded = c.toks ∧
    tk.current_tag = c.tag ∧ tk.is_closing_tag = c.closing ∧ tk.last_token = c.last ∧
    tk.found_attribute = c.found ∧ tk.attribute_value_start = c.quote

/-- The view after `tokenizer_callback`. -/
def cfg.emit (c : cfg) (sym : symbol) (n : Nat) : cfg :=
  { c with
    pos := c.pos + n
    rest := c.rest.drop n
    toks := c.toks ++ [⟨sym, c.pos, c.pos + n⟩]
    last := some sym }

/-- The view after `push_context`. -/
def cfg.push (c : cfg) (x : tokenizer_context) : cfg :=
  { c with stk := c.stk ++ [x] }

/-- The view after `pop_context`. -/
def cfg.pop (c : cfg) : Option cfg :=
  if c.stk.length ≤ 1 then none else some { c with stk := c.stk.dropLast }

/-- The view of a run classifier. -/
def cfg.run (c : cfg) (stop : Nat → Bool) : Bool × Nat :=
  (run_length stop c.rest != 0, run_length stop c.rest)

/-- The view of `is_char`. -/
def cfg.is_char (c : cfg) (x : Nat) : Bool := decide (c.rest.head? = some x)

/-- The view of `scan_html`. -/
def view_html (c : cfg) : Option (Bool × cfg) :=
  if decide ([60, 33, 45, 45] <+: c.rest) then
    some (true, (c.emit symbol.comment_start 4).push TOKENIZER_COMMENT)
  else if decide ([60, 33, 68, 79, 67, 84, 89, 80, 69].map tolower <+: c.rest.map tolower) then
    some (true, (c.emit symbol.tag_start 9).push TOKENIZER_ATTRIBUTES)
  else if decide ([60, 33, 91, 67, 68, 65, 84, 65, 91].map tolower <+: c.rest.map tolower) then
    some (true, (c.emit symbol.cdata_start 9).push TOKENIZER_CDATA)
  else if c.is_char 60 then
    if (c.emit symbol.tag_start 1).is_char 47 then
      let c2 := { c.emit symbol.tag_start 1 with closing := true }.emit symbol.solidus 1
      some (true, { c2 with tag := c2.tag.map fun _ => [] }.push TOKENIZER_OPEN_TAG)
    else
      let c2 := { c.emit symbol.tag_start 1 with closing := false }
      some (true, { c2 with tag := c2.tag.map fun _ => [] }.push TOKENIZER_OPEN_TAG)
  else if c.is_char 62 then
    let c1 := c.emit symbol.tag_end 1
    match c1.tag with
    | some tag =>
      if !c1.closing then
        if strcasecmp_eq [116, 105, 116, 108, 101] tag ||
            strcasecmp_eq [116, 101, 120, 116, 97, 114, 101, 97] tag then
          some (true, c1.push TOKENIZER_RCDATA)
        else if strcasecmp_eq [115, 116, 121, 108, 101] tag ||
            strcasecmp_eq [120, 109, 112] tag ||
            strcasecmp_eq [105, 102, 114, 97, 109, 101] tag ||
            strcasecmp_eq [110, 111, 101, 109, 98, 101, 100] tag ||
            strcasecmp_eq [110, 111, 102, 114, 97, 109, 101, 115] tag ||
            strcasecmp_eq [108, 105, 115, 116, 105, 110, 103] tag then
          some (true, c1.push TOKENIZER_RAWTEXT)
        else if strcasecmp_eq [115, 99, 114, 105, 112, 116] tag then
          some (true, c1.push TOKENIZER_SCRIPT_DATA)
        else if strcasecmp_eq [112, 108, 97, 105, 110, 116, 101, 120, 116] tag then
          some (true, c1.push TOKENIZER_PLAINTEXT)
        else some (true, c1)
      else some (true, c1)
    | none => some (true, c1)
  else if (c.run fun x => x == 60).1 then
    some (true, c.emit symbol.text (c.run fun x => x == 60).2)
  else some (false, c)

/-- The view of `scan_open_tag`. -/
def view_open_tag (c : cfg) : Option (Bool × cfg) :=
  let r := c.run fun x => x == 32 || x == 9 || x == 13 || x == 10 || x == 62 || x == 47
  if r.1 then
    some (true, { c.emit symbol.tag_name r.2 with
      tag := some (c.tag.getD [] ++ cstr (c.rest.take r.2)) })
  else if c.is_char 47 then
    some (true, (c.emit symbol.solidus 1).push TOKENIZER_ATTRIBUTES)
  else if (c.run fun x => x != 32 && x != 9 && x != 13 && x != 10).1 then
    some (true, (c.emit symbol.whitespace
      (c.run fun x => x != 32 && x != 9 && x != 13 && x != 10).2).push TOKENIZER_ATTRIBUTES)
  else if c.is_char 62 then c.pop.map fun c1 => (true, c1)
  else some (false, c)

/-- The view of `scan_attributes`. -/
def view_attributes (c : cfg) : Option (Bool × cfg) :=
  if (c.run fun x => x != 32 && x != 9 && x != 13 && x != 10).1 then
    some (true, c.emit symbol.whitespace
      (c.run fun x => x != 32 && x != 9 && x != 13 && x != 10).2)
  else if c.is_char 61 then
    some (true, { c.emit symbol.equal 1 with found := false }.push TOKENIZER_ATTRIBUTE_VALUE)
  else if c.is_char 47 then some (true, c.emit symbol.solidus 1)
  else if c.is_char 62 then c.pop.map fun c1 => (true, c1)
  else if c.is_char 39 || c.is_char 34 then
    some (true, ({ c with quote := c.rest.headD 0 }.emit symbol.attribute_value_start 1).push
      TOKENIZER_ATTRIBUTE_STRING)
  else if (c.run fun x => !is_alnum x && x != 58 && x != 45 && x != 95 && x != 46).1 then
    some (true, (c.emit symbol.attribute_name
      (c.run fun x => !is_alnum x && x != 58 && x != 45 && x != 95 && x != 46).2).push
      TOKENIZER_ATTRIBUTE_NAME)
  else some (false, c)

/-- The view of `scan_attribute_name`. -/
def view_attribute_name (c : cfg) : Option (Bool × cfg) :=
  if (c.run fun x => !is_alnum x && x != 58 && x != 45 && x != 95 && x != 46).1 then
    some (true, c.emit symbol.attribute_name
      (c.run fun x => !is_alnum x && x != 58 && x != 45 && x != 95 && x != 46).2)
  else if (c.run fun x => x != 32 && x != 9 && x != 13 && x != 10).1 || c.is_char 47 ||
      c.is_char 62 || c.is_char 61 then
    c.pop.map fun c1 => (true, c1)
  else some (false, c)

/-- The view of `scan_attribute_value`. -/
def view_attribute_value (c : cfg) : Option (Bool × cfg) :=
  if c.last = some symbol.attribute_value_end then c.pop.map fun c1 => (true, c1)
  else if c.is_char 47 || c.is_char 62 then c.pop.map fun c1 => (true, c1)
  else if (c.run fun x => x != 32 && x != 9 && x != 13 && x != 10).1 then
    let c1 := c.emit symbol.whitespace (c.run fun x => x != 32 && x != 9 && x != 13 && x != 10).2
    if c1.found then c1.pop.map fun c2 => (true, c2) else some (true, c1)
  else if c.is_char 39 || c.is_char 34 then
    some (true, { ({ c with quote := c.rest.headD 0 }.emit symbol.attribute_value_start 1).push
      TOKENIZER_ATTRIBUTE_STRING with found := true })
  else if (c.run fun x => x == 32 || x == 13 || x == 10 || x == 9 || x == 62).1 then
    some (true, { c.emit symbol.attribute_unquoted_value
      (c.run fun x => x == 32 || x == 13 || x == 10 || x == 9 || x == 62).2 with found := true })
  else some (false, c)

/-- The view of `scan_attribute_string`. -/
def view_attribute_string (c : cfg) : Option (Bool × cfg) :=
  if c.is_char c.quote then (c.emit symbol.attribute_value_end 1).pop.map fun c1 => (true, c1)
  else if (c.run fun x => x == c.quote).1 then
    some (true, c.emit symbol.text (c.run fun x => x == c.quote).2)
  else some (false, c)

/-- The view of `scan_comment` and `scan_cdata`. -/
def view_until_end (c : cfg) (x y z : Nat) (sym : symbol) : Option (Bool × cfg) :=
  if c.pos + c.rest.length < 2 then none
  else if (scan3 x y z c.rest).1 != 0 then
    if (scan3 x y z c.rest).2 then
      some (true, (c.emit symbol.text (scan3 x y z c.rest).1).emit sym 3)
    else some (true, c.emit symbol.text (scan3 x y z c.rest).1)
  else some (true, c.emit symbol.text c.rest.length)

/-- The view of the comparison `strncasecmp(tag_name, tk->current_tag, n)` of
`scan_rawtext`, on the bytes from the tag name on and the C string of the
tracked tag name from byte `k` on. -/
def tag_name_matches : List Nat → List Nat → Nat → Bool
  | _, _, 0 => true
  | l, t, n + 1 =>
    if tolower (l.headD 0) ≠ tolower (t.headD 0) then false
    else if l.headD 0 = 0 then true
    else tag_name_matches l.tail t.tail n

/-- The view of `scan_rawtext`. -/
def view_rawtext (c : cfg) : Option (Bool × cfg) :=
  let t := tag_start_of c.pos c.rest
  if t.matched then
    (if t.closing_tag then
        c.tag.map fun tag => tag_name_matches (c.rest.drop 2) (cstr tag) t.tag_name_length
      else some false).bind fun same =>
    if same then c.pop.map fun c1 => (true, c1)
    else some (true, c.emit symbol.text t.length)
  else if (c.run fun x => x == 60).1 then
    some (true, c.emit symbol.text (c.run fun x => x == 60).2)
  else some (true, c.emit symbol.text c.rest.length)

/-- The view of `scan_plaintext`. -/
def view_plaintext (c : cfg) : Option (Bool × cfg) :=
  some (true, c.emit symbol.text c.rest.length)

/-- The view of `scan_once`. -/
def view_once (c : cfg) : Option (Bool × cfg) :=
  match c.stk.getLast?.getD TOKENIZER_NONE with
  | TOKENIZER_NONE => some (false, c)
  | TOKENIZER_HTML => view_html c
  | TOKENIZER_OPEN_TAG => view_open_tag c
  | TOKENIZER_COMMENT => view_until_end c 45 45 62 symbol.comment_end
  | TOKENIZER_CDATA => view_until_end c 93 93 62 symbol.cdata_end
  | TOKENIZER_RCDATA => view_rawtext c
  | TOKENIZER_RAWTEXT => view_rawtext c
  | TOKENIZER_SCRIPT_DATA => view_rawtext c
  | TOKENIZER_PLAINTEXT => view_plaintext c
  | TOKENIZER_ATTRIBUTES => view_attributes c
  | TOKENIZER_ATTRIBUTE_NAME => view_attribute_name c
  | TOKENIZER_ATTRIBUTE_VALUE => view_attribute_value c
  | TOKENIZER_ATTRIBUTE_STRING => view_attribute_string c

/-- The view of the loop of `scan_all` followed by the statement after it:
`none` when the fuel runs out, `some none` on undefined behaviour. -/
def view_all : Nat → cfg → Option (Option cfg)
  | 0, _ => none
  | n + 1, c =>
    if c.rest = [] then some (some c)
    else match view_once c with
      | none => some none
      | some (true, c1) => view_all n c1
      | some (false, c1) =>
        some (some (if c1.rest = [] then c1 else c1.emit symbol.malformed c1.rest.length))

/-- The view of a bound instance at the start of a call. -/
def cfg.start (tk : tokenizer_t) (source : List Nat) : cfg :=
  { pos := 0, rest := source, stk := stack tk, toks := [], tag := tk.current_tag,
    closing := tk.is_closing_tag, last := tk.last_token, found := tk.found_attribute,
    quote := tk.attribute_value_start }

/-- The result of a handler and the result of its view agree. -/
def rel : Option (Bool × tokenizer_t) → Option (Bool × cfg) → Prop
  | none, none => True
  | some (b, tk), some (b1, c) => b = b1 ∧ sees tk c
  | _, _ => False

/-- The result of a call and the result of its view agree. -/
def rel_all : outcome → Option (Option cfg) → Prop
  | outcome.timeout, none => True
  | outcome.fault, some none => True
  | outcome.done tk, some (some c) => sees tk c
  | _, _ => False

/-- The stop test of the loop of `is_tag_name`. -/
def name_stop (x : Nat) : Bool := x == 32 || x == 9 || x == 13 || x == 10 || x == 62 || x == 47

/-- The stop test of the loop of `is_whitespace`. -/
def space_stop (x : Nat) : Bool := x != 32 && x != 9 && x != 13 && x != 10

/-- The stop test of the loop of `is_attribute_name`. -/
def attr_stop (x : Nat) : Bool := !is_alnum x && x != 58 && x != 45 && x != 95 && x != 46

/-- The content mode that `scan_html` selects after `>`: the context pushed
for the tracked tag name, when there is one and the tag is not a closing tag. -/
def tag_mode (tag : Option (List Nat)) (closing : Bool) : Option tokenizer_context :=
  match tag with
  | some t =>
    if !closing then
      if strcasecmp_eq [116, 105, 116, 108, 101] t ||
          strcasecmp_eq [116, 101, 120, 116, 97, 114, 101, 97] t then some TOKENIZER_RCDATA
      else if strcasecmp_eq [115, 116, 121, 108, 101] t ||
          strcasecmp_eq [120, 109, 112] t ||
          strcasecmp_eq [105, 102, 114, 97, 109, 101] t ||
          strcasecmp_eq [110, 111, 101, 109, 98, 101, 100] t ||
          strcasecmp_eq [110, 111, 102, 114, 97, 109, 101, 115] t ||
          strcasecmp_eq [108, 105, 115, 116, 105, 110, 103] t then some TOKENIZER_RAWTEXT
      else if strcasecmp_eq [115, 99, 114, 105, 112, 116] t then some TOKENIZER_SCRIPT_DATA
      else if strcasecmp_eq [112, 108, 97, 105, 110, 116, 101, 120, 116] t then
        some TOKENIZER_PLAINTEXT
      else none
    else none
  | none => none

/-- The characters of an attribute name. -/
def is_attr_char (x : Nat) : Bool := is_alnum x || x == 58 || x == 45 || x == 95 || x == 46

/-- Equality of two byte strings ignoring ASCII case. -/
def eq_ignoring_case (a b : List Nat) : Bool := decide (a.map tolower = b.map tolower)

/-- The content-mode table in the words of the specification: the state
entered after the open tag of the element named `T`, if any. -/
def spec_content_mode (T : List Nat) : Option tokenizer_context :=
  if eq_ignoring_case T (bytes "title") || eq_ignoring_case T (bytes "textarea") then
    some TOKENIZER_RCDATA
  else if eq_ignoring_case T (bytes "style") || eq_ignoring_case T (bytes "xmp") ||
      eq_ignoring_case T (bytes "iframe") || eq_ignoring_case T (bytes "noembed") ||
      eq_ignoring_case T (bytes "noframes") || eq_ignoring_case T (bytes "listing") then
    some TOKENIZER_RAWTEXT
  else if eq_ignoring_case T (bytes "script") then some TOKENIZER_SCRIPT_DATA
  else if eq_ignoring_case T (bytes "plaintext") then some TOKENIZER_PLAINTEXT
  else none

/-- A further call of `tokenize` on the instance that an earlier call left,
when that call returned. -/
def outcome.tokenize (o : outcome) (source : List Nat) : outcome :=
  match o with
  | outcome.done tk => tokenizer_tokenize_method tk source
  | outcome.fault => outcome.fault
  | outcome.timeout => outcome.timeout

/-- Whether a call ran into undefined behaviour. -/
def outcome.faulted : outcome → Bool
  | outcome.fault => true
  | _ => false

/-- The states of an instance that `Tokenizer.new` and any sequence of
`tokenize` calls on buffers shorter than 2 GiB pass through: the state after
`tokenizer_init`, the state after the assignments that begin a call, the state
after each handler call of the loop of `scan_all`, and the state after the
statement that follows the loop. -/
inductive reachable : tokenizer_t → Prop
  | init : reachable fresh
  | call (tk : tokenizer_t) (source : List Nat) : reachable tk → source.length < 2 ^ 31 →
      reachable (bind_source tk source)
  | step (tk tk1 : tokenizer_t) (b : Bool) : reachable tk → eos tk.scan = false →
      scan_once tk = some (b, tk1) → reachable tk1
  | tail (tk : tokenizer_t) : reachable tk → reachable (scan_tail tk)

/-- The terminator token of a comment or CDATA context. -/
def end_symbol (c : tokenizer_context) : symbol :=
  if c = TOKENIZER_CDATA then symbol.cdata_end else symbol.comment_end

/-- The states that later `tokenize` calls on an instance leave, each call on
a buffer shorter than 2 GiB and returning. -/
inductive later_call : tokenizer_t → tokenizer_t → Prop
  | first (tk tk2 : tokenizer_t) (source : List Nat) : source.length < 2 ^ 31 →
      tokenizer_tokenize_method tk source = outcome.done tk2 → later_call tk tk2
  | next (tk tk1 tk2 : tokenizer_t) (source : List Nat) : later_call tk tk1 →
      source.length < 2 ^ 31 →
      tokenizer_tokenize_method tk1 source = outcome.done tk2 → later_call tk tk2

/-- The view of a state. -/
def view_of (tk : tokenizer_t) : cfg :=
  ⟨tk.scan.cursor, rest tk.scan, stack tk, tk.yielded, tk.current_tag, tk.is_closing_tag,
    tk.last_token, tk.found_attribute, tk.attribute_value_start⟩

/-- The stop test of the loop of `is_unquoted_value`. -/
def value_stop (x : Nat) : Bool := x == 32 || x == 13 || x == 10 || x == 9 || x == 62

/-- The first handler call of a further `tokenize` call on the instance that
an earlier call left: its result, the tokens it yielded and the stack after it. -/
def outcome.once (o : outcome) (source : List Nat) :
    Option (Bool × List token × List tokenizer_context) :=
  match o with
  | outcome.done tk =>
    (scan_once (bind_source tk source)).map fun r => (r.1, r.2.yielded, HtmlTokenizer.stack r.2)
  | _ => none

/-- The stack, the last token kind and the found-attribute flag that a call
left, when it returned. -/
def outcome.value_state (o : outcome) :
    Option (List tokenizer_context × Option symbol × Bool) :=
  match o with
  | outcome.done tk => some (HtmlTokenizer.stack tk, tk.last_token, tk.found_attribute)
  | _ => none

theorem u32_of_lt {n : Nat} (h : n < 2 ^ 32) : u32 n = n := Nat.mod_eq_of_lt h

theorem length_remaining_eq {s : scan_t} (h : scan_ok s) :
    length_remaining s = ((s.length - s.cursor : Nat) : Int) := by
  obtain ⟨_, h2, h3⟩ := h
  have e : u32sub s.length s.cursor = s.length - s.cursor := by
    unfold u32sub u32; omega
  have e2 : u32 (s.length - s.cursor) = s.length - s.cursor := by unfold u32; omega
  unfold length_remaining int32
  rw [e, e2, if_pos (by omega)]

theorem u32_of_int_remaining {s : scan_t} (h : scan_ok s) :
    u32_of_int (length_remaining s) = s.length - s.cursor := by
  rw [length_remaining_eq h]
  obtain ⟨_, h2, h3⟩ := h
  unfold u32_of_int; omega

theorem char_at_lt {s : scan_t} {i : Nat} (h : i < s.string.length) :
    char_at s i = some s.string[i] := by
  unfold char_at
  rw [List.getElem?_append_left h, List.getElem?_eq_getElem h]

theorem char_at_length (s : scan_t) : char_at s s.string.length = some 0 := by
  unfold char_at
  simp

theorem char_at_some {s : scan_t} {i : Nat} (h : i ≤ s.string.length) :
    ∃ c, char_at s i = some c := by
  rcases Nat.lt_or_ge i s.string.length with h1 | h1
  · exact ⟨_, char_at_lt h1⟩
  · have : i = s.string.length := by omega
    subst this; exact ⟨_, char_at_length s⟩

theorem char_at_none {s : scan_t} {i : Nat} (h : s.string.length < i) :
    char_at s i = none := by
  unfold char_at
  simp; omega

theorem run_length_le (stop : Nat → Bool) (l : List Nat) : run_length stop l ≤ l.length := by
  unfold run_length
  exact (List.takeWhile_sublist _).length_le

theorem run_loop_eq (s : scan_t) (stop : Nat → Bool) (hl : s.length = s.string.length) :
    ∀ (fuel i len : Nat), fuel = s.length - i →
      run_loop s stop fuel i len = some (len + run_length stop (s.string.drop i)) := by
  intro fuel
  induction fuel with
  | zero =>
    intro i len h
    have : s.string.drop i = [] := by
      apply List.drop_eq_nil_of_le; omega
    simp [run_loop, this, run_length]
  | succ n ih =>
    intro i len h
    have hi : i < s.string.length := by omega
    have hd : s.string.drop i = s.string[i] :: s.string.drop (i + 1) :=
      List.drop_eq_getElem_cons hi
    rw [run_loop, if_pos (by omega), char_at_lt hi, Option.some_bind]
    generalize s.string[i] = c at hd
    by_cases hs : stop c = true
    · rw [if_pos hs, hd]
      simp [run_length, hs]
    · rw [if_neg hs, ih (i + 1) (len + 1) (by omega), hd]
      simp [run_length, hs]
      omega

theorem run_from_cursor_eq {s : scan_t} (h : scan_ok s) (stop : Nat → Bool) :
    run_from_cursor s stop =
      some (run_length stop (s.string.drop s.cursor) != 0,
        run_length stop (s.string.drop s.cursor)) := by
  unfold run_from_cursor
  rw [run_loop_eq s stop h.1 _ _ _ rfl]
  simp

theorem rest_length {s : scan_t} (h : scan_ok s) : (rest s).length = s.length - s.cursor := by
  unfold rest; rw [List.length_drop, h.1]

theorem is_char_eq {s : scan_t} (h : scan_ok s) (c : Nat) :
    is_char s c = some (decide ((rest s).head? = some c)) := by
  unfold is_char
  rw [length_remaining_eq h]
  obtain ⟨h1, h2, h3⟩ := h
  by_cases hc : s.cursor < s.length
  · have hi : s.cursor < s.string.length := by omega
    rw [if_pos (by omega), char_at_lt hi]
    unfold rest
    rw [List.drop_eq_getElem_cons hi, List.head?_cons]
    simp only [Option.some.injEq, Option.map_some']
  · rw [if_neg (by omega)]
    have : s.string.drop s.cursor = [] := by
      apply List.drop_eq_nil_of_le; omega
    simp [rest, this]

theorem strncmp_eq_eq (s : scan_t) (lit : List Nat) :
    ∀ i, i + lit.length ≤ s.string.length →
      strncmp_eq s i lit = some (decide (lit <+: s.string.drop i)) := by
  induction lit with
  | nil => intro i _; simp [strncmp_eq]
  | cons c cs ih =>
    intro i h
    simp only [List.length_cons] at h
    have hi : i < s.string.length := by omega
    rw [strncmp_eq, char_at_lt hi, Option.some_bind, List.drop_eq_getElem_cons hi]
    by_cases hb : s.string[i] = c
    · rw [if_pos hb, ih (i + 1) (by omega)]
      simp only [List.cons_prefix_cons, hb, true_and]
    · rw [if_neg hb]
      have hb2 : ¬ c = s.string[i] := fun e => hb e.symm
      simp only [List.cons_prefix_cons, hb2, false_and, decide_False]

theorem strncasecmp_eq_eq (s : scan_t) (lit : List Nat) :
    ∀ i, i + lit.length ≤ s.string.length →
      strncasecmp_eq s i lit =
        some (decide (lit.map tolower <+: (s.string.drop i).map tolower)) := by
  induction lit with
  | nil => intro i _; simp [strncasecmp_eq]
  | cons c cs ih =>
    intro i h
    simp only [List.length_cons] at h
    have hi : i < s.string.length := by omega
    rw [strncasecmp_eq, char_at_lt hi, Option.some_bind, List.drop_eq_getElem_cons hi,
      List.map_cons, List.map_cons]
    by_cases hb : tolower s.string[i] = tolower c
    · rw [if_pos hb, ih (i + 1) (by omega)]
      simp only [List.cons_prefix_cons, hb, true_and]
    · rw [if_neg hb]
      have hb2 : ¬ tolower c = tolower s.string[i] := fun e => hb e.symm
      simp only [List.cons_prefix_cons, hb2, false_and, decide_False]

theorem prefix_length_false {l r : List Nat} (h : r.length < l.length) :
    decide (l <+: r) = false := by
  simp only [decide_eq_false_iff_not]
  intro hp
  have := hp.length_le
  omega

theorem is_comment_start_eq {s : scan_t} (h : scan_ok s) :
    is_comment_start s = some (decide ([60, 33, 45, 45] <+: rest s)) := by
  unfold is_comment_start
  rw [length_remaining_eq h]
  have hr := rest_length h
  obtain ⟨h1, h2, h3⟩ := h
  by_cases hc : s.cursor + 4 ≤ s.length
  · rw [if_pos (by omega), strncmp_eq_eq s _ _ (by simp; omega)]; rfl
  · rw [if_neg (by omega), prefix_length_false (by simp; omega)]

theorem is_doctype_eq {s : scan_t} (h : scan_ok s) :
    is_doctype s = some (decide ([60, 33, 68, 79, 67, 84, 89, 80, 69].map tolower <+:
      (rest s).map tolower)) := by
  unfold is_doctype
  rw [length_remaining_eq h]
  have hr := rest_length h
  obtain ⟨h1, h2, h3⟩ := h
  by_cases hc : s.cursor + 9 ≤ s.length
  · rw [if_pos (by omega), strncasecmp_eq_eq s _ _ (by simp; omega)]; rfl
  · rw [if_neg (by omega), prefix_length_false (by simp; omega)]

theorem is_cdata_start_eq {s : scan_t} (h : scan_ok s) :
    is_cdata_start s = some (decide ([60, 33, 91, 67, 68, 65, 84, 65, 91].map tolower <+:
      (rest s).map tolower)) := by
  unfold is_cdata_start
  rw [length_remaining_eq h]
  have hr := rest_length h
  obtain ⟨h1, h2, h3⟩ := h
  by_cases hc : s.cursor + 9 ≤ s.length
  · rw [if_pos (by omega), strncasecmp_eq_eq s _ _ (by simp; omega)]; rfl
  · rw [if_neg (by omega), prefix_length_false (by simp; omega)]

theorem scan3_short (a b c : Nat) (l : List Nat) (h : l.length ≤ 2) :
    scan3 a b c l = (0, false) := by
  match l, h with
  | [], _ => rfl
  | [_], _ => rfl
  | [_, _], _ => rfl

theorem scan3_bound (a b c : Nat) : ∀ l : List Nat,
    ((scan3 a b c l).2 = true → (scan3 a b c l).1 + 3 ≤ l.length) ∧
    ((scan3 a b c l).2 = false → (scan3 a b c l).1 = l.length - 2) := by
  intro l
  induction l with
  | nil => simp [scan3]
  | cons x t ih =>
    match t, ih with
    | [], _ => simp [scan3]
    | [y], _ => simp [scan3]
    | y :: z :: u, ih =>
      rw [scan3]
      by_cases hm : x = a ∧ y = b ∧ z = c
      · rw [if_pos hm]; simp
      · rw [if_neg hm]
        simp only [List.length_cons] at ih ⊢
        constructor
        · intro h; have := ih.1 h; omega
        · intro h; have := ih.2 h; omega

theorem match3_eq {s : scan_t} {i : Nat} (a b c : Nat) (h : i + 2 < s.string.length)
    (hb : s.string.length < 2 ^ 31) :
    match3 s i a b c =
      some (decide (s.string[i] = a ∧ s.string[i + 1] = b ∧ s.string[i + 2] = c)) := by
  unfold match3
  have e1 : u32 (i + 1) = i + 1 := by unfold u32; omega
  have e2 : u32 (i + 2) = i + 2 := by unfold u32; omega
  rw [e1, e2, char_at_lt (by omega : i < s.string.length),
    char_at_lt (by omega : i + 1 < s.string.length), char_at_lt h]
  by_cases h1 : s.string[i] = a
  · by_cases h2 : s.string[i + 1] = b
    · simp [h1, h2]
    · simp [h1, h2]
  · simp [h1]

theorem end_loop_eq {s : scan_t} (a b c : Nat) (hl : s.length = s.string.length)
    (hb : s.length < 2 ^ 31) :
    ∀ (fuel i len : Nat), fuel = s.length - 2 - i →
      end_loop s a b c (s.length - 2) fuel i len =
        some (len + (scan3 a b c (s.string.drop i)).1, (scan3 a b c (s.string.drop i)).2) := by
  intro fuel
  induction fuel with
  | zero =>
    intro i len h
    rw [scan3_short a b c _ (by rw [List.length_drop]; omega)]
    rfl
  | succ n ih =>
    intro i len h
    have h0 : i < s.string.length := by omega
    have h1 : i + 1 < s.string.length := by omega
    have h2 : i + 2 < s.string.length := by omega
    rw [end_loop, if_pos (by omega), match3_eq a b c h2 (by omega), Option.some_bind,
      List.drop_eq_getElem_cons h0, List.drop_eq_getElem_cons h1, List.drop_eq_getElem_cons h2,
      scan3]
    by_cases hm : s.string[i] = a ∧ s.string[i + 1] = b ∧ s.string[i + 2] = c
    · rw [if_pos hm]; simp [hm]
    · rw [if_neg hm]
      simp only [hm, decide_False, Bool.false_eq_true, if_false]
      rw [ih (i + 1) (len + 1) (by omega), List.drop_eq_getElem_cons h1,
        List.drop_eq_getElem_cons h2]
      simp only [Option.some.injEq, Prod.mk.injEq, and_true]
      omega

theorem find_end_eq {s : scan_t} (h : scan_ok s) (h2 : 2 ≤ s.length) (a b c : Nat) :
    find_end s a b c =
      some ((scan3 a b c (rest s)).1 != 0, (scan3 a b c (rest s)).1, (scan3 a b c (rest s)).2) := by
  obtain ⟨h1, hb, h3⟩ := h
  have e : u32sub s.length 2 = s.length - 2 := by unfold u32sub u32; omega
  unfold find_end
  rw [e, end_loop_eq a b c h1 hb _ _ _ rfl]
  simp [rest]

theorem end_loop_none {s : scan_t} (a b c bound : Nat) {fuel i len : Nat}
    (hi : s.string.length < i) (hf : 0 < fuel) (hb : i < bound) :
    end_loop s a b c bound fuel i len = none := by
  obtain ⟨n, rfl⟩ : ∃ n, fuel = n + 1 := ⟨fuel - 1, by omega⟩
  rw [end_loop, if_pos hb]
  unfold match3
  rw [char_at_none hi]
  rfl

theorem find_end_short {s : scan_t} (h : scan_ok s) (hc : s.cursor < s.length)
    (h2 : s.length < 2) (a b c : Nat) (ha : a ≠ 0) (hb0 : b ≠ 0) :
    find_end s a b c = none := by
  obtain ⟨h1, hb, h3⟩ := h
  have hl : s.length = 1 := by omega
  have hcur : s.cursor = 0 := by omega
  have hs : s.string.length = 1 := by omega
  have h0 : 0 < s.string.length := by omega
  have m0 : match3 s 0 a b c = some false := by
    unfold match3
    rw [char_at_lt h0, Option.some_bind]
    by_cases hx : s.string[0] = a
    · have e1 : u32 (0 + 1) = s.string.length := by rw [hs]; rfl
      rw [if_pos hx, e1, char_at_length, Option.some_bind, if_neg (fun e => hb0 e.symm)]
    · rw [if_neg hx]
  have m1 : match3 s 1 a b c = some false := by
    unfold match3
    have e1 : (1 : Nat) = s.string.length := hs.symm
    rw [e1, char_at_length, Option.some_bind, if_neg (fun e => ha e.symm)]
  have e : u32sub s.length 2 = 4294967295 := by unfold u32sub u32; omega
  unfold find_end
  rw [e, hcur]
  have e3 : (4294967295 : Nat) - 0 = 4294967292 + 1 + 1 + 1 := by norm_num
  rw [e3, end_loop, if_pos (by norm_num), m0, Option.some_bind]
  simp only [Bool.false_eq_true, if_false]
  rw [end_loop, if_pos (by norm_num), m1, Option.some_bind]
  simp only [Bool.false_eq_true, if_false]
  rw [end_loop_none a b c _ (by omega) (by omega) (by norm_num)]
  rfl

theorem take_run_length (stop : Nat → Bool) (l : List Nat) :
    l.take (run_length stop l) = l.takeWhile fun c => !stop c := by
  unfold run_length
  induction l with
  | nil => rfl
  | cons x t ih =>
    by_cases h : stop x = true
    · simp [List.takeWhile, h]
    · simp [List.takeWhile, h, ih]

theorem run_length_pos {stop : Nat → Bool} {x : Nat} {t : List Nat} (h : stop x = false) :
    0 < run_length stop (x :: t) := by
  simp [run_length, List.takeWhile, h]

theorem run_length_zero {stop : Nat → Bool} {x : Nat} {t : List Nat} (h : stop x = true) :
    run_length stop (x :: t) = 0 := by
  simp [run_length, List.takeWhile, h]

theorem run_length_append {stop : Nat → Bool} {a : List Nat} (c : Nat) (r : List Nat)
    (ha : ∀ x ∈ a, stop x = false) (hc : stop c = true) :
    run_length stop (a ++ c :: r) = a.length := by
  induction a with
  | nil => simpa using run_length_zero hc
  | cons x t ih =>
    have hx : stop x = false := ha x (List.mem_cons_self _ _)
    have := ih (fun y hy => ha y (List.mem_cons_of_mem _ hy))
    simp [run_length, List.takeWhile, hx] at this ⊢
    exact this

theorem run_length_all {stop : Nat → Bool} {a : List Nat} (ha : ∀ x ∈ a, stop x = false) :
    run_length stop a = a.length := by
  induction a with
  | nil => rfl
  | cons x t ih =>
    have hx : stop x = false := ha x (List.mem_cons_self _ _)
    have := ih (fun y hy => ha y (List.mem_cons_of_mem _ hy))
    simp [run_length, List.takeWhile, hx] at this ⊢
    exact this

theorem rest_cons {s : scan_t} (h : scan_ok s) (hc : s.cursor < s.length) :
    ∃ c, rest s = c :: s.string.drop (s.cursor + 1) ∧ char_at s s.cursor = some c := by
  have hi : s.cursor < s.string.length := by have := h.1; omega
  exact ⟨s.string[s.cursor], List.drop_eq_getElem_cons hi, char_at_lt hi⟩

theorem is_tag_start_eq {s : scan_t} (h : scan_ok s) (hc : s.cursor < s.length) :
    is_tag_start s = some (tag_start_of s.cursor (rest s)) := by
  obtain ⟨c0, hr, h0⟩ := rest_cons h hc
  obtain ⟨h1, hb, h3⟩ := h
  have ets : (fun c => !is_alnum c && c != 58) = tag_stop := rfl
  have e1 : u32 (s.cursor + 1) = s.cursor + 1 := by unfold u32; omega
  have e2 : u32 (s.cursor + 2) = s.cursor + 2 := by unfold u32; omega
  unfold is_tag_start
  rw [h0, Option.some_bind, hr, ets]
  unfold tag_start_of
  by_cases hc0 : c0 ≠ 60
  · simp only [hc0, ne_eq, not_false_eq_true, if_true]
  · simp only [hc0, if_false]
    rw [e1]
    rcases Nat.lt_or_ge (s.cursor + 1) s.string.length with h4 | h4
    · have hd1 : s.string.drop (s.cursor + 1) =
          s.string[s.cursor + 1] :: s.string.drop (s.cursor + 2) := List.drop_eq_getElem_cons h4
      rw [char_at_lt h4, Option.some_bind]
      generalize s.string[s.cursor + 1] = c1 at hd1
      rw [hd1, List.head?_cons, List.tail_cons]
      by_cases hc1 : c1 = 47
      · simp only [hc1, decide_True, if_true, e2]
        rw [run_loop_eq s _ h1 _ _ _ rfl]
        simp only [Option.map_some', Option.some.injEq, tag_start_t.mk.injEq, true_and]
        refine ⟨?_, ?_⟩
        · simp
        · omega
      · simp only [hc1, decide_False, Bool.false_eq_true, if_false, e1, Option.some.injEq,
          false_and]
        rw [run_loop_eq s _ h1 _ _ _ rfl, hd1]
        simp only [Option.map_some', Option.some.injEq, tag_start_t.mk.injEq, true_and]
        refine ⟨?_, ?_⟩
        · simp
        · omega
    · have e : s.cursor + 1 = s.string.length := by omega
      rw [e, char_at_length, Option.some_bind]
      have hd : s.string.drop s.string.length = [] := List.drop_length _
      have e3 : u32 (s.cursor + 1) = s.string.length := by rw [e1, e]
      have e4 : s.length - s.string.length = 0 := by omega
      simp only [hd, List.head?_nil]
      simp [run_loop, run_length, e3, e4]

theorem tokenizer_callback_eq {tk : tokenizer_t} (hcb : tk.f_callback = some callback_t.yield_tag)
    (sym : symbol) (n : Nat) :
    tokenizer_callback tk sym n =
      { tk with
        last_token := some sym
        yielded := tk.yielded ++ [⟨sym, tk.scan.cursor, u32 (tk.scan.cursor + n)⟩]
        scan := { tk.scan with cursor := u32 (tk.scan.cursor + n) } } := by
  simp [tokenizer_callback, hcb, tokenizer_yield_tag]

theorem stack_push (ctx : Nat → tokenizer_context) (cc : Nat) (c : tokenizer_context) :
    List.map (set_slot ctx (cc + 1) c) (List.range (cc + 1 + 1)) =
      List.map ctx (List.range (cc + 1)) ++ [c] := by
  rw [List.range_succ, List.map_append]
  congr 1
  · apply List.map_congr_left
    intro j hj
    have : j < cc + 1 := List.mem_range.mp hj
    simp [set_slot]; omega
  · simp [set_slot]

theorem stack_pop (ctx : Nat → tokenizer_context) (cc : Nat) (v : tokenizer_context)
    (h : cc ≠ 0) :
    List.map (set_slot ctx cc v) (List.range (cc - 1 + 1)) =
      (List.map ctx (List.range (cc + 1))).dropLast := by
  have e : cc - 1 + 1 = cc := by omega
  rw [e, List.range_succ, List.map_append]
  simp only [List.map_cons, List.map_nil, List.dropLast_concat]
  apply List.map_congr_left
  intro j hj
  have : j < cc := List.mem_range.mp hj
  simp [set_slot]; omega

theorem run_from_cursor_rest {s : scan_t} (h : scan_ok s) (stop : Nat → Bool) :
    run_from_cursor s stop =
      some (run_length stop (rest s) != 0, run_length stop (rest s)) :=
  run_from_cursor_eq h stop

theorem step_post_congr {P : List tokenizer_context} {tk X Y : tokenizer_t}
    (h : step_post P tk Y) (hs : X.scan = Y.scan) (hy : X.yielded = Y.yielded)
    (hf : X.f_callback = Y.f_callback) (hc : X.context = Y.context)
    (hcc : X.current_context = Y.current_context) (ht : X.current_tag = Y.current_tag) :
    step_post P tk X := by
  have hst : stack X = stack Y := by unfold stack; rw [hc, hcc]
  obtain ⟨h1, h2, h3, h4, h5, h6, h7⟩ := h
  refine ⟨?_, ?_, ?_, ?_, ?_, ?_, ?_⟩
  · rw [hs]; exact h1
  · rw [hs]; exact h2
  · rw [hf]; exact h3
  · rw [hs]; exact h4
  · rw [hs, hy]; exact h5
  · rw [ht]; exact h6
  · rw [hs, hy, hcc, hst, ht]; exact h7

theorem post_emit {P : List tokenizer_context} {tk : tokenizer_t} (hok : scan_ok tk.scan)
    (hcb : tk.f_callback = some callback_t.yield_tag) (sym : symbol) (n : Nat)
    (hsym : sym ≠ symbol.malformed) (h1 : 1 ≤ n) (hn : tk.scan.cursor + n ≤ tk.scan.length) :
    step_post P tk (tokenizer_callback tk sym n) := by
  obtain ⟨_, hb, _⟩ := hok
  have e : u32 (tk.scan.cursor + n) = tk.scan.cursor + n := by unfold u32; omega
  rw [tokenizer_callback_eq hcb, e]
  refine ⟨rfl, rfl, rfl, hn, ⟨[⟨sym, tk.scan.cursor, tk.scan.cursor + n⟩], rfl, ⟨rfl, rfl⟩, ?_⟩,
    fun h => h, Or.inl ⟨?_, Or.inl rfl⟩⟩
  · intro t ht
    rw [List.mem_singleton] at ht
    subst ht
    exact ⟨by show tk.scan.cursor < tk.scan.cursor + n; omega, hsym⟩
  · show tk.scan.cursor < tk.scan.cursor + n; omega

theorem post_emit_push {P : List tokenizer_context} {tk : tokenizer_t} (hok : scan_ok tk.scan)
    (hcb : tk.f_callback = some callback_t.yield_tag) (sym : symbol) (n : Nat)
    (c : tokenizer_context) (hsym : sym ≠ symbol.malformed) (h1 : 1 ≤ n)
    (hn : tk.scan.cursor + n ≤ tk.scan.length) (hc : c ∈ P)
    (hraw : is_raw c = false ∨ tk.current_tag ≠ none)
    (hcom : (c ≠ TOKENIZER_COMMENT ∧ c ≠ TOKENIZER_CDATA) ∨ 2 ≤ tk.scan.length) :
    step_post P tk (push_context (tokenizer_callback tk sym n) c) := by
  obtain ⟨_, hb, _⟩ := hok
  have hraw1 : is_raw c = true → tk.current_tag ≠ none := by
    intro h; rcases hraw with h1 | h1
    · rw [h1] at h; cases h
    · exact h1
  have hcom1 : c = TOKENIZER_COMMENT ∨ c = TOKENIZER_CDATA → 2 ≤ tk.scan.length := by
    intro h; rcases hcom with h1 | h1
    · rcases h with h | h
      · exact absurd h h1.1
      · exact absurd h h1.2
    · exact h1
  have e : u32 (tk.scan.cursor + n) = tk.scan.cursor + n := by unfold u32; omega
  rw [tokenizer_callback_eq hcb, e]
  refine ⟨rfl, rfl, rfl, hn, ⟨[⟨sym, tk.scan.cursor, tk.scan.cursor + n⟩], rfl, ⟨rfl, rfl⟩, ?_⟩,
    fun h => h, Or.inl ⟨?_, Or.inr ⟨c, hc, stack_push _ _ _, hraw1, hcom1⟩⟩⟩
  · intro t ht
    rw [List.mem_singleton] at ht
    subst ht
    exact ⟨by show tk.scan.cursor < tk.scan.cursor + n; omega, hsym⟩
  · show tk.scan.cursor < tk.scan.cursor + n; omega

theorem step_post_of_core {P : List tokenizer_context} {tk X Y : tokenizer_t}
    (h : step_post P tk Y) (hcore : core_eq X Y)
    (ht : Y.current_tag ≠ none → X.current_tag ≠ none) : step_post P tk X := by
  obtain ⟨hs, hy, hf, hc, hcc⟩ := hcore
  have hst : stack X = stack Y := by unfold stack; rw [hc, hcc]
  obtain ⟨h1, h2, h3, h4, h5, h6, h7⟩ := h
  refine ⟨?_, ?_, ?_, ?_, ?_, ?_, ?_⟩
  · rw [hs]; exact h1
  · rw [hs]; exact h2
  · rw [hf]; exact h3
  · rw [hs]; exact h4
  · rw [hs, hy]; exact h5
  · exact fun h => ht (h6 h)
  · rw [hs, hy, hcc, hst]
    rcases h7 with ⟨ha, hb⟩ | hb | hb
    · refine Or.inl ⟨ha, ?_⟩
      rcases hb with hb | ⟨c, hc1, hc2, hc3, hc4⟩
      · exact Or.inl hb
      · exact Or.inr ⟨c, hc1, hc2, fun h => ht (hc3 h), hc4⟩
    · exact Or.inr (Or.inl hb)
    · exact Or.inr (Or.inr hb)

theorem scan_ok_callback {tk : tokenizer_t} (hok : scan_ok tk.scan) (sym : symbol) (n : Nat)
    (hn : tk.scan.cursor + n ≤ tk.scan.length) :
    scan_ok (tokenizer_callback tk sym n).scan ∧
      (tokenizer_callback tk sym n).scan.cursor = tk.scan.cursor + n ∧
      (tokenizer_callback tk sym n).scan.length = tk.scan.length ∧
      (tokenizer_callback tk sym n).scan.string = tk.scan.string ∧
      rest (tokenizer_callback tk sym n).scan = (rest tk.scan).drop n := by
  obtain ⟨h1, hb, h3⟩ := hok
  have e : u32 (tk.scan.cursor + n) = tk.scan.cursor + n := by unfold u32; omega
  unfold tokenizer_callback tokenizer_yield_tag scan_ok rest
  rcases tk.f_callback with _ | ⟨_⟩ <;> simp [e, h1, hn] <;> omega

theorem post_emit2 {P : List tokenizer_context} {tk : tokenizer_t} (hok : scan_ok tk.scan)
    (hcb : tk.f_callback = some callback_t.yield_tag) (s1 s2 : symbol) (n m : Nat)
    (hs1 : s1 ≠ symbol.malformed) (hs2 : s2 ≠ symbol.malformed) (h1 : 1 ≤ n) (h2 : 1 ≤ m)
    (hn : tk.scan.cursor + n + m ≤ tk.scan.length) :
    step_post P tk (tokenizer_callback (tokenizer_callback tk s1 n) s2 m) := by
  obtain ⟨_, hb, _⟩ := hok
  have e : u32 (tk.scan.cursor + n) = tk.scan.cursor + n := by unfold u32; omega
  have e2 : u32 (tk.scan.cursor + n + m) = tk.scan.cursor + n + m := by unfold u32; omega
  rw [@tokenizer_callback_eq tk hcb, tokenizer_callback_eq (by exact hcb)]
  simp only [e, e2]
  refine ⟨rfl, rfl, rfl, hn, ⟨[⟨s1, tk.scan.cursor, tk.scan.cursor + n⟩,
    ⟨s2, tk.scan.cursor + n, tk.scan.cursor + n + m⟩], by simp, ⟨rfl, rfl, rfl⟩, ?_⟩,
    fun h => h, Or.inl ⟨?_, Or.inl rfl⟩⟩
  · intro t ht
    simp only [List.mem_cons, List.mem_singleton, List.not_mem_nil, or_false] at ht
    rcases ht with ht | ht <;> subst ht
    · exact ⟨by show tk.scan.cursor < tk.scan.cursor + n; omega, hs1⟩
    · exact ⟨by show tk.scan.cursor + n < tk.scan.cursor + n + m; omega, hs2⟩
  · show tk.scan.cursor < tk.scan.cursor + n + m; omega

theorem post_emit2_push {P : List tokenizer_context} {tk : tokenizer_t} (hok : scan_ok tk.scan)
    (hcb : tk.f_callback = some callback_t.yield_tag) (s1 s2 : symbol) (n m : Nat)
    (c : tokenizer_context)
    (hs1 : s1 ≠ symbol.malformed) (hs2 : s2 ≠ symbol.malformed) (h1 : 1 ≤ n) (h2 : 1 ≤ m)
    (hn : tk.scan.cursor + n + m ≤ tk.scan.length) (hc : c ∈ P)
    (hraw : is_raw c = false ∨ tk.current_tag ≠ none)
    (hcom : (c ≠ TOKENIZER_COMMENT ∧ c ≠ TOKENIZER_CDATA) ∨ 2 ≤ tk.scan.length) :
    step_post P tk (push_context (tokenizer_callback (tokenizer_callback tk s1 n) s2 m) c) := by
  obtain ⟨_, hb, _⟩ := hok
  have hraw1 : is_raw c = true → tk.current_tag ≠ none := by
    intro h; rcases hraw with h1 | h1
    · rw [h1] at h; cases h
    · exact h1
  have hcom1 : c = TOKENIZER_COMMENT ∨ c = TOKENIZER_CDATA → 2 ≤ tk.scan.length := by
    intro h; rcases hcom with h1 | h1
    · rcases h with h | h
      · exact absurd h h1.1
      · exact absurd h h1.2
    · exact h1
  have e : u32 (tk.scan.cursor + n) = tk.scan.cursor + n := by unfold u32; omega
  have e2 : u32 (tk.scan.cursor + n + m) = tk.scan.cursor + n + m := by unfold u32; omega
  rw [@tokenizer_callback_eq tk hcb, tokenizer_callback_eq (by exact hcb)]
  simp only [e, e2]
  refine ⟨rfl, rfl, rfl, hn, ⟨[⟨s1, tk.scan.cursor, tk.scan.cursor + n⟩,
    ⟨s2, tk.scan.cursor + n, tk.scan.cursor + n + m⟩], by simp [push_context], ⟨rfl, rfl, rfl⟩, ?_⟩,
    fun h => h, Or.inl ⟨?_, Or.inr ⟨c, hc, stack_push _ _ _, hraw1, hcom1⟩⟩⟩
  · intro t ht
    simp only [List.mem_cons, List.mem_singleton, List.not_mem_nil, or_false] at ht
    rcases ht with ht | ht <;> subst ht
    · exact ⟨by show tk.scan.cursor < tk.scan.cursor + n; omega, hs1⟩
    · exact ⟨by show tk.scan.cursor + n < tk.scan.cursor + n + m; omega, hs2⟩
  · show tk.scan.cursor < tk.scan.cursor + n + m; omega

theorem post_pop {P : List tokenizer_context} {F S : Prop} {tk : tokenizer_t}
    (hok : scan_ok tk.scan) (hF : tk.current_context = 0 → F) :
    handler_post P F S tk ((pop_context tk).map fun tk1 => (true, tk1)) := by
  unfold pop_context
  by_cases h0 : tk.current_context = 0
  · rw [if_pos h0]; exact hF h0
  · rw [if_neg h0]
    refine ⟨rfl, rfl, rfl, hok.2.2, ⟨[], by simp, rfl, by simp⟩, fun h => h,
      Or.inr (Or.inl ⟨rfl, rfl, h0, ?_, stack_pop _ _ _ h0⟩)⟩
    show tk.current_context - 1 + 1 = tk.current_context; omega

theorem post_emit_pop {P : List tokenizer_context} {F S : Prop} {tk : tokenizer_t}
    (hok : scan_ok tk.scan) (hcb : tk.f_callback = some callback_t.yield_tag) (sym : symbol)
    (n : Nat) (hsym : sym ≠ symbol.malformed) (h1 : 1 ≤ n)
    (hn : tk.scan.cursor + n ≤ tk.scan.length) (hF : tk.current_context = 0 → F) :
    handler_post P F S tk
      ((pop_context (tokenizer_callback tk sym n)).map fun tk1 => (true, tk1)) := by
  obtain ⟨_, hb, _⟩ := hok
  have e : u32 (tk.scan.cursor + n) = tk.scan.cursor + n := by unfold u32; omega
  rw [tokenizer_callback_eq hcb, e]
  unfold pop_context
  by_cases h0 : tk.current_context = 0
  · rw [if_pos h0]; exact hF h0
  · rw [if_neg h0]
    refine ⟨rfl, rfl, rfl, hn, ⟨[⟨sym, tk.scan.cursor, tk.scan.cursor + n⟩], rfl, ⟨rfl, rfl⟩, ?_⟩,
      fun h => h, Or.inr (Or.inr ⟨?_, h0, ?_, stack_pop _ _ _ h0⟩)⟩
    · intro t ht
      rw [List.mem_singleton] at ht
      subst ht
      exact ⟨by show tk.scan.cursor < tk.scan.cursor + n; omega, hsym⟩
    · show tk.scan.cursor < tk.scan.cursor + n; omega
    · show tk.current_context - 1 + 1 = tk.current_context; omega

theorem run_length_cons_ne (stop : Nat → Bool) (c : Nat) (t : List Nat) :
    ((run_length stop (c :: t) != 0) = true) ↔ stop c = false := by
  cases h : stop c <;> simp [run_length, List.takeWhile, h]

theorem scan_attributes_spec (tk : tokenizer_t) (hok : scan_ok tk.scan)
    (hlt : tk.scan.cursor < tk.scan.length) (hcb : tk.f_callback = some callback_t.yield_tag) :
    handler_post [TOKENIZER_ATTRIBUTE_VALUE, TOKENIZER_ATTRIBUTE_STRING, TOKENIZER_ATTRIBUTE_NAME]
      (tk.current_context = 0) (∃ c t, rest tk.scan = c :: t ∧ attributes_stuck c = true) tk
      (scan_attributes tk) := by
  obtain ⟨c, hr, hc⟩ := rest_cons hok hlt
  have hrl := rest_length hok
  have hn1 := run_length_le (fun c => c != 32 && c != 9 && c != 13 && c != 10) (rest tk.scan)
  have hn2 := run_length_le
    (fun c => !is_alnum c && c != 58 && c != 45 && c != 95 && c != 46) (rest tk.scan)
  simp only [scan_attributes, is_whitespace, is_attribute_name, run_from_cursor_rest hok,
    is_char_eq hok, Option.some_bind, hc]
  split
  · rename_i h
    simp only [bne_iff_ne, ne_eq] at h
    exact post_emit hok hcb _ _ (by decide) (by omega) (by omega)
  split
  · exact step_post_of_core (post_emit_push hok hcb symbol.equal 1 TOKENIZER_ATTRIBUTE_VALUE
      (by decide) (by omega) (by omega) (by decide) (Or.inl (by decide)) (Or.inl (by decide)))
      ⟨rfl, rfl, rfl, rfl, rfl⟩ (fun h => h)
  split
  · exact post_emit hok hcb _ _ (by decide) (by omega) (by omega)
  split
  · exact post_pop hok (fun h => h)
  split
  · simp only [Option.some_bind, if_true]
    exact step_post_of_core (post_emit_push hok hcb symbol.attribute_value_start 1
      TOKENIZER_ATTRIBUTE_STRING (by decide) (by omega) (by omega) (by decide) (Or.inl (by decide))
      (Or.inl (by decide)))
      (by simp [core_eq, tokenizer_callback, tokenizer_yield_tag, push_context, hcb])
      (by simp [tokenizer_callback, tokenizer_yield_tag, push_context, hcb])
  simp only [Option.some_bind]
  split
  · exact step_post_of_core (post_emit_push hok hcb symbol.attribute_value_start 1
      TOKENIZER_ATTRIBUTE_STRING (by decide) (by omega) (by omega) (by decide) (Or.inl (by decide))
      (Or.inl (by decide)))
      (by simp [core_eq, tokenizer_callback, tokenizer_yield_tag, push_context, hcb])
      (by simp [tokenizer_callback, tokenizer_yield_tag, push_context, hcb])
  split
  · rename_i h
    simp only [bne_iff_ne, ne_eq] at h
    exact post_emit_push hok hcb _ _ _ (by decide) (by omega) (by omega) (by decide)
      (Or.inl (by decide)) (Or.inl (by decide))
  · rename_i h1 h2 h3 h4 h5 h6 h7
    refine ⟨rfl, c, _, hr, ?_⟩
    rw [hr] at h1 h2 h3 h4 h5 h6 h7
    simp only [run_length_cons_ne, List.head?_cons, Option.some.injEq, decide_eq_true_eq,
      Bool.not_eq_true] at h1 h2 h3 h4 h5 h6 h7
    simp only [Bool.not_eq_false] at h1 h7
    unfold attributes_stuck
    rw [h1, h7]
    simp [h2, h3, h4, h5, h6]

theorem scan_attribute_name_spec (tk : tokenizer_t) (hok : scan_ok tk.scan)
    (hlt : tk.scan.cursor < tk.scan.length) (hcb : tk.f_callback = some callback_t.yield_tag) :
    handler_post [] (tk.current_context = 0)
      (∃ c t, rest tk.scan = c :: t ∧ attribute_name_stuck c = true) tk
      (scan_attribute_name tk) := by
  obtain ⟨c, hr, hc⟩ := rest_cons hok hlt
  have hrl := rest_length hok
  have hn2 := run_length_le
    (fun c => !is_alnum c && c != 58 && c != 45 && c != 95 && c != 46) (rest tk.scan)
  simp only [scan_attribute_name, is_whitespace, is_attribute_name, run_from_cursor_rest hok,
    is_char_eq hok, Option.some_bind, hc]
  split
  · rename_i h
    simp only [bne_iff_ne, ne_eq] at h
    exact post_emit hok hcb _ _ (by decide) (by omega) (by omega)
  split
  · simp only [Option.some_bind, if_true]
    exact post_pop hok (fun h => h)
  simp only [Option.some_bind]
  split
  · simp only [Option.some_bind, if_true]
    exact post_pop hok (fun h => h)
  simp only [Option.some_bind]
  split
  · simp only [Option.some_bind, if_true]
    exact post_pop hok (fun h => h)
  simp only [Option.some_bind]
  split
  · exact post_pop hok (fun h => h)
  · rename_i h1 h2 h3 h4 h5
    refine ⟨rfl, c, _, hr, ?_⟩
    rw [hr] at h1 h2 h3 h4 h5
    simp only [run_length_cons_ne, List.head?_cons, Option.some.injEq, decide_eq_true_eq,
      Bool.not_eq_true, Bool.not_eq_false] at h1 h2 h3 h4 h5
    unfold attribute_name_stuck
    rw [h1, h2]
    simp [h3, h4, h5]

theorem scan_attribute_string_spec (tk : tokenizer_t) (hok : scan_ok tk.scan)
    (hlt : tk.scan.cursor < tk.scan.length) (hcb : tk.f_callback = some callback_t.yield_tag) :
    handler_post [] (tk.current_context = 0) False tk (scan_attribute_string tk) := by
  obtain ⟨c, hr, hc⟩ := rest_cons hok hlt
  have hrl := rest_length hok
  have hn2 := run_length_le (fun c => c == tk.attribute_value_start) (rest tk.scan)
  simp only [scan_attribute_string, is_attribute_string, run_from_cursor_rest hok,
    is_char_eq hok, Option.some_bind, hc]
  split
  · exact post_emit_pop hok hcb _ _ (by decide) (by omega) (by omega) (fun h => h)
  split
  · rename_i h
    simp only [bne_iff_ne, ne_eq] at h
    exact post_emit hok hcb _ _ (by decide) (by omega) (by omega)
  · rename_i h1 h2
    rw [hr] at h1 h2
    simp only [run_length_cons_ne, List.head?_cons, Option.some.injEq, decide_eq_true_eq,
      Bool.not_eq_true, Bool.not_eq_false, beq_iff_eq] at h1 h2
    exact absurd h2 h1

theorem scan_plaintext_spec (tk : tokenizer_t) (hok : scan_ok tk.scan)
    (hlt : tk.scan.cursor < tk.scan.length) (hcb : tk.f_callback = some callback_t.yield_tag) :
    handler_post [] False False tk (scan_plaintext tk) := by
  unfold scan_plaintext
  rw [u32_of_int_remaining hok]
  exact post_emit hok hcb _ _ (by decide) (by omega) (by omega)

theorem scan_open_tag_spec (tk : tokenizer_t) (hok : scan_ok tk.scan)
    (hlt : tk.scan.cursor < tk.scan.length) (hcb : tk.f_callback = some callback_t.yield_tag) :
    handler_post [TOKENIZER_ATTRIBUTES] (tk.current_context = 0) False tk (scan_open_tag tk) := by
  obtain ⟨c, hr, hc⟩ := rest_cons hok hlt
  have hrl := rest_length hok
  have hn1 := run_length_le (fun c => c != 32 && c != 9 && c != 13 && c != 10) (rest tk.scan)
  have hn2 := run_length_le
    (fun c => c == 32 || c == 9 || c == 13 || c == 10 || c == 62 || c == 47) (rest tk.scan)
  simp only [scan_open_tag, is_whitespace, is_tag_name, run_from_cursor_rest hok,
    is_char_eq hok, Option.some_bind, hc]
  split
  · rename_i h
    simp only [bne_iff_ne, ne_eq] at h
    exact step_post_of_core (post_emit hok hcb symbol.tag_name _ (by decide) (by omega)
      (by omega)) ⟨rfl, rfl, rfl, rfl, rfl⟩ (fun _ => by simp)
  split
  · exact post_emit_push hok hcb _ _ _ (by decide) (by omega) (by omega) (by decide)
      (Or.inl (by decide)) (Or.inl (by decide))
  split
  · rename_i h
    simp only [bne_iff_ne, ne_eq] at h
    exact post_emit_push hok hcb _ _ _ (by decide) (by omega) (by omega) (by decide)
      (Or.inl (by decide)) (Or.inl (by decide))
  split
  · exact post_pop hok (fun h => h)
  · rename_i h1 h2 h3 h4
    rw [hr] at h1 h2 h3 h4
    simp only [run_length_cons_ne, List.head?_cons, Option.some.injEq, decide_eq_true_eq,
      Bool.not_eq_true, Bool.not_eq_false] at h1 h2 h3 h4
    simp_all

theorem scan_attribute_value_spec (tk : tokenizer_t) (hok : scan_ok tk.scan)
    (hlt : tk.scan.cursor < tk.scan.length) (hcb : tk.f_callback = some callback_t.yield_tag) :
    handler_post [TOKENIZER_ATTRIBUTE_STRING] (tk.current_context = 0) False tk
      (scan_attribute_value tk) := by
  obtain ⟨c, hr, hc⟩ := rest_cons hok hlt
  have hrl := rest_length hok
  have hn1 := run_length_le (fun c => c != 32 && c != 9 && c != 13 && c != 10) (rest tk.scan)
  have hn2 := run_length_le
    (fun c => c == 32 || c == 13 || c == 10 || c == 9 || c == 62) (rest tk.scan)
  simp only [scan_attribute_value, is_whitespace, is_unquoted_value, run_from_cursor_rest hok,
    is_char_eq hok, Option.some_bind, hc]
  split
  · exact post_pop hok (fun h => h)
  split
  · simp only [Option.some_bind, if_true]
    exact post_pop hok (fun h => h)
  simp only [Option.some_bind]
  split
  · exact post_pop hok (fun h => h)
  split
  · rename_i h
    simp only [bne_iff_ne, ne_eq] at h
    split
    · exact post_emit_pop hok hcb _ _ (by decide) (by omega) (by omega) (fun h => h)
    · exact post_emit hok hcb _ _ (by decide) (by omega) (by omega)
  split
  · simp only [Option.some_bind, if_true]
    exact step_post_of_core (post_emit_push hok hcb symbol.attribute_value_start 1
      TOKENIZER_ATTRIBUTE_STRING (by decide) (by omega) (by omega) (by decide)
      (Or.inl (by decide)) (Or.inl (by decide)))
      (by simp [core_eq, tokenizer_callback, tokenizer_yield_tag, push_context, hcb])
      (by simp [tokenizer_callback, tokenizer_yield_tag, push_context, hcb])
  simp only [Option.some_bind]
  split
  · exact step_post_of_core (post_emit_push hok hcb symbol.attribute_value_start 1
      TOKENIZER_ATTRIBUTE_STRING (by decide) (by omega) (by omega) (by decide)
      (Or.inl (by decide)) (Or.inl (by decide)))
      (by simp [core_eq, tokenizer_callback, tokenizer_yield_tag, push_context, hcb])
      (by simp [tokenizer_callback, tokenizer_yield_tag, push_context, hcb])
  split
  · rename_i h
    simp only [bne_iff_ne, ne_eq] at h
    exact step_post_of_core (post_emit hok hcb symbol.attribute_unquoted_value _ (by decide)
      (by omega) (by omega)) ⟨rfl, rfl, rfl, rfl, rfl⟩ (fun h => h)
  · rename_i h0 h1 h2 h3 h4 h5 h6
    rw [hr] at h1 h2 h3 h4 h5 h6
    simp only [run_length_cons_ne, List.head?_cons, Option.some.injEq, decide_eq_true_eq,
      Bool.not_eq_true, Bool.not_eq_false] at h1 h2 h3 h4 h5 h6
    simp_all

theorem scan_until_end_spec (tk : tokenizer_t) (hok : scan_ok tk.scan)
    (hlt : tk.scan.cursor < tk.scan.length) (hcb : tk.f_callback = some callback_t.yield_tag)
    (a b c : Nat) (ha : a ≠ 0) (hb : b ≠ 0) (sym : symbol) (hsym : sym ≠ symbol.malformed) :
    handler_post [] (tk.scan.length < 2) False tk
      (scan_until_end tk (find_end tk.scan a b c) sym) := by
  rcases Nat.lt_or_ge tk.scan.length 2 with h2 | h2
  · rw [find_end_short hok hlt h2 a b c ha hb]
    exact h2
  · have hrl := rest_length hok
    obtain ⟨hf, hnf⟩ := scan3_bound a b c (rest tk.scan)
    rw [find_end_eq hok h2]
    simp only [scan_until_end, Option.some_bind]
    split
    · rename_i h
      simp only [bne_iff_ne, ne_eq] at h
      split
      · rename_i h3
        have := hf h3
        exact post_emit2 hok hcb _ _ _ _ (by decide) hsym (by omega) (by omega) (by omega)
      · rename_i h3
        simp only [Bool.not_eq_true] at h3
        have := hnf h3
        exact post_emit hok hcb _ _ (by decide) (by omega) (by omega)
    · rw [u32_of_int_remaining hok]
      exact post_emit hok hcb _ _ (by decide) (by omega) (by omega)

theorem scan_comment_spec (tk : tokenizer_t) (hok : scan_ok tk.scan)
    (hlt : tk.scan.cursor < tk.scan.length) (hcb : tk.f_callback = some callback_t.yield_tag) :
    handler_post [] (tk.scan.length < 2) False tk (scan_comment tk) :=
  scan_until_end_spec tk hok hlt hcb 45 45 62 (by decide) (by decide) _ (by decide)

theorem scan_cdata_spec (tk : tokenizer_t) (hok : scan_ok tk.scan)
    (hlt : tk.scan.cursor < tk.scan.length) (hcb : tk.f_callback = some callback_t.yield_tag) :
    handler_post [] (tk.scan.length < 2) False tk (scan_cdata tk) :=
  scan_until_end_spec tk hok hlt hcb 93 93 62 (by decide) (by decide) _ (by decide)

theorem strncasecmp_tag_some (s : scan_t) (t : List Nat) :
    ∀ (n p k : Nat), p + n ≤ s.string.length + 1 → ∃ b, strncasecmp_tag s t n p k = some b := by
  intro n
  induction n with
  | zero => intro p k _; exact ⟨true, rfl⟩
  | succ n ih =>
    intro p k h
    obtain ⟨a, ha⟩ := char_at_some (s := s) (i := p) (by omega)
    rw [strncasecmp_tag, ha, Option.some_bind]
    simp only
    split
    · exact ⟨false, rfl⟩
    split
    · exact ⟨true, rfl⟩
    · exact ih (p + 1) (k + 1) (by omega)

theorem tag_start_of_bound (cur : Nat) (l : List Nat)
    (h : (tag_start_of cur l).matched = true) :
    1 ≤ (tag_start_of cur l).length ∧ (tag_start_of cur l).length ≤ l.length ∧
      (tag_start_of cur l).tag_name + (tag_start_of cur l).tag_name_length =
        cur + (tag_start_of cur l).length := by
  unfold tag_start_of at h ⊢
  match l with
  | [] => simp at h
  | c0 :: t =>
    simp only at h ⊢
    split at h
    · simp at h
    · split at h
      · rename_i h1 h2
        rw [if_neg h1, if_pos h2]
        have := run_length_le tag_stop t.tail
        have : 1 ≤ t.length := by
          cases t with
          | nil => simp at h2
          | cons _ _ => simp
        simp only [List.length_cons, List.length_tail] at *
        omega
      · rename_i h1 h2
        rw [if_neg h1, if_neg h2]
        have := run_length_le tag_stop t
        simp only [List.length_cons] at *
        omega

theorem scan_rawtext_spec (tk : tokenizer_t) (hok : scan_ok tk.scan)
    (hlt : tk.scan.cursor < tk.scan.length) (hcb : tk.f_callback = some callback_t.yield_tag) :
    handler_post [] (tk.current_context = 0 ∨ tk.current_tag = none) False tk
      (scan_rawtext tk) := by
  have hrl := rest_length hok
  have hn2 := run_length_le (fun c => c == 60) (rest tk.scan)
  simp only [scan_rawtext, is_tag_start_eq hok hlt, is_text, run_from_cursor_rest hok,
    Option.some_bind]
  split
  · rename_i hm
    obtain ⟨hb1, hb2, hb3⟩ := tag_start_of_bound _ _ hm
    split
    · cases htag : tk.current_tag with
      | none => exact Or.inr rfl
      | some tag =>
        obtain ⟨b, hb⟩ := strncasecmp_tag_some tk.scan tag
          (tag_start_of tk.scan.cursor (rest tk.scan)).tag_name_length
          (tag_start_of tk.scan.cursor (rest tk.scan)).tag_name 0
          (by have := hok.1; omega)
        simp only [Option.some_bind, hb]
        cases b
        · simp only [Bool.false_eq_true, if_false]
          exact post_emit hok hcb _ _ (by decide) (by omega) (by omega)
        · simp only [if_true]
          exact post_pop hok (fun h => Or.inl h)
    · simp only [Option.some_bind, Bool.false_eq_true, if_false]
      exact post_emit hok hcb _ _ (by decide) (by omega) (by omega)
  split
  · rename_i h
    simp only [bne_iff_ne, ne_eq] at h
    exact post_emit hok hcb _ _ (by decide) (by omega) (by omega)
  · rw [u32_of_int_remaining hok]
    exact post_emit hok hcb _ _ (by decide) (by omega) (by omega)

theorem callback_current_tag (tk : tokenizer_t) (sym : symbol) (n : Nat) :
    (tokenizer_callback tk sym n).current_tag = tk.current_tag := by
  unfold tokenizer_callback tokenizer_yield_tag
  rcases tk.f_callback with _ | ⟨_⟩ <;> rfl

theorem callback_is_closing_tag (tk : tokenizer_t) (sym : symbol) (n : Nat) :
    (tokenizer_callback tk sym n).is_closing_tag = tk.is_closing_tag := by
  unfold tokenizer_callback tokenizer_yield_tag
  rcases tk.f_callback with _ | ⟨_⟩ <;> rfl

theorem callback_found_attribute (tk : tokenizer_t) (sym : symbol) (n : Nat) :
    (tokenizer_callback tk sym n).found_attribute = tk.found_attribute := by
  unfold tokenizer_callback tokenizer_yield_tag
  rcases tk.f_callback with _ | ⟨_⟩ <;> rfl

theorem callback_f_callback (tk : tokenizer_t) (sym : symbol) (n : Nat) :
    (tokenizer_callback tk sym n).f_callback = tk.f_callback := by
  unfold tokenizer_callback tokenizer_yield_tag
  rcases h : tk.f_callback with _ | ⟨_⟩ <;> simp [h]

theorem head_some_length {l : List Nat} {c : Nat} (h : l.head? = some c) : 1 ≤ l.length := by
  cases l with
  | nil => simp at h
  | cons _ _ => simp

theorem scan_html_spec (tk : tokenizer_t) (hok : scan_ok tk.scan)
    (hlt : tk.scan.cursor < tk.scan.length) (hcb : tk.f_callback = some callback_t.yield_tag) :
    handler_post html_pushes False False tk (scan_html tk) := by
  obtain ⟨c, hr, hc⟩ := rest_cons hok hlt
  have hrl := rest_length hok
  have hn2 := run_length_le (fun c => c == 60) (rest tk.scan)
  obtain ⟨hok1, hcur1, hlen1, _, _⟩ :=
    scan_ok_callback hok symbol.tag_start 1 (by omega)
  have hrl1 := rest_length hok1
  rw [scan_html, is_comment_start_eq hok, Option.some_bind]
  by_cases h1 : [60, 33, 45, 45] <+: rest tk.scan
  · rw [if_pos (decide_eq_true h1)]
    have := h1.length_le
    simp only [List.length_cons, List.length_nil] at this
    exact post_emit_push hok hcb _ _ _ (by decide) (by omega) (by omega) (by decide)
      (Or.inl (by decide)) (Or.inr (by omega))
  rw [if_neg (by simpa using h1), is_doctype_eq hok, Option.some_bind]
  by_cases h2 : List.map tolower [60, 33, 68, 79, 67, 84, 89, 80, 69] <+:
      List.map tolower (rest tk.scan)
  · rw [if_pos (decide_eq_true h2)]
    have := h2.length_le
    simp only [List.length_cons, List.length_nil, List.length_map] at this
    exact post_emit_push hok hcb _ _ _ (by decide) (by omega) (by omega) (by decide)
      (Or.inl (by decide)) (Or.inl (by decide))
  rw [if_neg (by simpa using h2), is_cdata_start_eq hok, Option.some_bind]
  by_cases h3 : List.map tolower [60, 33, 91, 67, 68, 65, 84, 65, 91] <+:
      List.map tolower (rest tk.scan)
  · rw [if_pos (decide_eq_true h3)]
    have := h3.length_le
    simp only [List.length_cons, List.length_nil, List.length_map] at this
    exact post_emit_push hok hcb _ _ _ (by decide) (by omega) (by omega) (by decide)
      (Or.inl (by decide)) (Or.inr (by omega))
  rw [if_neg (by simpa using h3), is_char_eq hok, Option.some_bind]
  by_cases h4 : (rest tk.scan).head? = some 60
  · rw [if_pos (decide_eq_true h4)]
    simp only [is_char_eq hok1, Option.some_bind]
    by_cases h5 : (rest (tokenizer_callback tk symbol.tag_start 1).scan).head? = some 47
    · rw [if_pos (decide_eq_true h5)]
      have := head_some_length h5
      exact step_post_of_core (post_emit2_push hok hcb symbol.tag_start symbol.solidus 1 1
        TOKENIZER_OPEN_TAG (by decide) (by decide) (by omega) (by omega) (by omega) (by decide)
        (Or.inl (by decide)) (Or.inl (by decide)))
        (by simp [core_eq, tokenizer_callback, tokenizer_yield_tag, push_context,
          clear_current_tag, hcb])
        (by simp [tokenizer_callback, tokenizer_yield_tag, push_context, clear_current_tag, hcb])
    · rw [if_neg (by simpa using h5)]
      exact step_post_of_core (post_emit_push hok hcb symbol.tag_start 1
        TOKENIZER_OPEN_TAG (by decide) (by omega) (by omega) (by decide)
        (Or.inl (by decide)) (Or.inl (by decide)))
        (by simp [core_eq, tokenizer_callback, tokenizer_yield_tag, push_context,
          clear_current_tag, hcb])
        (by simp [tokenizer_callback, tokenizer_yield_tag, push_context, clear_current_tag, hcb])
  rw [if_neg (by simpa using h4), is_char_eq hok, Option.some_bind]
  by_cases h6 : (rest tk.scan).head? = some 62
  · rw [if_pos (decide_eq_true h6)]
    simp only [callback_current_tag, callback_is_closing_tag]
    cases htag : tk.current_tag with
    | none => exact post_emit hok hcb _ _ (by decide) (by omega) (by omega)
    | some tag =>
      have hne : tk.current_tag ≠ none := by rw [htag]; exact Option.some_ne_none _
      simp only
      split
      · split
        · exact post_emit_push hok hcb _ _ _ (by decide) (by omega) (by omega) (by decide)
            (Or.inr hne) (Or.inl (by decide))
        split
        · exact post_emit_push hok hcb _ _ _ (by decide) (by omega) (by omega) (by decide)
            (Or.inr hne) (Or.inl (by decide))
        split
        · exact post_emit_push hok hcb _ _ _ (by decide) (by omega) (by omega) (by decide)
            (Or.inr hne) (Or.inl (by decide))
        split
        · exact post_emit_push hok hcb _ _ _ (by decide) (by omega) (by omega) (by decide)
            (Or.inl (by decide)) (Or.inl (by decide))
        · exact post_emit hok hcb _ _ (by decide) (by omega) (by omega)
      · exact post_emit hok hcb _ _ (by decide) (by omega) (by omega)
  rw [if_neg (by simpa using h6)]
  simp only [is_text, run_from_cursor_rest hok, Option.some_bind]
  split
  · rename_i h
    simp only [bne_iff_ne, ne_eq] at h
    exact post_emit hok hcb _ _ (by decide) (by omega) (by omega)
  · rename_i h7
    rw [hr] at h4 h7
    simp only [run_length_cons_ne, List.head?_cons, Option.some.injEq, decide_eq_true_eq,
      Bool.not_eq_true, Bool.not_eq_false, beq_iff_eq] at h4 h7
    exact absurd h7 h4

theorem handler_post_mono {P Q : List tokenizer_context} {F S G T : Prop} {tk : tokenizer_t}
    {r : Option (Bool × tokenizer_t)} (h : handler_post P F S tk r) (hP : P = Q) (hF : F → G)
    (hS : S → T) : handler_post Q G T tk r := by
  subst hP
  match r, h with
  | none, h => exact hF h
  | some (false, _), h => exact ⟨h.1, hS h.2⟩
  | some (true, _), h => exact h

theorem scan_once_spec (tk : tokenizer_t) (hok : scan_ok tk.scan)
    (hlt : tk.scan.cursor < tk.scan.length) (hcb : tk.f_callback = some callback_t.yield_tag) :
    handler_post (pushes_of (top tk)) (fault_cond tk) (stuck_cond tk) tk (scan_once tk) := by
  unfold scan_once
  cases htop : tk.context tk.current_context with
  | TOKENIZER_NONE => exact ⟨rfl, Or.inl htop⟩
  | TOKENIZER_HTML =>
    exact handler_post_mono (scan_html_spec tk hok hlt hcb) (by simp [top, htop, pushes_of])
      False.elim False.elim
  | TOKENIZER_OPEN_TAG =>
    exact handler_post_mono (scan_open_tag_spec tk hok hlt hcb) (by simp [top, htop, pushes_of])
      (fun h => Or.inl ⟨by simp [top, htop], h⟩) False.elim
  | TOKENIZER_COMMENT =>
    exact handler_post_mono (scan_comment_spec tk hok hlt hcb) (by simp [top, htop, pushes_of])
      (fun h => Or.inr (Or.inr ⟨Or.inl htop, h⟩)) False.elim
  | TOKENIZER_CDATA =>
    exact handler_post_mono (scan_cdata_spec tk hok hlt hcb) (by simp [top, htop, pushes_of])
      (fun h => Or.inr (Or.inr ⟨Or.inr htop, h⟩)) False.elim
  | TOKENIZER_RCDATA =>
    exact handler_post_mono (scan_rawtext_spec tk hok hlt hcb) (by simp [top, htop, pushes_of])
      (fun h => Or.inr (Or.inl ⟨by simp [top, htop, is_raw], h⟩)) False.elim
  | TOKENIZER_RAWTEXT =>
    exact handler_post_mono (scan_rawtext_spec tk hok hlt hcb) (by simp [top, htop, pushes_of])
      (fun h => Or.inr (Or.inl ⟨by simp [top, htop, is_raw], h⟩)) False.elim
  | TOKENIZER_SCRIPT_DATA =>
    exact handler_post_mono (scan_rawtext_spec tk hok hlt hcb) (by simp [top, htop, pushes_of])
      (fun h => Or.inr (Or.inl ⟨by simp [top, htop, is_raw], h⟩)) False.elim
  | TOKENIZER_PLAINTEXT =>
    exact handler_post_mono (scan_plaintext_spec tk hok hlt hcb) (by simp [top, htop, pushes_of])
      False.elim False.elim
  | TOKENIZER_ATTRIBUTES =>
    exact handler_post_mono (scan_attributes_spec tk hok hlt hcb)
      (by simp [top, htop, pushes_of])
      (fun h => Or.inl ⟨by simp [top, htop], h⟩) (fun h => Or.inr (Or.inl ⟨htop, h⟩))
  | TOKENIZER_ATTRIBUTE_NAME =>
    exact handler_post_mono (scan_attribute_name_spec tk hok hlt hcb)
      (by simp [top, htop, pushes_of])
      (fun h => Or.inl ⟨by simp [top, htop], h⟩) (fun h => Or.inr (Or.inr ⟨htop, h⟩))
  | TOKENIZER_ATTRIBUTE_VALUE =>
    exact handler_post_mono (scan_attribute_value_spec tk hok hlt hcb)
      (by simp [top, htop, pushes_of])
      (fun h => Or.inl ⟨by simp [top, htop], h⟩) False.elim
  | TOKENIZER_ATTRIBUTE_STRING =>
    exact handler_post_mono (scan_attribute_string_spec tk hok hlt hcb)
      (by simp [top, htop, pushes_of])
      (fun h => Or.inl ⟨by simp [top, htop], h⟩) False.elim

theorem stack_length (tk : tokenizer_t) : (stack tk).length = tk.current_context + 1 := by
  simp [stack]

theorem eos_false_iff (s : scan_t) : eos s = false ↔ s.cursor < s.length := by
  simp [eos]

theorem eos_true_iff (s : scan_t) : eos s = true ↔ s.length ≤ s.cursor := by
  simp [eos]

theorem step_post_potential {P : List tokenizer_context} {tk tk1 : tokenizer_t}
    (h : step_post P tk tk1) (hlt : tk.scan.cursor < tk.scan.length) :
    potential tk1 < potential tk := by
  have l0 := stack_length tk
  have l1 := stack_length tk1
  have hle := h.cursor_le
  have hlen := h.length_eq
  unfold potential
  rcases h.move with ⟨ha, hb⟩ | ⟨ha, _, _, hb, _⟩ | ⟨ha, _, hb, _⟩
  · rcases hb with hb | ⟨c, _, hb, _⟩
    · rw [hb] at l1; omega
    · rw [hb, List.length_append] at l1
      simp only [List.length_cons, List.length_nil] at l1
      omega
  · omega
  · omega

theorem step_post_base {P : List tokenizer_context} {tk tk1 : tokenizer_t}
    (h : step_post P tk tk1) (hb : base tk) : base tk1 := by
  obtain ⟨⟨h1, h2, h3⟩, hcb⟩ := hb
  refine ⟨⟨?_, ?_, ?_⟩, ?_⟩
  · rw [h.length_eq, h.string_eq]; exact h1
  · rw [h.length_eq]; exact h2
  · rw [h.length_eq]; exact h.cursor_le
  · rw [h.callback_eq]; exact hcb

theorem scan_once_true {tk tk1 : tokenizer_t} (hb : base tk) (he : eos tk.scan = false)
    (h : scan_once tk = some (true, tk1)) : step_post (pushes_of (top tk)) tk tk1 := by
  have := scan_once_spec tk hb.1 ((eos_false_iff _).mp he) hb.2
  rw [h] at this
  exact this

theorem steps_head {tk tk2 tk1 : tokenizer_t} (he : eos tk.scan = false)
    (h : scan_once tk = some (true, tk2)) (hs : steps tk2 tk1) : steps tk tk1 := by
  induction hs with
  | refl => exact steps.step tk tk tk2 (steps.refl tk) he h
  | step a b _ he2 h2 ih => exact steps.step tk a b ih he2 h2

theorem scan_loop_spec (Inv : tokenizer_t → Prop)
    (hInv : ∀ tk tk1, base tk → Inv tk → eos tk.scan = false →
      scan_once tk = some (true, tk1) → Inv tk1) :
    ∀ (fuel : Nat) (tk : tokenizer_t), base tk → Inv tk → potential tk < fuel →
      ∃ tk1, base tk1 ∧ Inv tk1 ∧ steps tk tk1 ∧
        ((eos tk1.scan = false ∧ scan_once tk1 = none ∧ fault_cond tk1 ∧
            scan_loop fuel tk = outcome.fault) ∨
          (eos tk1.scan = true ∧ scan_loop fuel tk = outcome.done tk1) ∨
          (eos tk1.scan = false ∧ scan_once tk1 = some (false, tk1) ∧ stuck_cond tk1 ∧
            scan_loop fuel tk = outcome.done tk1)) := by
  intro fuel
  induction fuel with
  | zero => intro tk _ _ h; omega
  | succ n ih =>
    intro tk hb hi hp
    rw [scan_loop]
    cases he : eos tk.scan with
    | true => exact ⟨tk, hb, hi, steps.refl tk, Or.inr (Or.inl ⟨he, by simp⟩)⟩
    | false =>
      have hlt := (eos_false_iff _).mp he
      have hspec := scan_once_spec tk hb.1 hlt hb.2
      simp only [Bool.false_eq_true, if_false]
      match hr : scan_once tk, hspec with
      | none, hspec => exact ⟨tk, hb, hi, steps.refl tk, Or.inl ⟨he, hr, hspec, rfl⟩⟩
      | some (false, tk2), hspec =>
        obtain ⟨rfl, hs⟩ := hspec
        exact ⟨tk2, hb, hi, steps.refl _, Or.inr (Or.inr ⟨he, hr, hs, rfl⟩)⟩
      | some (true, tk2), hspec =>
        have hb2 := step_post_base hspec hb
        have hp2 := step_post_potential hspec hlt
        obtain ⟨tk1, h1, h2, h3, h4⟩ := ih tk2 hb2 (hInv tk tk2 hb hi he hr) (by omega)
        exact ⟨tk1, h1, h2, steps_head he hr h3, h4⟩

theorem stack_top (tk : tokenizer_t) : (stack tk).getLast? = some (top tk) := by
  simp [stack, top, List.range_succ]

theorem valid_push : ∀ s ∈ valid_stacks, ∀ c ∈ pushes_of (s.getLast?.getD TOKENIZER_NONE),
    s ++ [c] ∈ valid_stacks := by decide

theorem valid_pop : ∀ s ∈ valid_stacks, s.length ≠ 1 → s.dropLast ∈ valid_stacks := by decide

theorem valid_root : ∀ s ∈ valid_stacks, s.length = 1 →
    s.getLast?.getD TOKENIZER_NONE = TOKENIZER_HTML := by decide

theorem valid_raw : ∀ s ∈ valid_stacks, is_raw (s.getLast?.getD TOKENIZER_NONE) = true →
    s.length ≠ 1 := by decide

theorem step_post_shape {tk tk1 : tokenizer_t} (h : step_post (pushes_of (top tk)) tk tk1)
    (hs : shape tk) : shape tk1 := by
  obtain ⟨hv, hraw⟩ := hs
  have htop := stack_top tk
  have hlen := stack_length tk
  rcases h.move with ⟨_, hb⟩ | ⟨_, _, h0, _, hb⟩ | ⟨_, h0, _, hb⟩
  · rcases hb with hb | ⟨c, hc, hb, hr, _⟩
    · refine ⟨by rw [hb]; exact hv, fun hx => h.tag (hraw ?_)⟩
      rw [hb] at hx; exact hx
    · refine ⟨?_, ?_⟩
      · rw [hb]
        exact valid_push _ hv c (by rw [htop]; exact hc)
      · rintro ⟨d, hd, hd2⟩
        rw [hb, List.mem_append, List.mem_singleton] at hd
        rcases hd with hd | hd
        · exact h.tag (hraw ⟨d, hd, hd2⟩)
        · subst hd; exact hr hd2
  · refine ⟨?_, ?_⟩
    · rw [hb]; exact valid_pop _ hv (by omega)
    · rintro ⟨d, hd, hd2⟩
      rw [hb] at hd
      exact h.tag (hraw ⟨d, List.mem_of_mem_dropLast hd, hd2⟩)
  · refine ⟨?_, ?_⟩
    · rw [hb]; exact valid_pop _ hv (by omega)
    · rintro ⟨d, hd, hd2⟩
      rw [hb] at hd
      exact h.tag (hraw ⟨d, List.mem_of_mem_dropLast hd, hd2⟩)

theorem top_mem_stack (tk : tokenizer_t) : top tk ∈ stack tk :=
  List.mem_of_getLast?_eq_some (stack_top tk)

theorem shape_root {tk : tokenizer_t} (hs : shape tk) (h0 : tk.current_context = 0) :
    top tk = TOKENIZER_HTML := by
  have := valid_root _ hs.1 (by rw [stack_length, h0])
  rw [stack_top] at this
  exact this

theorem shape_raw {tk : tokenizer_t} (hs : shape tk) (hr : is_raw (top tk) = true) :
    tk.current_context ≠ 0 ∧ tk.current_tag ≠ none := by
  refine ⟨?_, hs.2 ⟨_, top_mem_stack tk, hr⟩⟩
  have := valid_raw _ hs.1 (by rw [stack_top]; exact hr)
  rw [stack_length] at this
  omega

theorem bind_source_base (tk : tokenizer_t) (source : List Nat)
    (hcb : tk.f_callback = some callback_t.yield_tag) (hlen : source.length < 2 ^ 31) :
    base (bind_source tk source) := by
  have e : u32 source.length = source.length := by unfold u32; omega
  refine ⟨⟨?_, ?_, ?_⟩, hcb⟩
  · show u32 source.length = source.length; exact e
  · show u32 source.length < 2 ^ 31; rw [e]; exact hlen
  · show 0 ≤ u32 source.length; omega

theorem bind_source_length (tk : tokenizer_t) (source : List Nat)
    (hlen : source.length < 2 ^ 31) : (bind_source tk source).scan.length = source.length := by
  show u32 source.length = source.length
  unfold u32; omega

theorem potential_lt_fuel (tk : tokenizer_t) : potential tk < fuel_of tk := by
  unfold potential fuel_of; omega

theorem scan_tail_eos {tk : tokenizer_t} (h : eos tk.scan = true) : scan_tail tk = tk := by
  simp [scan_tail, h]

theorem scan_tail_malformed {tk : tokenizer_t} (hb : base tk) (h : eos tk.scan = false) :
    scan_tail tk = tokenizer_callback tk symbol.malformed (tk.scan.length - tk.scan.cursor) ∧
    (scan_tail tk).yielded =
      tk.yielded ++ [⟨symbol.malformed, tk.scan.cursor, tk.scan.length⟩] ∧
    (scan_tail tk).scan.cursor = tk.scan.length ∧
    stack (scan_tail tk) = stack tk := by
  have hlt := (eos_false_iff _).mp h
  obtain ⟨⟨h1, h2, h3⟩, hcb⟩ := hb
  have e : u32 (tk.scan.cursor + (tk.scan.length - tk.scan.cursor)) = tk.scan.length := by
    unfold u32; omega
  have hst : scan_tail tk =
      tokenizer_callback tk symbol.malformed (tk.scan.length - tk.scan.cursor) := by
    simp [scan_tail, h, u32_of_int_remaining ⟨h1, h2, h3⟩]
  rw [hst, tokenizer_callback_eq hcb, e]
  exact ⟨rfl, rfl, rfl, rfl⟩

theorem stack_bind_source (tk : tokenizer_t) (source : List Nat) :
    stack (bind_source tk source) = stack tk := rfl

theorem stack_fresh : stack fresh = [TOKENIZER_HTML] := by decide

theorem shape_fresh (source : List Nat) : shape (bind_source fresh source) := by
  refine ⟨?_, ?_⟩
  · rw [stack_bind_source, stack_fresh]; decide
  · rw [stack_bind_source, stack_fresh]
    rintro ⟨c, hc, hr⟩
    rw [List.mem_singleton] at hc
    subst hc
    cases hr

theorem sees_emit {tk : tokenizer_t} {c : cfg} (h : sees tk c) (sym : symbol) (n : Nat)
    (hn : n ≤ c.rest.length) : sees (tokenizer_callback tk sym n) (c.emit sym n) := by
  obtain ⟨hok, h1, h2, h3, h4, h5, h6, h7, h8, h9, h10⟩ := h
  have hrl := rest_length hok
  rw [h2] at hrl
  have hle : tk.scan.cursor + n ≤ tk.scan.length := by
    have := hok.2.2; omega
  obtain ⟨k1, k2, k3, k4, k5⟩ := scan_ok_callback hok sym n hle
  have e : u32 (tk.scan.cursor + n) = tk.scan.cursor + n := by
    have := hok.2.1; unfold u32; omega
  refine ⟨k1, by rw [k2, h1]; rfl, by rw [k5, h2]; rfl, ?_, ?_, ?_, ?_, ?_, ?_, ?_, ?_⟩
  all_goals rw [tokenizer_callback_eq h3, e]
  · exact h3
  · exact h4
  · show tk.yielded ++ _ = c.toks ++ _
    rw [h5, h1]
  · exact h6
  · exact h7
  · rfl
  · exact h9
  · exact h10

theorem sees_push {tk : tokenizer_t} {c : cfg} (h : sees tk c) (x : tokenizer_context) :
    sees (push_context tk x) (c.push x) := by
  obtain ⟨hok, h1, h2, h3, h4, h5, h6, h7, h8, h9, h10⟩ := h
  refine ⟨hok, h1, h2, h3, ?_, h5, h6, h7, h8, h9, h10⟩
  show List.map (set_slot tk.context (tk.current_context + 1) x)
    (List.range (tk.current_context + 1 + 1)) = c.stk ++ [x]
  rw [stack_push, ← h4]; rfl

theorem rel_pop {tk : tokenizer_t} {c : cfg} (h : sees tk c) :
    rel ((pop_context tk).map fun tk1 => (true, tk1)) (c.pop.map fun c1 => (true, c1)) := by
  obtain ⟨hok, h1, h2, h3, h4, h5, h6, h7, h8, h9, h10⟩ := h
  have hl := stack_length tk
  rw [h4] at hl
  unfold pop_context cfg.pop
  by_cases h0 : tk.current_context = 0
  · rw [if_pos h0, if_pos (by omega)]; trivial
  · rw [if_neg h0, if_neg (by omega)]
    refine ⟨rfl, hok, h1, h2, h3, ?_, h5, h6, h7, h8, h9, h10⟩
    show List.map (set_slot tk.context tk.current_context TOKENIZER_NONE)
      (List.range (tk.current_context - 1 + 1)) = c.stk.dropLast
    rw [stack_pop _ _ _ h0, ← h4]; rfl

theorem sees_found {tk : tokenizer_t} {c : cfg} (h : sees tk c) (b : Bool) :
    sees { tk with found_attribute := b } { c with found := b } := by
  obtain ⟨hok, h1, h2, h3, h4, h5, h6, h7, h8, h9, h10⟩ := h
  exact ⟨hok, h1, h2, h3, h4, h5, h6, h7, h8, rfl, h10⟩

theorem sees_quote {tk : tokenizer_t} {c : cfg} (h : sees tk c) (q : Nat) :
    sees { tk with attribute_value_start := q } { c with quote := q } := by
  obtain ⟨hok, h1, h2, h3, h4, h5, h6, h7, h8, h9, h10⟩ := h
  exact ⟨hok, h1, h2, h3, h4, h5, h6, h7, h8, h9, rfl⟩

theorem sees_closing {tk : tokenizer_t} {c : cfg} (h : sees tk c) (b : Bool) :
    sees { tk with is_closing_tag := b } { c with closing := b } := by
  obtain ⟨hok, h1, h2, h3, h4, h5, h6, h7, h8, h9, h10⟩ := h
  exact ⟨hok, h1, h2, h3, h4, h5, h6, rfl, h8, h9, h10⟩

theorem sees_tag {tk : tokenizer_t} {c : cfg} (h : sees tk c) (t : Option (List Nat)) :
    sees { tk with current_tag := t } { c with tag := t } := by
  obtain ⟨hok, h1, h2, h3, h4, h5, h6, h7, h8, h9, h10⟩ := h
  exact ⟨hok, h1, h2, h3, h4, h5, rfl, h7, h8, h9, h10⟩

theorem sees_cons {tk : tokenizer_t} {c : cfg} (h : sees tk c) (hne : c.rest ≠ []) :
    tk.scan.cursor < tk.scan.length ∧
      char_at tk.scan tk.scan.cursor = some (c.rest.headD 0) := by
  have hrl := rest_length h.1
  rw [h.2.2.1] at hrl
  have hlt : tk.scan.cursor < tk.scan.length := by
    have : c.rest.length ≠ 0 := fun e => hne (List.length_eq_zero.mp e)
    omega
  obtain ⟨x, hx, hc⟩ := rest_cons h.1 hlt
  rw [h.2.2.1] at hx
  refine ⟨hlt, ?_⟩
  rw [hc, hx]; rfl

theorem refine_attributes {tk : tokenizer_t} {c : cfg} (h : sees tk c) (hne : c.rest ≠ []) :
    rel (scan_attributes tk) (view_attributes c) := by
  obtain ⟨hlt, hc⟩ := sees_cons h hne
  have hok := h.1
  have hrest := h.2.2.1
  simp only [scan_attributes, is_whitespace, is_attribute_name, run_from_cursor_rest hok,
    is_char_eq hok, Option.some_bind, hc, hrest, view_attributes, cfg.run, cfg.is_char]
  have hn1 := run_length_le (fun c => c != 32 && c != 9 && c != 13 && c != 10) c.rest
  have hn2 := run_length_le
    (fun c => !is_alnum c && c != 58 && c != 45 && c != 95 && c != 46) c.rest
  have h1 : 1 ≤ c.rest.length := by
    cases hr : c.rest with
    | nil => exact absurd hr hne
    | cons _ _ => simp
  split
  · exact ⟨rfl, sees_emit h _ _ hn1⟩
  split
  · exact ⟨rfl, sees_push (sees_found (sees_emit h _ _ h1) _) _⟩
  split
  · exact ⟨rfl, sees_emit h _ _ h1⟩
  split
  · exact rel_pop h
  split
  · rename_i h39
    simp only [h39, Bool.true_or, Option.some_bind, if_true]
    exact ⟨rfl, sees_push (sees_emit (sees_quote h (c.rest.headD 0)) _ _ h1) _⟩
  · rename_i h39
    simp only [h39, Bool.false_or, Option.some_bind]
    split
    · exact ⟨rfl, sees_push (sees_emit (sees_quote h (c.rest.headD 0)) _ _ h1) _⟩
    split
    · exact ⟨rfl, sees_push (sees_emit h _ _ hn2) _⟩
    · exact ⟨rfl, h⟩

theorem rest_pos {c : cfg} (hne : c.rest ≠ []) : 1 ≤ c.rest.length := by
  cases hr : c.rest with
  | nil => exact absurd hr hne
  | cons _ _ => simp

theorem refine_attribute_name {tk : tokenizer_t} {c : cfg} (h : sees tk c) (hne : c.rest ≠ []) :
    rel (scan_attribute_name tk) (view_attribute_name c) := by
  obtain ⟨hlt, hc⟩ := sees_cons h hne
  have hok := h.1
  have hrest := h.2.2.1
  simp only [scan_attribute_name, is_whitespace, is_attribute_name, run_from_cursor_rest hok,
    is_char_eq hok, Option.some_bind, hc, hrest, view_attribute_name, cfg.run, cfg.is_char]
  have hn2 := run_length_le
    (fun c => !is_alnum c && c != 58 && c != 45 && c != 95 && c != 46) c.rest
  split
  · exact ⟨rfl, sees_emit h _ _ hn2⟩
  rcases Bool.eq_false_or_eq_true
      (run_length (fun c => c != 32 && c != 9 && c != 13 && c != 10) c.rest != 0) with h1 | h1 <;>
  rcases Bool.eq_false_or_eq_true (decide (c.rest.head? = some 47)) with h2 | h2 <;>
  rcases Bool.eq_false_or_eq_true (decide (c.rest.head? = some 62)) with h3 | h3 <;>
  rcases Bool.eq_false_or_eq_true (decide (c.rest.head? = some 61)) with h4 | h4 <;>
    simp only [h1, h2, h3, h4, Bool.false_eq_true, if_false, if_true, Option.some_bind,
      Bool.or_false, Bool.or_true, Bool.or_self, Bool.true_or, Bool.false_or] <;>
    first
      | exact rel_pop h
      | exact ⟨rfl, h⟩

theorem refine_attribute_string {tk : tokenizer_t} {c : cfg} (h : sees tk c)
    (hne : c.rest ≠ []) : rel (scan_attribute_string tk) (view_attribute_string c) := by
  obtain ⟨hlt, hc⟩ := sees_cons h hne
  have hok := h.1
  have hrest := h.2.2.1
  have hq : tk.attribute_value_start = c.quote := h.2.2.2.2.2.2.2.2.2.2
  simp only [scan_attribute_string, is_attribute_string, run_from_cursor_rest hok,
    is_char_eq hok, Option.some_bind, hc, hrest, hq, view_attribute_string, cfg.run,
    cfg.is_char]
  have hn2 := run_length_le (fun x => x == c.quote) c.rest
  split
  · exact rel_pop (sees_emit h _ _ (rest_pos hne))
  split
  · exact ⟨rfl, sees_emit h _ _ hn2⟩
  · exact ⟨rfl, h⟩

theorem refine_plaintext {tk : tokenizer_t} {c : cfg} (h : sees tk c) :
    rel (scan_plaintext tk) (view_plaintext c) := by
  have hrl := rest_length h.1
  rw [h.2.2.1] at hrl
  unfold scan_plaintext view_plaintext
  rw [u32_of_int_remaining h.1, ← hrl]
  exact ⟨rfl, sees_emit h _ _ (Nat.le_refl _)⟩

theorem refine_open_tag {tk : tokenizer_t} {c : cfg} (h : sees tk c) (hne : c.rest ≠ []) :
    rel (scan_open_tag tk) (view_open_tag c) := by
  obtain ⟨hlt, hc⟩ := sees_cons h hne
  have hok := h.1
  have hrest := h.2.2.1
  have htag : tk.current_tag = c.tag := h.2.2.2.2.2.2.1
  have hcat : ∀ n, strncat_bytes tk.scan tk.scan.cursor n = cstr (c.rest.take n) := by
    intro n; rw [← hrest]; rfl
  simp only [scan_open_tag, is_whitespace, is_tag_name, run_from_cursor_rest hok,
    is_char_eq hok, Option.some_bind, hc, hrest, view_open_tag, cfg.run, cfg.is_char,
    callback_current_tag, htag, hcat]
  have hn1 := run_length_le (fun c => c != 32 && c != 9 && c != 13 && c != 10) c.rest
  have hn2 := run_length_le
    (fun c => c == 32 || c == 9 || c == 13 || c == 10 || c == 62 || c == 47) c.rest
  split
  · exact ⟨rfl, sees_tag (sees_emit h _ _ hn2) _⟩
  split
  · exact ⟨rfl, sees_push (sees_emit h _ _ (rest_pos hne)) _⟩
  split
  · exact ⟨rfl, sees_push (sees_emit h _ _ hn1) _⟩
  split
  · exact rel_pop h
  · exact ⟨rfl, h⟩

theorem refine_attribute_value {tk : tokenizer_t} {c : cfg} (h : sees tk c)
    (hne : c.rest ≠ []) : rel (scan_attribute_value tk) (view_attribute_value c) := by
  obtain ⟨hlt, hc⟩ := sees_cons h hne
  have hok := h.1
  have hrest := h.2.2.1
  have hlast : tk.last_token = c.last := h.2.2.2.2.2.2.2.2.1
  have hfound : tk.found_attribute = c.found := h.2.2.2.2.2.2.2.2.2.1
  simp only [scan_attribute_value, is_whitespace, is_unquoted_value, run_from_cursor_rest hok,
    is_char_eq hok, Option.some_bind, hc, hrest, view_attribute_value, cfg.run,
    cfg.is_char, callback_found_attribute]
  have hn1 := run_length_le (fun c => c != 32 && c != 9 && c != 13 && c != 10) c.rest
  have hn2 := run_length_le
    (fun c => c == 32 || c == 13 || c == 10 || c == 9 || c == 62) c.rest
  by_cases hl : tk.last_token = some symbol.attribute_value_end
  · have hl2 : c.last = some symbol.attribute_value_end := by rw [← hlast]; exact hl
    rw [if_pos hl, if_pos hl2]
    exact rel_pop h
  have hl2 : ¬ c.last = some symbol.attribute_value_end := by rw [← hlast]; exact hl
  rw [if_neg hl, if_neg hl2]
  rcases Bool.eq_false_or_eq_true (decide (c.rest.head? = some 47)) with h47 | h47
  · simp only [h47, if_true, Option.some_bind, Bool.true_or]
    exact rel_pop h
  rcases Bool.eq_false_or_eq_true (decide (c.rest.head? = some 62)) with h62 | h62
  · simp only [h47, h62, Bool.false_eq_true, if_false, if_true, Option.some_bind, Bool.or_true]
    exact rel_pop h
  simp only [h47, h62, Bool.false_eq_true, if_false, Option.some_bind, Bool.or_false]
  split
  · have hs1 := sees_emit h symbol.whitespace _ hn1
    have hf1 : (c.emit symbol.whitespace
      (run_length (fun x => x != 32 && x != 9 && x != 13 && x != 10) c.rest)).found = c.found :=
      rfl
    rw [hf1]
    by_cases hf : tk.found_attribute = true
    · have hf2 : c.found = true := by rw [← hfound]; exact hf
      rw [if_pos hf, if_pos hf2]
      exact rel_pop hs1
    · have hf2 : ¬ c.found = true := by rw [← hfound]; exact hf
      rw [if_neg hf, if_neg hf2]
      exact ⟨rfl, hs1⟩
  have hq := sees_found (sees_push (sees_emit (sees_quote h (c.rest.headD 0))
    symbol.attribute_value_start 1 (rest_pos hne)) TOKENIZER_ATTRIBUTE_STRING) true
  rcases Bool.eq_false_or_eq_true (decide (c.rest.head? = some 39)) with h39 | h39
  · simp only [h39, if_true, Option.some_bind, Bool.true_or]
    exact ⟨rfl, hq⟩
  rcases Bool.eq_false_or_eq_true (decide (c.rest.head? = some 34)) with h34 | h34
  · simp only [h39, h34, Bool.false_eq_true, if_false, if_true, Option.some_bind, Bool.or_true]
    exact ⟨rfl, hq⟩
  simp only [h39, h34, Bool.false_eq_true, if_false, Option.some_bind, Bool.or_false]
  split
  · exact ⟨rfl, sees_found (sees_emit h _ _ hn2) _⟩
  · exact ⟨rfl, h⟩

theorem char_at_headD {s : scan_t} {i : Nat} (h : i ≤ s.string.length) :
    char_at s i = some ((s.string.drop i).headD 0) := by
  rcases Nat.lt_or_ge i s.string.length with h1 | h1
  · rw [char_at_lt h1, List.drop_eq_getElem_cons h1]; rfl
  · have e : i = s.string.length := by omega
    rw [e, char_at_length, List.drop_length]; rfl

theorem getD_eq_headD_drop (l : List Nat) (k : Nat) : l.getD k 0 = (l.drop k).headD 0 := by
  induction l generalizing k with
  | nil => simp
  | cons x t ih =>
    cases k with
    | zero => rfl
    | succ k => simp

theorem strncasecmp_tag_eq (s : scan_t) (t : List Nat) :
    ∀ (n p k : Nat), p + n ≤ s.string.length + 1 →
      strncasecmp_tag s t n p k =
        some (tag_name_matches (s.string.drop p) ((cstr t).drop k) n) := by
  intro n
  induction n with
  | zero => intro p k _; rfl
  | succ n ih =>
    intro p k h
    rw [strncasecmp_tag, char_at_headD (by omega), Option.some_bind, tag_name_matches,
      getD_eq_headD_drop]
    simp only
    split
    · rfl
    split
    · rfl
    · rw [ih (p + 1) (k + 1) (by omega)]
      simp [List.tail_drop]

theorem refine_until_end {tk : tokenizer_t} {c : cfg} (h : sees tk c) (hne : c.rest ≠ [])
    (x y z : Nat) (hx : x ≠ 0) (hy : y ≠ 0) (sym : symbol) :
    rel (scan_until_end tk (find_end tk.scan x y z) sym) (view_until_end c x y z sym) := by
  obtain ⟨hlt, hc⟩ := sees_cons h hne
  have hok := h.1
  have hrest := h.2.2.1
  have hpos : tk.scan.cursor = c.pos := h.2.1
  have hrl := rest_length hok
  rw [hrest] at hrl
  unfold view_until_end
  rcases Nat.lt_or_ge tk.scan.length 2 with h2 | h2
  · rw [find_end_short hok hlt h2 x y z hx hy, if_pos (by omega)]
    trivial
  · obtain ⟨hf, hnf⟩ := scan3_bound x y z c.rest
    rw [find_end_eq hok h2, if_neg (by omega), hrest]
    simp only [scan_until_end, Option.some_bind]
    split
    · split
      · rename_i h3
        have := hf h3
        refine ⟨rfl, sees_emit (sees_emit h _ _ (by omega)) _ _ ?_⟩
        show 3 ≤ (c.rest.drop _).length
        rw [List.length_drop]; omega
      · rename_i h3
        simp only [Bool.not_eq_true] at h3
        have := hnf h3
        exact ⟨rfl, sees_emit h _ _ (by omega)⟩
    · rw [u32_of_int_remaining hok, ← hrl]
      exact ⟨rfl, sees_emit h _ _ (Nat.le_refl _)⟩

theorem tag_start_of_closing (cur : Nat) (l : List Nat)
    (h : (tag_start_of cur l).closing_tag = true) : (tag_start_of cur l).tag_name = cur + 2 := by
  unfold tag_start_of at h ⊢
  match l with
  | [] => simp at h
  | c0 :: t =>
    simp only at h ⊢
    split at h
    · simp at h
    · split at h
      · rename_i h1 h2
        rw [if_neg h1, if_pos h2]
      · simp at h

theorem refine_rawtext {tk : tokenizer_t} {c : cfg} (h : sees tk c) (hne : c.rest ≠ []) :
    rel (scan_rawtext tk) (view_rawtext c) := by
  obtain ⟨hlt, hc⟩ := sees_cons h hne
  have hok := h.1
  have hrest := h.2.2.1
  have hpos : tk.scan.cursor = c.pos := h.2.1
  have htag : tk.current_tag = c.tag := h.2.2.2.2.2.2.1
  have hrl := rest_length hok
  rw [hrest] at hrl
  have hn2 := run_length_le (fun c => c == 60) c.rest
  simp only [scan_rawtext, is_tag_start_eq hok hlt, is_text, run_from_cursor_rest hok,
    Option.some_bind, hrest, hpos, view_rawtext, cfg.run]
  split
  · rename_i hm
    obtain ⟨hb1, hb2, hb3⟩ := tag_start_of_bound _ _ hm
    have hsame : (if (tag_start_of c.pos c.rest).closing_tag = true then
          tk.current_tag.bind fun tag =>
            strncasecmp_tag tk.scan tag (tag_start_of c.pos c.rest).tag_name_length
              (tag_start_of c.pos c.rest).tag_name 0
        else some false) =
        (if (tag_start_of c.pos c.rest).closing_tag = true then
          c.tag.map fun tag => tag_name_matches (c.rest.drop 2) (cstr tag)
            (tag_start_of c.pos c.rest).tag_name_length
        else some false) := by
      split
      · rename_i hcl
        rw [htag]
        cases c.tag with
        | none => rfl
        | some tag =>
          simp only [Option.some_bind, Option.map_some']
          rw [strncasecmp_tag_eq _ _ _ _ _ (by have := hok.1; omega),
            tag_start_of_closing _ _ hcl, List.drop_zero, ← hrest, ← hpos]
          simp only [rest, List.drop_drop]
      · rfl
    rw [hsame]
    cases hcmp : (if (tag_start_of c.pos c.rest).closing_tag = true then
          c.tag.map fun tag => tag_name_matches (c.rest.drop 2) (cstr tag)
            (tag_start_of c.pos c.rest).tag_name_length
        else some false) with
    | none => trivial
    | some b =>
      simp only [Option.some_bind]
      cases b
      · simp only [Bool.false_eq_true, if_false]
        exact ⟨rfl, sees_emit h _ _ hb2⟩
      · simp only [if_true]
        exact rel_pop h
  split
  · exact ⟨rfl, sees_emit h _ _ hn2⟩
  · rw [u32_of_int_remaining hok, ← hrl]
    exact ⟨rfl, sees_emit h _ _ (Nat.le_refl _)⟩

theorem sees_clear {tk : tokenizer_t} {c : cfg} (h : sees tk c) :
    sees (clear_current_tag tk) { c with tag := c.tag.map fun _ => [] } := by
  obtain ⟨hok, h1, h2, h3, h4, h5, h6, h7, h8, h9, h10⟩ := h
  refine ⟨hok, h1, h2, h3, h4, h5, ?_, h7, h8, h9, h10⟩
  show tk.current_tag.map _ = c.tag.map _
  rw [h6]

theorem refine_html {tk : tokenizer_t} {c : cfg} (h : sees tk c) (hne : c.rest ≠ []) :
    rel (scan_html tk) (view_html c) := by
  obtain ⟨hlt, hc⟩ := sees_cons h hne
  have hok := h.1
  have hrest := h.2.2.1
  have htag : tk.current_tag = c.tag := h.2.2.2.2.2.2.1
  have hclosing : tk.is_closing_tag = c.closing := h.2.2.2.2.2.2.2.1
  have hrl := rest_length hok
  rw [hrest] at hrl
  have hn2 := run_length_le (fun c => c == 60) c.rest
  have h1 := rest_pos hne
  have hs1 := sees_emit h symbol.tag_start 1 h1
  have hok1 := hs1.1
  have hrest1 := hs1.2.2.1
  rw [scan_html, view_html, is_comment_start_eq hok, Option.some_bind, hrest]
  by_cases c1 : [60, 33, 45, 45] <+: c.rest
  · have := c1.length_le
    simp only [List.length_cons, List.length_nil] at this
    rw [if_pos (decide_eq_true c1), if_pos (decide_eq_true c1)]
    exact ⟨rfl, sees_push (sees_emit h _ _ (by omega)) _⟩
  rw [if_neg (by simpa using c1), if_neg (by simpa using c1), is_doctype_eq hok,
    Option.some_bind, hrest]
  by_cases c2 : List.map tolower [60, 33, 68, 79, 67, 84, 89, 80, 69] <+:
      List.map tolower c.rest
  · have := c2.length_le
    simp only [List.length_cons, List.length_nil, List.length_map] at this
    rw [if_pos (decide_eq_true c2), if_pos (decide_eq_true c2)]
    exact ⟨rfl, sees_push (sees_emit h _ _ (by omega)) _⟩
  rw [if_neg (by simpa using c2), if_neg (by simpa using c2), is_cdata_start_eq hok,
    Option.some_bind, hrest]
  by_cases c3 : List.map tolower [60, 33, 91, 67, 68, 65, 84, 65, 91] <+:
      List.map tolower c.rest
  · have := c3.length_le
    simp only [List.length_cons, List.length_nil, List.length_map] at this
    rw [if_pos (decide_eq_true c3), if_pos (decide_eq_true c3)]
    exact ⟨rfl, sees_push (sees_emit h _ _ (by omega)) _⟩
  rw [if_neg (by simpa using c3), if_neg (by simpa using c3), is_char_eq hok,
    Option.some_bind, hrest]
  unfold cfg.is_char
  by_cases c4 : c.rest.head? = some 60
  · rw [if_pos (decide_eq_true c4), if_pos (decide_eq_true c4)]
    simp only [is_char_eq hok1, Option.some_bind, hrest1]
    by_cases c5 : (c.emit symbol.tag_start 1).rest.head? = some 47
    · rw [if_pos (decide_eq_true c5), if_pos (decide_eq_true c5)]
      have hr1 : 1 ≤ (c.emit symbol.tag_start 1).rest.length := head_some_length c5
      exact ⟨rfl, sees_push (sees_clear (sees_emit (sees_closing hs1 true) symbol.solidus 1
        hr1)) _⟩
    · rw [if_neg (by simpa using c5), if_neg (by simpa using c5)]
      exact ⟨rfl, sees_push (sees_clear (sees_closing hs1 false)) _⟩
  rw [if_neg (by simpa using c4), if_neg (by simpa using c4), is_char_eq hok,
    Option.some_bind, hrest]
  by_cases c6 : c.rest.head? = some 62
  · rw [if_pos (decide_eq_true c6), if_pos (decide_eq_true c6)]
    have hs2 := sees_emit h symbol.tag_end 1 h1
    have ht2 : (c.emit symbol.tag_end 1).tag = c.tag := rfl
    have hc2 : (c.emit symbol.tag_end 1).closing = c.closing := rfl
    simp only [callback_current_tag, callback_is_closing_tag, htag, hclosing, ht2, hc2]
    cases c.tag with
    | none => exact ⟨rfl, hs2⟩
    | some tag =>
      simp only
      split
      · split
        · exact ⟨rfl, sees_push hs2 _⟩
        split
        · exact ⟨rfl, sees_push hs2 _⟩
        split
        · exact ⟨rfl, sees_push hs2 _⟩
        split
        · exact ⟨rfl, sees_push hs2 _⟩
        · exact ⟨rfl, hs2⟩
      · exact ⟨rfl, hs2⟩
  rw [if_neg (by simpa using c6), if_neg (by simpa using c6)]
  simp only [is_text, run_from_cursor_rest hok, Option.some_bind, hrest, cfg.run]
  split
  · exact ⟨rfl, sees_emit h _ _ hn2⟩
  · exact ⟨rfl, h⟩

theorem refine_once {tk : tokenizer_t} {c : cfg} (h : sees tk c) (hne : c.rest ≠ []) :
    rel (scan_once tk) (view_once c) := by
  have htop := stack_top tk
  rw [h.2.2.2.2.1] at htop
  unfold scan_once view_once
  rw [htop]
  show rel (match top tk with
    | TOKENIZER_NONE => some (false, tk)
    | TOKENIZER_HTML => scan_html tk
    | TOKENIZER_OPEN_TAG => scan_open_tag tk
    | TOKENIZER_COMMENT => scan_comment tk
    | TOKENIZER_CDATA => scan_cdata tk
    | TOKENIZER_RCDATA => scan_rawtext tk
    | TOKENIZER_RAWTEXT => scan_rawtext tk
    | TOKENIZER_SCRIPT_DATA => scan_rawtext tk
    | TOKENIZER_PLAINTEXT => scan_plaintext tk
    | TOKENIZER_ATTRIBUTES => scan_attributes tk
    | TOKENIZER_ATTRIBUTE_NAME => scan_attribute_name tk
    | TOKENIZER_ATTRIBUTE_VALUE => scan_attribute_value tk
    | TOKENIZER_ATTRIBUTE_STRING => scan_attribute_string tk) _
  cases top tk with
  | TOKENIZER_NONE => exact ⟨rfl, h⟩
  | TOKENIZER_HTML => exact refine_html h hne
  | TOKENIZER_OPEN_TAG => exact refine_open_tag h hne
  | TOKENIZER_COMMENT => exact refine_until_end h hne 45 45 62 (by decide) (by decide) _
  | TOKENIZER_CDATA => exact refine_until_end h hne 93 93 62 (by decide) (by decide) _
  | TOKENIZER_RCDATA => exact refine_rawtext h hne
  | TOKENIZER_RAWTEXT => exact refine_rawtext h hne
  | TOKENIZER_SCRIPT_DATA => exact refine_rawtext h hne
  | TOKENIZER_PLAINTEXT => exact refine_plaintext h
  | TOKENIZER_ATTRIBUTES => exact refine_attributes h hne
  | TOKENIZER_ATTRIBUTE_NAME => exact refine_attribute_name h hne
  | TOKENIZER_ATTRIBUTE_VALUE => exact refine_attribute_value h hne
  | TOKENIZER_ATTRIBUTE_STRING => exact refine_attribute_string h hne

theorem sees_eos {tk : tokenizer_t} {c : cfg} (h : sees tk c) :
    eos tk.scan = true ↔ c.rest = [] := by
  have hrl := rest_length h.1
  rw [h.2.2.1] at hrl
  have := h.1.2.2
  rw [eos_true_iff, ← List.length_eq_zero]
  omega

theorem refine_all : ∀ (fuel : Nat) (tk : tokenizer_t) (c : cfg), sees tk c →
    rel_all (scan_all fuel tk) (view_all fuel c) := by
  intro fuel
  induction fuel with
  | zero => intro tk c _; trivial
  | succ n ih =>
    intro tk c h
    unfold scan_all at ih ⊢
    rw [scan_loop, view_all]
    by_cases he : c.rest = []
    · have he2 := (sees_eos h).mpr he
      rw [if_pos he2, if_pos he]
      show rel_all (outcome.done (scan_tail tk)) _
      rw [scan_tail_eos he2]
      exact h
    · have he2 : eos tk.scan = false := by
        cases hx : eos tk.scan with
        | false => rfl
        | true => exact absurd ((sees_eos h).mp hx) he
      rw [if_neg (by simp [he2]), if_neg he]
      have hr := refine_once h he
      match hso : scan_once tk, hvo : view_once c, hr with
      | none, none, _ => trivial
      | some (true, tk1), some (b, c1), hr =>
        obtain ⟨rfl, hs⟩ := hr
        exact ih tk1 c1 hs
      | some (false, tk1), some (b, c1), hr =>
        obtain ⟨rfl, hs⟩ := hr
        show rel_all (outcome.done (scan_tail tk1)) _
        have hrl := rest_length hs.1
        rw [hs.2.2.1] at hrl
        show rel_all _ (some (some (if c1.rest = [] then c1
          else c1.emit symbol.malformed c1.rest.length)))
        by_cases he3 : c1.rest = []
        · rw [if_pos he3, scan_tail_eos ((sees_eos hs).mpr he3)]
          exact hs
        · have he4 : eos tk1.scan = false := by
            cases hx : eos tk1.scan with
            | false => rfl
            | true => exact absurd ((sees_eos hs).mp hx) he3
          rw [if_neg he3, (scan_tail_malformed ⟨hs.1, hs.2.2.2.1⟩ he4).1, ← hrl]
          exact sees_emit hs _ _ (Nat.le_refl _)

theorem sees_start (tk : tokenizer_t) (source : List Nat)
    (hcb : tk.f_callback = some callback_t.yield_tag) (hlen : source.length < 2 ^ 31) :
    sees (bind_source tk source) (cfg.start tk source) := by
  have hb := bind_source_base tk source hcb hlen
  exact ⟨hb.1, rfl, rfl, hcb, rfl, rfl, rfl, rfl, rfl, rfl, rfl⟩

theorem view_all_mono : ∀ (n : Nat) (c : cfg) (r : Option cfg), view_all n c = some r →
    ∀ m, n ≤ m → view_all m c = some r := by
  intro n
  induction n with
  | zero => intro c r h; cases h
  | succ n ih =>
    intro c r h m hm
    obtain ⟨k, rfl⟩ : ∃ k, m = k + 1 := ⟨m - 1, by omega⟩
    rw [view_all] at h ⊢
    split
    · rename_i he; rw [if_pos he] at h; exact h
    · rename_i he
      rw [if_neg he] at h
      match hvo : view_once c, h with
      | none, h => exact h
      | some (true, c1), h => exact ih c1 r h k (by omega)
      | some (false, c1), h => exact h

/-- What a call did, read off its view: the call returned, and the final state
is the one the final view describes. -/
theorem tokenize_of_view (tk : tokenizer_t) (source : List Nat)
    (hcb : tk.f_callback = some callback_t.yield_tag) (hlen : source.length < 2 ^ 31)
    (k : Nat) (c : cfg) (hk : k ≤ 2 * source.length + 1)
    (hv : view_all k (cfg.start tk source) = some (some c)) :
    ∃ tk1, tokenizer_tokenize_method tk source = outcome.done tk1 ∧ sees tk1 c := by
  have hl := bind_source_length tk source hlen
  have hfuel : k ≤ fuel_of (bind_source tk source) := by
    unfold fuel_of
    rw [hl]
    show k ≤ 2 * (source.length - 0) + tk.current_context + 1
    omega
  have hv2 := view_all_mono k _ _ hv _ hfuel
  have hr := refine_all (fuel_of (bind_source tk source)) _ _ (sees_start tk source hcb hlen)
  rw [hv2] at hr
  unfold tokenizer_tokenize_method
  match hsa : scan_all (fuel_of (bind_source tk source)) (bind_source tk source), hr with
  | outcome.done tk1, hr => exact ⟨tk1, rfl, hr⟩

theorem view_all_step {n : Nat} {c c1 : cfg} (hne : c.rest ≠ [])
    (h : view_once c = some (true, c1)) : view_all (n + 1) c = view_all n c1 := by
  rw [view_all, if_neg hne, h]

theorem view_all_done {n : Nat} {c : cfg} (he : c.rest = []) :
    view_all (n + 1) c = some (some c) := by
  rw [view_all, if_pos he]

theorem view_all_stuck {n : Nat} {c : cfg} (hne : c.rest ≠ [])
    (h : view_once c = some (false, c)) :
    view_all (n + 1) c = some (some (c.emit symbol.malformed c.rest.length)) := by
  rw [view_all, if_neg hne, h]
  simp [hne]

theorem start_fresh (source : List Nat) :
    cfg.start fresh source = ⟨0, source, [TOKENIZER_HTML], [], none, false, none, false, 0⟩ := by
  unfold cfg.start
  rw [stack_fresh]
  rfl

theorem alnum_facts {x : Nat} (h : is_alnum x = true) :
    x ≠ 0 ∧ x ≠ 33 ∧ x ≠ 47 ∧ x ≠ 62 ∧ x ≠ 60 ∧ x ≠ 32 ∧ x ≠ 9 ∧ x ≠ 13 ∧ x ≠ 10 ∧ x ≠ 61 ∧
      x ≠ 39 ∧ x ≠ 34 ∧ tolower x ≠ 33 := by
  unfold is_alnum at h
  simp only [Bool.or_eq_true, Bool.and_eq_true, decide_eq_true_eq] at h
  unfold tolower
  refine ⟨?_, ?_, ?_, ?_, ?_, ?_, ?_, ?_, ?_, ?_, ?_, ?_, ?_⟩ <;> try omega
  split <;> omega

theorem cstr_eq_self {l : List Nat} (h : ∀ x ∈ l, x ≠ 0) : cstr l = l := by
  unfold cstr
  rw [List.takeWhile_eq_self_iff]
  intro x hx
  simpa using h x hx

theorem alnum_name_stop {x : Nat} (h : is_alnum x = true) : name_stop x = false := by
  obtain ⟨_, _, h47, h62, _, h32, h9, h13, h10, _⟩ := alnum_facts h
  simp [name_stop, h47, h62, h32, h9, h13, h10]

theorem step_open_tag_name {n : Nat} (c : cfg) (T : List Nat) (x : Nat) (r : List Nat)
    (hs : c.stk.getLast? = some TOKENIZER_OPEN_TAG) (hr : c.rest = T ++ x :: r)
    (hT : T ≠ []) (hal : ∀ y ∈ T, is_alnum y = true) (hx : name_stop x = true) :
    view_all (n + 1) c = view_all n { c with
      pos := c.pos + T.length
      rest := x :: r
      toks := c.toks ++ [tok symbol.tag_name c.pos (c.pos + T.length)]
      tag := some (c.tag.getD [] ++ T)
      last := some symbol.tag_name } := by
  have hrun : run_length (fun x => x == 32 || x == 9 || x == 13 || x == 10 || x == 62 ||
      x == 47) (T ++ x :: r) = T.length :=
    @run_length_append name_stop _ x r (fun y hy => alnum_name_stop (hal y hy)) hx
  have hlen : T.length ≠ 0 := fun e => hT (List.length_eq_zero.mp e)
  have hc : cstr T = T := cstr_eq_self (fun y hy => (alnum_facts (hal y hy)).1)
  rw [view_all, if_neg (by rw [hr]; simp), view_once, hs]
  simp [view_open_tag, cfg.run, hr, hrun, hlen, cfg.emit, hc, tok]

theorem step_open_tag_gt {n : Nat} (c : cfg) (r : List Nat)
    (hs : c.stk.getLast? = some TOKENIZER_OPEN_TAG) (hr : c.rest = 62 :: r)
    (hd : 1 < c.stk.length) :
    view_all (n + 1) c = view_all n { c with stk := c.stk.dropLast } := by
  have h1 : run_length (fun x => x == 32 || x == 9 || x == 13 || x == 10 || x == 62 ||
      x == 47) (62 :: r) = 0 := run_length_zero (by decide)
  have h2 : run_length (fun x => x != 32 && x != 9 && x != 13 && x != 10) (62 :: r) = 0 :=
    run_length_zero (by decide)
  rw [view_all, if_neg (by rw [hr]; simp), view_once, hs]
  simp [view_open_tag, cfg.run, hr, h1, h2, cfg.is_char, cfg.pop, Nat.not_le.mpr hd]

theorem step_html_close {n : Nat} (c : cfg) (r : List Nat)
    (hs : c.stk.getLast? = some TOKENIZER_HTML) (hr : c.rest = 60 :: 47 :: r) :
    view_all (n + 1) c = view_all n { c with
      pos := c.pos + 2
      rest := r
      stk := c.stk ++ [TOKENIZER_OPEN_TAG]
      toks := c.toks ++ [tok symbol.tag_start c.pos (c.pos + 1),
        tok symbol.solidus (c.pos + 1) (c.pos + 2)]
      tag := c.tag.map fun _ => []
      closing := true
      last := some symbol.solidus } := by
  rw [view_all, if_neg (by rw [hr]; simp), view_once, hs]
  simp [view_html, cfg.is_char, cfg.emit, cfg.push, hr, tolower, tok]

theorem view_html_gt (p : Nat) (r : List Nat) (stk : List tokenizer_context)
    (toks : List token) (tag : Option (List Nat)) (cl : Bool) (last : Option symbol) (f : Bool)
    (q : Nat) :
    view_html ⟨p, 62 :: r, stk, toks, tag, cl, last, f, q⟩ =
      some (true, ⟨p + 1, r, stk ++ (tag_mode tag cl).toList,
        toks ++ [tok symbol.tag_end p (p + 1)], tag, cl, some symbol.tag_end, f, q⟩) := by
  simp only [view_html, cfg.is_char, cfg.emit, cfg.push, tag_mode]
  rw [if_neg (by simp), if_neg (by simp [tolower]), if_neg (by simp [tolower]),
    if_neg (by simp), if_pos (by simp)]
  cases tag with
  | none => simp [tok]
  | some t =>
    cases cl
    · simp only [Bool.not_false, if_true]
      split_ifs <;> simp [tok]
    · simp [tok]

theorem step_html_gt {n : Nat} (c : cfg) (r : List Nat)
    (hs : c.stk.getLast? = some TOKENIZER_HTML) (hr : c.rest = 62 :: r) :
    view_all (n + 1) c = view_all n { c with
      pos := c.pos + 1
      rest := r
      stk := c.stk ++ (tag_mode c.tag c.closing).toList
      toks := c.toks ++ [tok symbol.tag_end c.pos (c.pos + 1)]
      last := some symbol.tag_end } := by
  obtain ⟨p, rest, stk, toks, tag, cl, last, f, q⟩ := c
  simp only at hr hs
  subst hr
  rw [view_all, if_neg (by simp), view_once, hs]
  simp only [Option.getD_some]
  rw [view_html_gt]

theorem closing_tag_run (T : List Nat) (hT : T ≠ []) (hal : ∀ x ∈ T, is_alnum x = true) :
    ∃ c, view_all 5 (cfg.start fresh (60 :: 47 :: T ++ [62])) = some (some c) ∧
      c.toks = [tok symbol.tag_start 0 1, tok symbol.solidus 1 2,
        tok symbol.tag_name 2 (2 + T.length),
        tok symbol.tag_end (2 + T.length) (3 + T.length)] ∧
      c.stk = [TOKENIZER_HTML] := by
  rw [start_fresh]
  apply Exists.intro
  refine And.intro ?_ ?_
  · refine (step_html_close _ (T ++ [62]) (by rfl) (by rfl)).trans ?_
    refine (step_open_tag_name _ T 62 [] (by rfl) (by rfl) hT hal (by decide)).trans ?_
    refine (step_open_tag_gt _ [] (by rfl) (by rfl) (by simp)).trans ?_
    refine (step_html_gt _ [] (by rfl) (by rfl)).trans ?_
    exact view_all_done (by rfl)
  · refine ⟨?_, ?_⟩
    · simp [tok]
      omega
    · simp [tag_mode]

theorem tokenize_tokens (tk : tokenizer_t) (source : List Nat)
    (hcb : tk.f_callback = some callback_t.yield_tag) (hlen : source.length < 2 ^ 31)
    (k : Nat) (c : cfg) (hk : k ≤ 2 * source.length + 1)
    (hv : view_all k (cfg.start tk source) = some (some c)) :
    (tokenizer_tokenize_method tk source).tokens = some c.toks ∧
      (tokenizer_tokenize_method tk source).stack = some c.stk := by
  obtain ⟨tk1, h1, h2⟩ := tokenize_of_view tk source hcb hlen k c hk hv
  rw [h1]
  exact ⟨congrArg some h2.2.2.2.2.2.1, congrArg some h2.2.2.2.2.1⟩

/-- C4. A closing tag: for every non-empty alphanumeric tag name `T` (in a
buffer shorter than 2 GiB), a fresh tokenizer on `</` T `>` yields exactly
tag_start[0,1), solidus[1,2), tag_name[2,2+n), tag_end[2+n,3+n). -/
theorem closing_tag_tokens (T : List Nat) (hT : T ≠ []) (hal : ∀ x ∈ T, is_alnum x = true)
    (hlen : (60 :: 47 :: T ++ [62]).length < 2 ^ 31) :
    (tokenizer_tokenize_method fresh (60 :: 47 :: T ++ [62])).tokens =
      some [tok symbol.tag_start 0 1, tok symbol.solidus 1 2,
        tok symbol.tag_name 2 (2 + T.length),
        tok symbol.tag_end (2 + T.length) (3 + T.length)] := by
  obtain ⟨c, hv, ht, _⟩ := closing_tag_run T hT hal
  have := (tokenize_tokens fresh _ rfl hlen 5 c (by simp; omega) hv).1
  rw [this, ht]

/-- Witness of C4: `</div>`. -/
theorem closing_tag_tokens_witness :
    bytes "div" ≠ [] ∧ (∀ x ∈ bytes "div", is_alnum x = true) ∧
    (60 :: 47 :: bytes "div" ++ [62]).length < 2 ^ 31 ∧
    bytes "</div>" = 60 :: 47 :: bytes "div" ++ [62] ∧
    (tokenizer_tokenize_method fresh (60 :: 47 :: bytes "div" ++ [62])).tokens =
      some [tok symbol.tag_start 0 1, tok symbol.solidus 1 2,
        tok symbol.tag_name 2 (2 + (bytes "div").length),
        tok symbol.tag_end (2 + (bytes "div").length) (3 + (bytes "div").length)] :=
  ⟨by decide, by decide, by decide, by decide,
    closing_tag_tokens (bytes "div") (by decide) (by decide) (by decide)⟩

theorem attr_char_facts {x : Nat} (h : is_attr_char x = true) :
    attr_stop x = false ∧ space_stop x = true ∧ x ≠ 61 ∧ x ≠ 47 ∧ x ≠ 62 ∧ x ≠ 39 ∧ x ≠ 34 := by
  unfold is_attr_char at h
  simp only [Bool.or_eq_true, beq_iff_eq] at h
  rcases h with (((h | h) | h) | h) | h
  · obtain ⟨_, _, h47, h62, _, h32, h9, h13, h10, h61, h39, h34, _⟩ := alnum_facts h
    simp [attr_stop, space_stop, h, h47, h62, h32, h9, h13, h10, h61, h39, h34]
  all_goals subst h; decide

theorem tolower_ne_33 {x : Nat} (h : x ≠ 33) : tolower x ≠ 33 := by
  unfold tolower
  split <;> omega

theorem step_html_open {n : Nat} (c : cfg) (x : Nat) (r : List Nat)
    (hs : c.stk.getLast? = some TOKENIZER_HTML) (hr : c.rest = 60 :: x :: r)
    (h33 : x ≠ 33) (h47 : x ≠ 47) :
    view_all (n + 1) c = view_all n { c with
      pos := c.pos + 1
      rest := x :: r
      stk := c.stk ++ [TOKENIZER_OPEN_TAG]
      toks := c.toks ++ [tok symbol.tag_start c.pos (c.pos + 1)]
      tag := c.tag.map fun _ => []
      closing := false
      last := some symbol.tag_start } := by
  obtain ⟨p, rest, stk, toks, tag, cl, last, f, q⟩ := c
  simp only at hr hs
  subst hr
  have h33b := tolower_ne_33 h33
  have e60 : tolower 60 = 60 := by decide
  have e33 : tolower 33 = 33 := by decide
  rw [view_all, if_neg (by simp), view_once, hs]
  simp only [Option.getD_some, view_html, cfg.is_char, cfg.emit, cfg.push]
  rw [if_neg (by simp [h33.symm]),
    if_neg (by simp [e60, e33, h33b.symm]),
    if_neg (by simp [e60, e33, h33b.symm]),
    if_pos (by simp), if_neg (by simp [h47])]
  simp [tok]

theorem step_open_tag_space {n : Nat} (c : cfg) (x : Nat) (r : List Nat)
    (hs : c.stk.getLast? = some TOKENIZER_OPEN_TAG) (hr : c.rest = 32 :: x :: r)
    (hx : space_stop x = true) :
    view_all (n + 1) c = view_all n { c with
      pos := c.pos + 1
      rest := x :: r
      stk := c.stk ++ [TOKENIZER_ATTRIBUTES]
      toks := c.toks ++ [tok symbol.whitespace c.pos (c.pos + 1)]
      last := some symbol.whitespace } := by
  obtain ⟨p, rest, stk, toks, tag, cl, last, f, q⟩ := c
  simp only at hr hs
  subst hr
  have h1 : run_length (fun x => x == 32 || x == 9 || x == 13 || x == 10 || x == 62 ||
      x == 47) (32 :: x :: r) = 0 := run_length_zero (by decide)
  have h2 : run_length (fun x => x != 32 && x != 9 && x != 13 && x != 10) (32 :: x :: r) = 1 :=
    @run_length_append space_stop [32] x r (by decide) hx
  rw [view_all, if_neg (by simp), view_once, hs]
  simp [view_open_tag, cfg.run, h1, h2, cfg.is_char, cfg.emit, cfg.push, tok]

theorem step_attributes_space {n : Nat} (c : cfg) (x : Nat) (r : List Nat)
    (hs : c.stk.getLast? = some TOKENIZER_ATTRIBUTES) (hr : c.rest = 32 :: x :: r)
    (hx : space_stop x = true) :
    view_all (n + 1) c = view_all n { c with
      pos := c.pos + 1
      rest := x :: r
      toks := c.toks ++ [tok symbol.whitespace c.pos (c.pos + 1)]
      last := some symbol.whitespace } := by
  obtain ⟨p, rest, stk, toks, tag, cl, last, f, q⟩ := c
  simp only at hr hs
  subst hr
  have h2 : run_length (fun x => x != 32 && x != 9 && x != 13 && x != 10) (32 :: x :: r) = 1 :=
    @run_length_append space_stop [32] x r (by decide) hx
  rw [view_all, if_neg (by simp), view_once, hs]
  simp [view_attributes, cfg.run, h2, cfg.emit, tok]

theorem step_attributes_name {n : Nat} (c : cfg) (A : List Nat) (x : Nat) (r : List Nat)
    (hs : c.stk.getLast? = some TOKENIZER_ATTRIBUTES) (hr : c.rest = A ++ x :: r)
    (hA : A ≠ []) (hal : ∀ y ∈ A, is_attr_char y = true) (hx : attr_stop x = true) :
    view_all (n + 1) c = view_all n { c with
      pos := c.pos + A.length
      rest := x :: r
      stk := c.stk ++ [TOKENIZER_ATTRIBUTE_NAME]
      toks := c.toks ++ [tok symbol.attribute_name c.pos (c.pos + A.length)]
      last := some symbol.attribute_name } := by
  obtain ⟨p, rest, stk, toks, tag, cl, last, f, q⟩ := c
  simp only at hr hs
  subst hr
  obtain ⟨a, A1, rfl⟩ := List.exists_cons_of_ne_nil hA
  obtain ⟨_, ha2, ha61, ha47, ha62, ha39, ha34⟩ := attr_char_facts (hal a (List.mem_cons_self _ _))
  have h1 : run_length (fun x => x != 32 && x != 9 && x != 13 && x != 10)
      (a :: A1 ++ x :: r) = 0 := run_length_zero ha2
  have h2 : run_length (fun x => !is_alnum x && x != 58 && x != 45 && x != 95 && x != 46)
      (a :: A1 ++ x :: r) = (a :: A1).length :=
    @run_length_append attr_stop _ x r (fun y hy => (attr_char_facts (hal y hy)).1) hx
  rw [view_all, if_neg (by simp), view_once, hs]
  simp only [Option.getD_some, view_attributes, cfg.run, cfg.is_char, h1, h2]
  simp [ha61, ha47, ha62, ha39, ha34, cfg.emit, cfg.push, tok]

theorem step_attribute_name_pop {n : Nat} (c : cfg) (x : Nat) (r : List Nat)
    (hs : c.stk.getLast? = some TOKENIZER_ATTRIBUTE_NAME) (hr : c.rest = x :: r)
    (hx : attr_stop x = true) (hx2 : x = 61 ∨ x = 62 ∨ x = 47 ∨ space_stop x = false)
    (hd : 1 < c.stk.length) :
    view_all (n + 1) c = view_all n { c with stk := c.stk.dropLast } := by
  obtain ⟨p, rest, stk, toks, tag, cl, last, f, q⟩ := c
  simp only at hr hs hd
  subst hr
  have h2 : run_length (fun x => !is_alnum x && x != 58 && x != 45 && x != 95 && x != 46)
      (x :: r) = 0 := run_length_zero hx
  have hor : ((run_length (fun x => x != 32 && x != 9 && x != 13 && x != 10) (x :: r) != 0) ||
      decide ((x :: r).head? = some 47) || decide ((x :: r).head? = some 62) ||
      decide ((x :: r).head? = some 61)) = true := by
    rcases hx2 with h | h | h | h
    · simp [h]
    · simp [h]
    · simp [h]
    · have := (run_length_cons_ne (fun x => x != 32 && x != 9 && x != 13 && x != 10) x r).mpr h
      simp [this]
  rw [view_all, if_neg (by simp), view_once, hs]
  simp only [Option.getD_some, view_attribute_name, cfg.run, cfg.is_char, h2]
  rw [if_neg (by simp), if_pos hor]
  simp [cfg.pop, Nat.not_le.mpr hd]

theorem step_attributes_eq {n : Nat} (c : cfg) (r : List Nat)
    (hs : c.stk.getLast? = some TOKENIZER_ATTRIBUTES) (hr : c.rest = 61 :: r) :
    view_all (n + 1) c = view_all n { c with
      pos := c.pos + 1
      rest := r
      stk := c.stk ++ [TOKENIZER_ATTRIBUTE_VALUE]
      toks := c.toks ++ [tok symbol.equal c.pos (c.pos + 1)]
      last := some symbol.equal
      found := false } := by
  obtain ⟨p, rest, stk, toks, tag, cl, last, f, q⟩ := c
  simp only at hr hs
  subst hr
  have h1 : run_length (fun x => x != 32 && x != 9 && x != 13 && x != 10) (61 :: r) = 0 :=
    run_length_zero (by decide)
  rw [view_all, if_neg (by simp), view_once, hs]
  simp [view_attributes, cfg.run, h1, cfg.is_char, cfg.emit, cfg.push, tok]

theorem step_attributes_gt {n : Nat} (c : cfg) (r : List Nat)
    (hs : c.stk.getLast? = some TOKENIZER_ATTRIBUTES) (hr : c.rest = 62 :: r)
    (hd : 1 < c.stk.length) :
    view_all (n + 1) c = view_all n { c with stk := c.stk.dropLast } := by
  obtain ⟨p, rest, stk, toks, tag, cl, last, f, q⟩ := c
  simp only at hr hs hd
  subst hr
  have h1 : run_length (fun x => x != 32 && x != 9 && x != 13 && x != 10) (62 :: r) = 0 :=
    run_length_zero (by decide)
  rw [view_all, if_neg (by simp), view_once, hs]
  simp [view_attributes, cfg.run, h1, cfg.is_char, cfg.pop, Nat.not_le.mpr hd]

theorem step_value_quote {n : Nat} (c : cfg) (x : Nat) (r : List Nat)
    (hs : c.stk.getLast? = some TOKENIZER_ATTRIBUTE_VALUE) (hr : c.rest = x :: r)
    (hx : x = 39 ∨ x = 34) (hl : c.last ≠ some symbol.attribute_value_end) :
    view_all (n + 1) c = view_all n { c with
      pos := c.pos + 1
      rest := r
      stk := c.stk ++ [TOKENIZER_ATTRIBUTE_STRING]
      toks := c.toks ++ [tok symbol.attribute_value_start c.pos (c.pos + 1)]
      last := some symbol.attribute_value_start
      found := true
      quote := x } := by
  obtain ⟨p, rest, stk, toks, tag, cl, last, f, q⟩ := c
  simp only at hr hs hl
  subst hr
  have h1 : run_length (fun x => x != 32 && x != 9 && x != 13 && x != 10) (x :: r) = 0 :=
    run_length_zero (by rcases hx with h | h <;> subst h <;> decide)
  rw [view_all, if_neg (by simp), view_once, hs]
  simp only [Option.getD_some, view_attribute_value, cfg.run, cfg.is_char, h1]
  rw [if_neg hl, if_neg (by rcases hx with h | h <;> subst h <;> simp), if_neg (by simp),
    if_pos (by rcases hx with h | h <;> subst h <;> simp)]
  simp [cfg.emit, cfg.push, tok]

theorem step_string_text {n : Nat} (c : cfg) (V : List Nat) (r : List Nat)
    (hs : c.stk.getLast? = some TOKENIZER_ATTRIBUTE_STRING) (hr : c.rest = V ++ c.quote :: r)
    (hV : V ≠ []) (hq : ∀ y ∈ V, y ≠ c.quote) :
    view_all (n + 1) c = view_all n { c with
      pos := c.pos + V.length
      rest := c.quote :: r
      toks := c.toks ++ [tok symbol.text c.pos (c.pos + V.length)]
      last := some symbol.text } := by
  obtain ⟨p, rest, stk, toks, tag, cl, last, f, q⟩ := c
  simp only at hr hs hq
  subst hr
  obtain ⟨v, V1, rfl⟩ := List.exists_cons_of_ne_nil hV
  have hv : v ≠ q := hq v (List.mem_cons_self _ _)
  have h2 : run_length (fun x => x == q) (v :: V1 ++ q :: r) = (v :: V1).length :=
    run_length_append q r (fun y hy => by simpa using hq y hy) (by simp)
  rw [view_all, if_neg (by simp), view_once, hs]
  simp only [Option.getD_some, view_attribute_string, cfg.run, cfg.is_char, h2]
  rw [if_neg (by simp [hv]), if_pos (by simp)]
  simp [cfg.emit, tok]

theorem step_string_end {n : Nat} (c : cfg) (r : List Nat)
    (hs : c.stk.getLast? = some TOKENIZER_ATTRIBUTE_STRING) (hr : c.rest = c.quote :: r)
    (hd : 1 < c.stk.length) :
    view_all (n + 1) c = view_all n { c with
      pos := c.pos + 1
      rest := r
      stk := c.stk.dropLast
      toks := c.toks ++ [tok symbol.attribute_value_end c.pos (c.pos + 1)]
      last := some symbol.attribute_value_end } := by
  obtain ⟨p, rest, stk, toks, tag, cl, last, f, q⟩ := c
  simp only at hr hs hd
  subst hr
  rw [view_all, if_neg (by simp), view_once, hs]
  simp [view_attribute_string, cfg.is_char, cfg.emit, cfg.pop, Nat.not_le.mpr hd, tok]

theorem step_value_last {n : Nat} (c : cfg)
    (hs : c.stk.getLast? = some TOKENIZER_ATTRIBUTE_VALUE) (hr : c.rest ≠ [])
    (hl : c.last = some symbol.attribute_value_end) (hd : 1 < c.stk.length) :
    view_all (n + 1) c = view_all n { c with stk := c.stk.dropLast } := by
  obtain ⟨p, rest, stk, toks, tag, cl, last, f, q⟩ := c
  simp only at hr hs hd hl
  subst hl
  rw [view_all, if_neg hr, view_once, hs]
  simp [view_attribute_value, cfg.pop, Nat.not_le.mpr hd]

theorem step_attributes_stuck {n : Nat} (c : cfg) (x : Nat) (r : List Nat)
    (hs : c.stk.getLast? = some TOKENIZER_ATTRIBUTES) (hr : c.rest = x :: r)
    (hx : attributes_stuck x = true) :
    view_all (n + 1) c = some (some { c with
      pos := c.pos + (x :: r).length
      rest := []
      toks := c.toks ++ [tok symbol.malformed c.pos (c.pos + (x :: r).length)]
      last := some symbol.malformed }) := by
  obtain ⟨p, rest, stk, toks, tag, cl, last, f, q⟩ := c
  simp only at hr hs
  subst hr
  unfold attributes_stuck at hx
  simp only [Bool.and_eq_true, bne_iff_ne, ne_eq, Bool.not_eq_true'] at hx
  obtain ⟨⟨⟨⟨⟨⟨h1, h61⟩, h47⟩, h62⟩, h39⟩, h34⟩, h7⟩ := hx
  have r1 : run_length (fun x => x != 32 && x != 9 && x != 13 && x != 10) (x :: r) = 0 :=
    run_length_zero (by simp [h1])
  have r2 : run_length (fun x => !is_alnum x && x != 58 && x != 45 && x != 95 && x != 46)
      (x :: r) = 0 := run_length_zero (by simp [h7])
  rw [view_all, if_neg (by simp), view_once, hs]
  simp only [Option.getD_some, view_attributes, cfg.run, cfg.is_char, r1, r2]
  simp [h61, h47, h62, h39, h34, cfg.emit, tok]

theorem quoted_attribute_run (T A V : List Nat) (q : Nat) (hT : T ≠ [])
    (hTal : ∀ x ∈ T, is_alnum x = true) (hA : A ≠ []) (hAal : ∀ x ∈ A, is_attr_char x = true)
    (hq : q = 34 ∨ q = 39) (hV : V ≠ []) (hVq : ∀ x ∈ V, x ≠ q) :
    ∃ c, view_all 14 (cfg.start fresh (60 :: (T ++ 32 :: (A ++ 61 :: q :: (V ++ [q, 62]))))) =
        some (some c) ∧
      c.toks = [tok symbol.tag_start 0 1, tok symbol.tag_name 1 (1 + T.length),
        tok symbol.whitespace (1 + T.length) (2 + T.length),
        tok symbol.attribute_name (2 + T.length) (2 + T.length + A.length),
        tok symbol.equal (2 + T.length + A.length) (3 + T.length + A.length),
        tok symbol.attribute_value_start (3 + T.length + A.length) (4 + T.length + A.length),
        tok symbol.text (4 + T.length + A.length) (4 + T.length + A.length + V.length),
        tok symbol.attribute_value_end (4 + T.length + A.length + V.length)
          (5 + T.length + A.length + V.length),
        tok symbol.tag_end (5 + T.length + A.length + V.length)
          (6 + T.length + A.length + V.length)] := by
  obtain ⟨t0, T1, rfl⟩ := List.exists_cons_of_ne_nil hT
  obtain ⟨a0, A1, rfl⟩ := List.exists_cons_of_ne_nil hA
  obtain ⟨_, h33, h47, _⟩ := alnum_facts (hTal t0 (List.mem_cons_self _ _))
  obtain ⟨_, hsp, _⟩ := attr_char_facts (hAal a0 (List.mem_cons_self _ _))
  rw [start_fresh]
  apply Exists.intro
  refine And.intro ?_ ?_
  · refine (step_html_open _ t0 _ (by rfl) (by rfl) h33 h47).trans ?_
    refine (step_open_tag_name _ (t0 :: T1) 32 _ (by rfl) (by rfl) hT hTal (by decide)).trans ?_
    refine (step_open_tag_space _ a0 _ (by rfl) (by rfl) hsp).trans ?_
    refine (step_attributes_name _ (a0 :: A1) 61 _ (by rfl) (by rfl) hA hAal (by decide)).trans ?_
    refine (step_attribute_name_pop _ 61 _ (by rfl) (by rfl) (by decide) (Or.inl rfl)
      (by simp)).trans ?_
    refine (step_attributes_eq _ _ (by rfl) (by rfl)).trans ?_
    refine (step_value_quote _ q _ (by rfl) (by rfl) hq.symm (by simp)).trans ?_
    refine (step_string_text _ V [62] (by rfl) (by rfl) hV hVq).trans ?_
    refine (step_string_end _ [62] (by rfl) (by rfl) (by simp)).trans ?_
    refine (step_value_last _ (by rfl) (by simp) (by rfl) (by simp)).trans ?_
    refine (step_attributes_gt _ [] (by rfl) (by rfl) (by simp)).trans ?_
    refine (step_open_tag_gt _ [] (by rfl) (by rfl) (by simp)).trans ?_
    refine (step_html_gt _ [] (by rfl) (by rfl)).trans ?_
    exact view_all_done (by rfl)
  · simp [tok]
    omega

/-- C3. An open tag with one quoted attribute: for a non-empty alphanumeric
tag name `T`, a non-empty attribute name `A` of attribute-name characters, a
quote `q` and a non-empty value `V` free of `q`, a fresh tokenizer on
`<` T ` ` A `=` q V q `>` (shorter than 2 GiB) yields exactly tag_start,
tag_name, whitespace, attribute_name, equal, attribute_value_start, one text
token covering `V`, attribute_value_end and tag_end, contiguous from offset 0. -/
theorem quoted_attribute (T A V : List Nat) (q : Nat) (hT : T ≠ [])
    (hTal : ∀ x ∈ T, is_alnum x = true) (hA : A ≠ []) (hAal : ∀ x ∈ A, is_attr_char x = true)
    (hq : q = 34 ∨ q = 39) (hV : V ≠ []) (hVq : ∀ x ∈ V, x ≠ q)
    (hlen : (60 :: (T ++ 32 :: (A ++ 61 :: q :: (V ++ [q, 62])))).length < 2 ^ 31) :
    (tokenizer_tokenize_method fresh
        (60 :: (T ++ 32 :: (A ++ 61 :: q :: (V ++ [q, 62]))))).tokens =
      some [tok symbol.tag_start 0 1, tok symbol.tag_name 1 (1 + T.length),
        tok symbol.whitespace (1 + T.length) (2 + T.length),
        tok symbol.attribute_name (2 + T.length) (2 + T.length + A.length),
        tok symbol.equal (2 + T.length + A.length) (3 + T.length + A.length),
        tok symbol.attribute_value_start (3 + T.length + A.length) (4 + T.length + A.length),
        tok symbol.text (4 + T.length + A.length) (4 + T.length + A.length + V.length),
        tok symbol.attribute_value_end (4 + T.length + A.length + V.length)
          (5 + T.length + A.length + V.length),
        tok symbol.tag_end (5 + T.length + A.length + V.length)
          (6 + T.length + A.length + V.length)] := by
  obtain ⟨c, hv, ht⟩ := quoted_attribute_run T A V q hT hTal hA hAal hq hV hVq
  have hT1 : 1 ≤ T.length := List.length_pos.mpr hT
  have hA1 : 1 ≤ A.length := List.length_pos.mpr hA
  have hV1 : 1 ≤ V.length := List.length_pos.mpr hV
  have := (tokenize_tokens fresh _ rfl hlen 14 c
    (by simp only [List.length_cons, List.length_append]; omega) hv).1
  rw [this, ht]

/-- Witness of C3: `<div class="a">`. -/
theorem quoted_attribute_witness :
    bytes "<div class=\"a\">" =
      60 :: (bytes "div" ++ 32 :: (bytes "class" ++ 61 :: 34 :: (bytes "a" ++ [34, 62]))) ∧
    (tokenizer_tokenize_method fresh
        (60 :: (bytes "div" ++ 32 :: (bytes "class" ++ 61 :: 34 :: (bytes "a" ++ [34, 62]))))).tokens =
      some [tok symbol.tag_start 0 1, tok symbol.tag_name 1 (1 + (bytes "div").length),
        tok symbol.whitespace (1 + (bytes "div").length) (2 + (bytes "div").length),
        tok symbol.attribute_name (2 + (bytes "div").length)
          (2 + (bytes "div").length + (bytes "class").length),
        tok symbol.equal (2 + (bytes "div").length + (bytes "class").length)
          (3 + (bytes "div").length + (bytes "class").length),
        tok symbol.attribute_value_start (3 + (bytes "div").length + (bytes "class").length)
          (4 + (bytes "div").length + (bytes "class").length),
        tok symbol.text (4 + (bytes "div").length + (bytes "class").length)
          (4 + (bytes "div").length + (bytes "class").length + (bytes "a").length),
        tok symbol.attribute_value_end
          (4 + (bytes "div").length + (bytes "class").length + (bytes "a").length)
          (5 + (bytes "div").length + (bytes "class").length + (bytes "a").length),
        tok symbol.tag_end
          (5 + (bytes "div").length + (bytes "class").length + (bytes "a").length)
          (6 + (bytes "div").length + (bytes "class").length + (bytes "a").length)] :=
  ⟨by decide, quoted_attribute (bytes "div") (bytes "class") (bytes "a") 34 (by decide)
    (by decide) (by decide) (by decide) (Or.inl rfl) (by decide) (by decide) (by decide)⟩

theorem stuck_attribute_run (T R : List Nat) (x : Nat) (hT : T ≠ [])
    (hTal : ∀ y ∈ T, is_alnum y = true) (hx : attributes_stuck x = true) :
    ∃ c, view_all 4 (cfg.start fresh (60 :: (T ++ 32 :: x :: R))) = some (some c) ∧
      c.toks = [tok symbol.tag_start 0 1, tok symbol.tag_name 1 (1 + T.length),
        tok symbol.whitespace (1 + T.length) (2 + T.length),
        tok symbol.malformed (2 + T.length) (60 :: (T ++ 32 :: x :: R)).length] := by
  obtain ⟨t0, T1, rfl⟩ := List.exists_cons_of_ne_nil hT
  obtain ⟨_, h33, h47, _⟩ := alnum_facts (hTal t0 (List.mem_cons_self _ _))
  have hsp : space_stop x = true := by
    unfold attributes_stuck at hx
    simp only [Bool.and_eq_true] at hx
    simpa [space_stop] using hx.1.1.1.1.1.1
  rw [start_fresh]
  apply Exists.intro
  refine And.intro ?_ ?_
  · refine (step_html_open _ t0 _ (by rfl) (by rfl) h33 h47).trans ?_
    refine (step_open_tag_name _ (t0 :: T1) 32 _ (by rfl) (by rfl) hT hTal (by decide)).trans ?_
    refine (step_open_tag_space _ x _ (by rfl) (by rfl) hsp).trans ?_
    exact step_attributes_stuck _ x R (by rfl) (by rfl) hx
  · simp [tok]
    omega

/-- C7. An unrecognised byte in the attribute list: for a non-empty
alphanumeric tag name `T`, a byte `x` that is not whitespace, `=`, `/`, `>`,
a quote or an attribute-name character, and any bytes `R`, a fresh tokenizer
on `<` T ` ` x R (shorter than 2 GiB) yields exactly tag_start[0,1),
tag_name[1,1+t), whitespace[1+t,2+t) and malformed[2+t, length). -/
theorem unrecognised_attribute_byte (T R : List Nat) (x : Nat) (hT : T ≠ [])
    (hTal : ∀ y ∈ T, is_alnum y = true)
    (hws : x ≠ 32 ∧ x ≠ 9 ∧ x ≠ 13 ∧ x ≠ 10)
    (hpunct : x ≠ 61 ∧ x ≠ 47 ∧ x ≠ 62 ∧ x ≠ 39 ∧ x ≠ 34)
    (hname : is_alnum x = false ∧ x ≠ 58 ∧ x ≠ 45 ∧ x ≠ 95 ∧ x ≠ 46)
    (hlen : (60 :: (T ++ 32 :: x :: R)).length < 2 ^ 31) :
    (tokenizer_tokenize_method fresh (60 :: (T ++ 32 :: x :: R))).tokens =
      some [tok symbol.tag_start 0 1, tok symbol.tag_name 1 (1 + T.length),
        tok symbol.whitespace (1 + T.length) (2 + T.length),
        tok symbol.malformed (2 + T.length) (60 :: (T ++ 32 :: x :: R)).length] := by
  have hx : attributes_stuck x = true := by
    obtain ⟨h1, h2, h3, h4⟩ := hws
    obtain ⟨h5, h6, h7, h8, h9⟩ := hpunct
    obtain ⟨h10, h11, h12, h13, h14⟩ := hname
    simp [attributes_stuck, h1, h2, h3, h4, h5, h6, h7, h8, h9, h10, h11, h12, h13, h14]
  obtain ⟨c, hv, ht⟩ := stuck_attribute_run T R x hT hTal hx
  have hT1 : 1 ≤ T.length := List.length_pos.mpr hT
  have := (tokenize_tokens fresh _ rfl hlen 4 c
    (by simp only [List.length_cons, List.length_append]; omega) hv).1
  rw [this, ht]

/-- Witness of C7: `<div $>` gives malformed[5,7). -/
theorem unrecognised_attribute_byte_witness :
    bytes "<div $>" = 60 :: (bytes "div" ++ 32 :: 36 :: bytes ">") ∧
    (60 :: (bytes "div" ++ 32 :: 36 :: bytes ">")).length = 7 ∧
    (tokenizer_tokenize_method fresh (60 :: (bytes "div" ++ 32 :: 36 :: bytes ">"))).tokens =
      some [tok symbol.tag_start 0 1, tok symbol.tag_name 1 (1 + (bytes "div").length),
        tok symbol.whitespace (1 + (bytes "div").length) (2 + (bytes "div").length),
        tok symbol.malformed (2 + (bytes "div").length)
          (60 :: (bytes "div" ++ 32 :: 36 :: bytes ">")).length] :=
  ⟨by decide, by decide, unrecognised_attribute_byte (bytes "div") (bytes ">") 36 (by decide)
    (by decide) (by decide) (by decide) (by decide) (by decide)⟩

theorem strcasecmp_eq_ignoring (lit T : List Nat) (hl : ∀ x ∈ lit, x ≠ 0)
    (hT : ∀ x ∈ T, x ≠ 0) : strcasecmp_eq lit T = eq_ignoring_case T lit := by
  unfold strcasecmp_eq eq_ignoring_case
  rw [cstr_eq_self hl, cstr_eq_self hT]
  exact decide_eq_decide.mpr eq_comm

theorem tag_mode_spec (T : List Nat) (hal : ∀ x ∈ T, is_alnum x = true) :
    tag_mode (some T) false = spec_content_mode T := by
  have hT : ∀ x ∈ T, x ≠ 0 := fun x hx => (alnum_facts (hal x hx)).1
  unfold tag_mode spec_content_mode
  have b1 : bytes "title" = [116, 105, 116, 108, 101] := by decide
  have b2 : bytes "textarea" = [116, 101, 120, 116, 97, 114, 101, 97] := by decide
  have b3 : bytes "style" = [115, 116, 121, 108, 101] := by decide
  have b4 : bytes "xmp" = [120, 109, 112] := by decide
  have b5 : bytes "iframe" = [105, 102, 114, 97, 109, 101] := by decide
  have b6 : bytes "noembed" = [110, 111, 101, 109, 98, 101, 100] := by decide
  have b7 : bytes "noframes" = [110, 111, 102, 114, 97, 109, 101, 115] := by decide
  have b8 : bytes "listing" = [108, 105, 115, 116, 105, 110, 103] := by decide
  have b9 : bytes "script" = [115, 99, 114, 105, 112, 116] := by decide
  have b10 : bytes "plaintext" = [112, 108, 97, 105, 110, 116, 101, 120, 116] := by decide
  rw [b1, b2, b3, b4, b5, b6, b7, b8, b9, b10]
  have h : ∀ lit : List Nat, (∀ x ∈ lit, x ≠ 0) → strcasecmp_eq lit T = eq_ignoring_case T lit :=
    fun lit hl => strcasecmp_eq_ignoring lit T hl hT
  simp only [Bool.not_false, if_true]
  rw [h _ (by decide), h _ (by decide), h _ (by decide), h _ (by decide), h _ (by decide),
    h _ (by decide), h _ (by decide), h _ (by decide), h _ (by decide), h _ (by decide)]

theorem open_tag_run (T : List Nat) (hT : T ≠ []) (hal : ∀ x ∈ T, is_alnum x = true) :
    ∃ c, view_all 5 (cfg.start fresh (60 :: (T ++ [62]))) = some (some c) ∧
      c.toks = [tok symbol.tag_start 0 1, tok symbol.tag_name 1 (1 + T.length),
        tok symbol.tag_end (1 + T.length) (2 + T.length)] ∧
      c.stk = [TOKENIZER_HTML] ++ (tag_mode (some T) false).toList := by
  obtain ⟨t0, T1, rfl⟩ := List.exists_cons_of_ne_nil hT
  obtain ⟨_, h33, h47, _⟩ := alnum_facts (hal t0 (List.mem_cons_self _ _))
  rw [start_fresh]
  apply Exists.intro
  refine And.intro ?_ ?_
  · refine (step_html_open _ t0 _ (by rfl) (by rfl) h33 h47).trans ?_
    refine (step_open_tag_name _ (t0 :: T1) 62 [] (by rfl) (by rfl) hT hal (by decide)).trans ?_
    refine (step_open_tag_gt _ [] (by rfl) (by rfl) (by simp)).trans ?_
    refine (step_html_gt _ [] (by rfl) (by rfl)).trans ?_
    exact view_all_done (by rfl)
  · refine ⟨?_, ?_⟩
    · simp [tok]
      omega
    · simp

/-- C8. Content-mode selection: for every non-empty alphanumeric tag name `T`
(buffers shorter than 2 GiB), after a fresh tokenizer tokenizes `<` T `>` the
context stack is HTML followed by the state the lookup table gives for `T`
ignoring ASCII case (RCDATA for title and textarea, RAWTEXT for style, xmp,
iframe, noembed, noframes and listing, SCRIPT_DATA for script, PLAINTEXT for
plaintext, nothing otherwise), and after it tokenizes `</` T `>` the stack is
just HTML. -/
theorem content_mode_selection (T : List Nat) (hT : T ≠ [])
    (hal : ∀ x ∈ T, is_alnum x = true) (hlen : T.length + 3 < 2 ^ 31) :
    (tokenizer_tokenize_method fresh (60 :: (T ++ [62]))).stack =
        some (TOKENIZER_HTML :: (spec_content_mode T).toList) ∧
      (tokenizer_tokenize_method fresh (60 :: 47 :: (T ++ [62]))).stack =
        some [TOKENIZER_HTML] := by
  have hT1 : 1 ≤ T.length := List.length_pos.mpr hT
  constructor
  · obtain ⟨c, hv, _, hs⟩ := open_tag_run T hT hal
    have := (tokenize_tokens fresh _ rfl
      (by simp only [List.length_cons, List.length_append, List.length_nil]; omega) 5 c
      (by simp only [List.length_cons, List.length_append]; omega) hv).2
    rw [this, hs, tag_mode_spec T hal]
    rfl
  · obtain ⟨c, hv, _, hs⟩ := closing_tag_run T hT hal
    have := (tokenize_tokens fresh _ rfl
      (by simp only [List.length_cons, List.length_append, List.length_nil]; omega) 5 c
      (by simp only [List.length_cons, List.length_append]; omega) hv).2
    exact this.trans (congrArg some hs)

/-- Witness of C8: `<ScRiPt>` enters SCRIPT_DATA and `</ScRiPt>` does not. -/
theorem content_mode_selection_witness :
    spec_content_mode (bytes "ScRiPt") = some TOKENIZER_SCRIPT_DATA ∧
    ((tokenizer_tokenize_method fresh (60 :: (bytes "ScRiPt" ++ [62]))).stack =
        some (TOKENIZER_HTML :: (spec_content_mode (bytes "ScRiPt")).toList) ∧
      (tokenizer_tokenize_method fresh (60 :: 47 :: (bytes "ScRiPt" ++ [62]))).stack =
        some [TOKENIZER_HTML]) :=
  ⟨by decide, content_mode_selection (bytes "ScRiPt") (by decide) (by decide) (by decide)⟩

theorem scan3_cons (x y z b : Nat) (l : List Nat) (hl : 2 ≤ l.length) :
    scan3 x y z (b :: l) =
      if [x, y, z] <+: b :: l then (0, true)
      else ((scan3 x y z l).1 + 1, (scan3 x y z l).2) := by
  match l, hl with
  | e1 :: e2 :: t, _ =>
    rw [scan3]
    by_cases h : b = x ∧ e1 = y ∧ e2 = z
    · obtain ⟨rfl, rfl, rfl⟩ := h
      simp
    · rw [if_neg h, if_neg]
      intro hp
      apply h
      simp only [List.cons_prefix_cons] at hp
      exact ⟨hp.1.symm, hp.2.1.symm, hp.2.2.1.symm⟩

theorem scan3_first (x y z : Nat) (r : List Nat) : ∀ B : List Nat,
    (∀ k < B.length, ¬ [x, y, z] <+: (B ++ x :: y :: z :: r).drop k) →
    scan3 x y z (B ++ x :: y :: z :: r) = (B.length, true) := by
  intro B
  induction B with
  | nil => intro _; simp [scan3]
  | cons b t ih =>
    intro h
    have h0 : ¬ [x, y, z] <+: b :: (t ++ x :: y :: z :: r) := by
      simpa using h 0 (by simp)
    rw [List.cons_append, scan3_cons x y z b _ (by simp; omega), if_neg h0,
      ih (fun k hk => by simpa using h (k + 1) (by simpa using hk))]
    rfl

theorem until_end_found (c : cfg) (x y z : Nat) (sym : symbol) (B r : List Nat)
    (hr : c.rest = B ++ x :: y :: z :: r) (hB : B ≠ [])
    (hfirst : ∀ k < B.length, ¬ [x, y, z] <+: (B ++ x :: y :: z :: r).drop k) :
    view_until_end c x y z sym = some (true, { c with
      pos := c.pos + B.length + 3
      rest := r
      toks := c.toks ++ [tok symbol.text c.pos (c.pos + B.length),
        tok sym (c.pos + B.length) (c.pos + B.length + 3)]
      last := some sym }) := by
  obtain ⟨p, rest, stk, toks, tag, cl, last, f, q⟩ := c
  simp only at hr
  subst hr
  have hlen : B.length ≠ 0 := fun e => hB (List.length_eq_zero.mp e)
  unfold view_until_end
  simp only [scan3_first x y z r B hfirst]
  rw [if_neg (by simp; omega), if_pos (by simpa using hlen)]
  simp [cfg.emit, tok]

theorem step_comment_found {n : Nat} (c : cfg) (B r : List Nat)
    (hs : c.stk.getLast? = some TOKENIZER_COMMENT) (hr : c.rest = B ++ 45 :: 45 :: 62 :: r)
    (hB : B ≠ [])
    (hfirst : ∀ k < B.length, ¬ [45, 45, 62] <+: (B ++ 45 :: 45 :: 62 :: r).drop k) :
    view_all (n + 1) c = view_all n { c with
      pos := c.pos + B.length + 3
      rest := r
      toks := c.toks ++ [tok symbol.text c.pos (c.pos + B.length),
        tok symbol.comment_end (c.pos + B.length) (c.pos + B.length + 3)]
      last := some symbol.comment_end } := by
  rw [view_all, if_neg (by rw [hr]; simp), view_once, hs]
  simp only [Option.getD_some]
  rw [until_end_found c 45 45 62 symbol.comment_end B r hr hB hfirst]

theorem step_cdata_found {n : Nat} (c : cfg) (B r : List Nat)
    (hs : c.stk.getLast? = some TOKENIZER_CDATA) (hr : c.rest = B ++ 93 :: 93 :: 62 :: r)
    (hB : B ≠ [])
    (hfirst : ∀ k < B.length, ¬ [93, 93, 62] <+: (B ++ 93 :: 93 :: 62 :: r).drop k) :
    view_all (n + 1) c = view_all n { c with
      pos := c.pos + B.length + 3
      rest := r
      toks := c.toks ++ [tok symbol.text c.pos (c.pos + B.length),
        tok symbol.cdata_end (c.pos + B.length) (c.pos + B.length + 3)]
      last := some symbol.cdata_end } := by
  rw [view_all, if_neg (by rw [hr]; simp), view_once, hs]
  simp only [Option.getD_some]
  rw [until_end_found c 93 93 62 symbol.cdata_end B r hr hB hfirst]

theorem step_html_comment {n : Nat} (c : cfg) (r : List Nat)
    (hs : c.stk.getLast? = some TOKENIZER_HTML) (hr : c.rest = 60 :: 33 :: 45 :: 45 :: r) :
    view_all (n + 1) c = view_all n { c with
      pos := c.pos + 4
      rest := r
      stk := c.stk ++ [TOKENIZER_COMMENT]
      toks := c.toks ++ [tok symbol.comment_start c.pos (c.pos + 4)]
      last := some symbol.comment_start } := by
  obtain ⟨p, rest, stk, toks, tag, cl, last, f, q⟩ := c
  simp only at hr hs
  subst hr
  rw [view_all, if_neg (by simp), view_once, hs]
  simp [view_html, cfg.emit, cfg.push, tok]

theorem prefix_same_length {l1 l2 r : List Nat} (h : l1 <+: l2 ++ r)
    (hl : l1.length ≤ l2.length) : l1 <+: l2 :=
  List.prefix_of_prefix_length_le h (List.prefix_append _ _) hl

theorem step_html_doctype {n : Nat} (c : cfg) (D r : List Nat)
    (hs : c.stk.getLast? = some TOKENIZER_HTML) (hr : c.rest = D ++ r)
    (hD : D.map tolower = [60, 33, 68, 79, 67, 84, 89, 80, 69].map tolower) :
    view_all (n + 1) c = view_all n { c with
      pos := c.pos + 9
      rest := r
      stk := c.stk ++ [TOKENIZER_ATTRIBUTES]
      toks := c.toks ++ [tok symbol.tag_start c.pos (c.pos + 9)]
      last := some symbol.tag_start } := by
  obtain ⟨p, rest, stk, toks, tag, cl, last, f, q⟩ := c
  simp only at hr hs
  subst hr
  have hlen : D.length = 9 := by
    have := congrArg List.length hD
    simpa using this
  have hne : D ++ r ≠ [] := by
    intro e
    have := congrArg List.length e
    simp only [List.length_append, List.length_nil] at this
    omega
  have h1 : ¬ [60, 33, 45, 45] <+: D ++ r := by
    intro h
    have h2 := (prefix_same_length h (by simp; omega)).map tolower
    rw [hD] at h2
    revert h2
    decide
  have h2 : [60, 33, 68, 79, 67, 84, 89, 80, 69].map tolower <+: (D ++ r).map tolower := by
    rw [List.map_append, ← hD]
    exact List.prefix_append _ _
  have hdrop : (D ++ r).drop 9 = r := by
    rw [← hlen]
    exact List.drop_left _ _
  rw [view_all, if_neg hne, view_once, hs]
  simp only [Option.getD_some, view_html]
  rw [if_neg (by simpa using h1), if_pos (by simpa using h2)]
  simp [cfg.emit, cfg.push, tok, hdrop]

theorem step_html_cdata {n : Nat} (c : cfg) (S r : List Nat)
    (hs : c.stk.getLast? = some TOKENIZER_HTML) (hr : c.rest = S ++ r)
    (hS : S.map tolower = [60, 33, 91, 67, 68, 65, 84, 65, 91].map tolower) :
    view_all (n + 1) c = view_all n { c with
      pos := c.pos + 9
      rest := r
      stk := c.stk ++ [TOKENIZER_CDATA]
      toks := c.toks ++ [tok symbol.cdata_start c.pos (c.pos + 9)]
      last := some symbol.cdata_start } := by
  obtain ⟨p, rest, stk, toks, tag, cl, last, f, q⟩ := c
  simp only at hr hs
  subst hr
  have hlen : S.length = 9 := by
    have := congrArg List.length hS
    simpa using this
  have hne : S ++ r ≠ [] := by
    intro e
    have := congrArg List.length e
    simp only [List.length_append, List.length_nil] at this
    omega
  have h1 : ¬ [60, 33, 45, 45] <+: S ++ r := by
    intro h
    have h2 := (prefix_same_length h (by simp; omega)).map tolower
    rw [hS] at h2
    revert h2
    decide
  have h2 : ¬ [60, 33, 68, 79, 67, 84, 89, 80, 69].map tolower <+: (S ++ r).map tolower := by
    intro h
    rw [List.map_append] at h
    have h2 := prefix_same_length h (by simp; omega)
    rw [hS] at h2
    revert h2
    decide
  have h3 : [60, 33, 91, 67, 68, 65, 84, 65, 91].map tolower <+: (S ++ r).map tolower := by
    rw [List.map_append, ← hS]
    exact List.prefix_append _ _
  have hdrop : (S ++ r).drop 9 = r := by
    rw [← hlen]
    exact List.drop_left _ _
  rw [view_all, if_neg hne, view_once, hs]
  simp only [Option.getD_some, view_html]
  rw [if_neg (by simpa using h1), if_neg (by simpa using h2), if_pos (by simpa using h3)]
  simp [cfg.emit, cfg.push, tok, hdrop]

theorem comment_run (B : List Nat) (hB : B ≠ [])
    (hfirst : ∀ k < B.length, ¬ [45, 45, 62] <+: (B ++ [45, 45, 62]).drop k) :
    ∃ c, view_all 3 (cfg.start fresh (60 :: 33 :: 45 :: 45 :: (B ++ [45, 45, 62]))) =
        some (some c) ∧
      c.toks = [tok symbol.comment_start 0 4, tok symbol.text 4 (4 + B.length),
        tok symbol.comment_end (4 + B.length) (7 + B.length)] := by
  rw [start_fresh]
  apply Exists.intro
  refine And.intro ?_ ?_
  · refine (step_html_comment _ (B ++ [45, 45, 62]) (by rfl) (by rfl)).trans ?_
    refine (step_comment_found _ B [] (by rfl) (by rfl) hB hfirst).trans ?_
    exact view_all_done (by rfl)
  · simp [tok]
    omega

/-- C12. A terminated comment: for every non-empty `B` of length `n` such
that `-->` does not occur in `B ++ "-->"` before offset `n`, a fresh tokenizer
on `<!--` B `-->` (shorter than 2 GiB) yields exactly comment_start[0,4),
text[4,4+n) and comment_end[4+n,7+n). -/
theorem terminated_comment (B : List Nat) (hB : B ≠ [])
    (hfirst : ∀ k < B.length, ¬ [45, 45, 62] <+: (B ++ [45, 45, 62]).drop k)
    (hlen : B.length + 7 < 2 ^ 31) :
    (tokenizer_tokenize_method fresh (bytes "<!--" ++ (B ++ bytes "-->"))).tokens =
      some [tok symbol.comment_start 0 4, tok symbol.text 4 (4 + B.length),
        tok symbol.comment_end (4 + B.length) (7 + B.length)] := by
  obtain ⟨c, hv, ht⟩ := comment_run B hB hfirst
  have e : bytes "<!--" ++ (B ++ bytes "-->") = 60 :: 33 :: 45 :: 45 :: (B ++ [45, 45, 62]) := by
    have e1 : bytes "<!--" = [60, 33, 45, 45] := by decide
    have e2 : bytes "-->" = [45, 45, 62] := by decide
    rw [e1, e2]
    rfl
  rw [e]
  have := (tokenize_tokens fresh _ rfl
    (by simp only [List.length_cons, List.length_append, List.length_nil]; omega) 3 c
    (by simp only [List.length_cons, List.length_append]; omega) hv).1
  rw [this, ht]

/-- Witness of C12: `<!-- a -->`. -/
theorem terminated_comment_witness :
    bytes "<!-- a -->" = bytes "<!--" ++ (bytes " a " ++ bytes "-->") ∧
    (tokenizer_tokenize_method fresh (bytes "<!--" ++ (bytes " a " ++ bytes "-->"))).tokens =
      some [tok symbol.comment_start 0 4, tok symbol.text 4 (4 + (bytes " a ").length),
        tok symbol.comment_end (4 + (bytes " a ").length) (7 + (bytes " a ").length)] :=
  ⟨by decide, terminated_comment (bytes " a ") (by decide) (by decide) (by decide)⟩

theorem cdata_run (S B : List Nat)
    (hS : S.map tolower = [60, 33, 91, 67, 68, 65, 84, 65, 91].map tolower) (hB : B ≠ [])
    (hfirst : ∀ k < B.length, ¬ [93, 93, 62] <+: (B ++ [93, 93, 62]).drop k) :
    ∃ c, view_all 3 (cfg.start fresh (S ++ (B ++ [93, 93, 62]))) = some (some c) ∧
      c.toks = [tok symbol.cdata_start 0 9, tok symbol.text 9 (9 + B.length),
        tok symbol.cdata_end (9 + B.length) (12 + B.length)] := by
  rw [start_fresh]
  apply Exists.intro
  refine And.intro ?_ ?_
  · refine (step_html_cdata _ S (B ++ [93, 93, 62]) (by rfl) (by rfl) hS).trans ?_
    refine (step_cdata_found _ B [] (by rfl) (by rfl) hB hfirst).trans ?_
    exact view_all_done (by rfl)
  · simp [tok]
    omega

/-- C13. A CDATA section: for every `S` equal to `<![CDATA[` ignoring ASCII
case and every non-empty `B` of length `n` such that `]]>` does not occur in
`B ++ "]]>"` before offset `n`, a fresh tokenizer on S B `]]>` (shorter than
2 GiB) yields exactly cdata_start[0,9), text[9,9+n) and cdata_end[9+n,12+n). -/
theorem cdata_section (S B : List Nat)
    (hS : eq_ignoring_case S (bytes "<![CDATA[") = true) (hB : B ≠ [])
    (hfirst : ∀ k < B.length, ¬ bytes "]]>" <+: (B ++ bytes "]]>").drop k)
    (hlen : B.length + 12 < 2 ^ 31) :
    (tokenizer_tokenize_method fresh (S ++ (B ++ bytes "]]>"))).tokens =
      some [tok symbol.cdata_start 0 9, tok symbol.text 9 (9 + B.length),
        tok symbol.cdata_end (9 + B.length) (12 + B.length)] := by
  have e1 : bytes "<![CDATA[" = [60, 33, 91, 67, 68, 65, 84, 65, 91] := by decide
  have e2 : bytes "]]>" = [93, 93, 62] := by decide
  rw [e2] at hfirst ⊢
  have hS1 : S.map tolower = [60, 33, 91, 67, 68, 65, 84, 65, 91].map tolower := by
    rw [← e1]
    simpa [eq_ignoring_case] using hS
  have hl : S.length = 9 := by simpa using congrArg List.length hS1
  obtain ⟨c, hv, ht⟩ := cdata_run S B hS1 hB hfirst
  have := (tokenize_tokens fresh _ rfl
    (by simp only [List.length_cons, List.length_append, List.length_nil]; omega) 3 c
    (by simp only [List.length_cons, List.length_append]; omega) hv).1
  rw [this, ht]

/-- Witness of C13: `<![cdata[x]]>`. -/
theorem cdata_section_witness :
    bytes "<![cdata[x]]>" = bytes "<![cdata[" ++ (bytes "x" ++ bytes "]]>") ∧
    (tokenizer_tokenize_method fresh (bytes "<![cdata[" ++ (bytes "x" ++ bytes "]]>"))).tokens =
      some [tok symbol.cdata_start 0 9, tok symbol.text 9 (9 + (bytes "x").length),
        tok symbol.cdata_end (9 + (bytes "x").length) (12 + (bytes "x").length)] :=
  ⟨by decide, cdata_section (bytes "<![cdata[") (bytes "x") (by decide) (by decide) (by decide)
    (by decide)⟩

theorem doctype_run (D : List Nat)
    (hD : D.map tolower = [60, 33, 68, 79, 67, 84, 89, 80, 69].map tolower) :
    (∃ c, view_all 7 (cfg.start fresh (D ++ [32, 104, 116, 109, 108, 62])) = some (some c) ∧
      c.toks = [tok symbol.tag_start 0 9, tok symbol.whitespace 9 10,
        tok symbol.attribute_name 10 14, tok symbol.tag_end 14 15] ∧
      c.stk = [TOKENIZER_HTML]) ∧
    ∃ c, view_all 2 (cfg.start fresh (D ++ [])) = some (some c) ∧
      c.toks = [tok symbol.tag_start 0 9] ∧
      c.stk = [TOKENIZER_HTML, TOKENIZER_ATTRIBUTES] := by
  rw [start_fresh, start_fresh]
  constructor
  · apply Exists.intro
    refine And.intro ?_ ?_
    · refine (step_html_doctype _ D [32, 104, 116, 109, 108, 62] (by rfl) (by rfl) hD).trans ?_
      refine (step_attributes_space _ 104 _ (by rfl) (by rfl) (by decide)).trans ?_
      refine (step_attributes_name _ [104, 116, 109, 108] 62 [] (by rfl) (by rfl) (by decide)
        (by decide) (by decide)).trans ?_
      refine (step_attribute_name_pop _ 62 [] (by rfl) (by rfl) (by decide)
        (Or.inr (Or.inl rfl)) (by simp)).trans ?_
      refine (step_attributes_gt _ [] (by rfl) (by rfl) (by simp)).trans ?_
      refine (step_html_gt _ [] (by rfl) (by rfl)).trans ?_
      exact view_all_done (by rfl)
    · refine ⟨?_, ?_⟩
      · simp [tok]
      · simp [tag_mode]
  · apply Exists.intro
    refine And.intro ?_ ?_
    · refine (step_html_doctype _ D [] (by rfl) (by rfl) hD).trans ?_
      exact view_all_done (by rfl)
    · refine ⟨?_, ?_⟩
      · simp [tok]
      · simp

/-- C14. DOCTYPE: for every `D` equal to `<!DOCTYPE` ignoring ASCII case, a
fresh tokenizer on D ` html>` yields exactly tag_start[0,9), whitespace[9,10),
attribute_name[10,14) and tag_end[14,15) and ends with the stack [HTML]; on
`D` alone it yields tag_start[0,9) and ends with the stack [HTML, ATTRIBUTES]:
ATTRIBUTES is pushed on the root state, with no OPEN_TAG in between. -/
theorem doctype_tokens (D : List Nat) (hD : eq_ignoring_case D (bytes "<!DOCTYPE") = true) :
    ((tokenizer_tokenize_method fresh (D ++ bytes " html>")).tokens =
        some [tok symbol.tag_start 0 9, tok symbol.whitespace 9 10,
          tok symbol.attribute_name 10 14, tok symbol.tag_end 14 15] ∧
      (tokenizer_tokenize_method fresh (D ++ bytes " html>")).stack = some [TOKENIZER_HTML]) ∧
    (tokenizer_tokenize_method fresh D).tokens = some [tok symbol.tag_start 0 9] ∧
    (tokenizer_tokenize_method fresh D).stack =
      some [TOKENIZER_HTML, TOKENIZER_ATTRIBUTES] := by
  have e1 : bytes "<!DOCTYPE" = [60, 33, 68, 79, 67, 84, 89, 80, 69] := by decide
  have e2 : bytes " html>" = [32, 104, 116, 109, 108, 62] := by decide
  rw [e2]
  have hD1 : D.map tolower = [60, 33, 68, 79, 67, 84, 89, 80, 69].map tolower := by
    rw [← e1]
    simpa [eq_ignoring_case] using hD
  have hl : D.length = 9 := by simpa using congrArg List.length hD1
  obtain ⟨⟨c, hv, ht, hs⟩, c2, hv2, ht2, hs2⟩ := doctype_run D hD1
  rw [List.append_nil] at hv2
  have h1 := tokenize_tokens fresh _ rfl
    (by simp only [List.length_cons, List.length_append, List.length_nil]; omega) 7 c
    (by simp only [List.length_cons, List.length_append]; omega) hv
  have h2 := tokenize_tokens fresh _ rfl (by omega) 2 c2 (by omega) hv2
  rw [h1.1, h1.2, h2.1, h2.2, ht, hs, ht2, hs2]
  exact ⟨⟨rfl, rfl⟩, rfl, rfl⟩

/-- Witness of C14: `<!doctype html>`. -/
theorem doctype_tokens_witness :
    bytes "<!doctype html>" = bytes "<!doctype" ++ bytes " html>" ∧
    (((tokenizer_tokenize_method fresh (bytes "<!doctype" ++ bytes " html>")).tokens =
        some [tok symbol.tag_start 0 9, tok symbol.whitespace 9 10,
          tok symbol.attribute_name 10 14, tok symbol.tag_end 14 15] ∧
      (tokenizer_tokenize_method fresh (bytes "<!doctype" ++ bytes " html>")).stack =
        some [TOKENIZER_HTML]) ∧
    (tokenizer_tokenize_method fresh (bytes "<!doctype")).tokens =
      some [tok symbol.tag_start 0 9] ∧
    (tokenizer_tokenize_method fresh (bytes "<!doctype")).stack =
      some [TOKENIZER_HTML, TOKENIZER_ATTRIBUTES]) :=
  ⟨by decide, doctype_tokens (bytes "<!doctype") (by decide)⟩

/-- C17 fails on the code: with a one-byte buffer the bound `length - 2` wraps
to 4294967295 and the terminator classifiers read past the buffer and its
terminating NUL; with an empty buffer the bound wraps too. A call on the
one-byte buffer `a` by an instance left inside a comment does so. With two
bytes the bound is 0 and the classifiers report no match. -/
theorem short_buffer_bound_wraps :
    u32sub 1 2 = 4294967295 ∧ u32sub 0 2 = 4294967294 ∧
    is_comment_end ⟨bytes "a", 0, 1⟩ = none ∧ is_cdata_end ⟨bytes "a", 0, 1⟩ = none ∧
    is_comment_end ⟨[], 0, 0⟩ = none ∧ is_cdata_end ⟨[], 0, 0⟩ = none ∧
    is_comment_end ⟨bytes "ab", 0, 2⟩ = some (false, 0, false) ∧
    (tokenizer_tokenize_method fresh (bytes "<!--")).stack =
      some [TOKENIZER_HTML, TOKENIZER_COMMENT] ∧
    ((tokenizer_tokenize_method fresh (bytes "<!--")).tokenize (bytes "a")).faulted = true :=
  ⟨by decide, by decide, by decide, by decide, by decide, by decide, by decide, by decide,
    by decide⟩

/-- C10. Cross-call persistence: a `tokenize` call runs `scan_all` on the
instance with only the buffer, its length and the cursor (0) rebound; the
context stack, the tracked tag name, the quote character, the found-attribute
flag, the closing-tag flag and the last token kind are those the previous call
left. After a fresh instance tokenizes `<div class="a`, which ends inside
ATTRIBUTE_STRING, a second call on `b">` yields text[0,1),
attribute_value_end[1,2), tag_end[2,3) and leaves the stack [HTML]. -/
theorem cross_call_persistence :
    (∀ (tk : tokenizer_t) (source : List Nat),
      tokenizer_tokenize_method tk source =
        scan_all (fuel_of (bind_source tk source)) (bind_source tk source) ∧
      (bind_source tk source).scan = ⟨source, 0, u32 source.length⟩ ∧
      (bind_source tk source).context = tk.context ∧
      (bind_source tk source).current_context = tk.current_context ∧
      (bind_source tk source).current_tag = tk.current_tag ∧
      (bind_source tk source).attribute_value_start = tk.attribute_value_start ∧
      (bind_source tk source).found_attribute = tk.found_attribute ∧
      (bind_source tk source).is_closing_tag = tk.is_closing_tag ∧
      (bind_source tk source).last_token = tk.last_token ∧
      (bind_source tk source).f_callback = tk.f_callback) ∧
    (tokenizer_tokenize_method fresh (bytes "<div class=\"a")).stack =
      some [TOKENIZER_HTML, TOKENIZER_OPEN_TAG, TOKENIZER_ATTRIBUTES, TOKENIZER_ATTRIBUTE_VALUE,
        TOKENIZER_ATTRIBUTE_STRING] ∧
    ((tokenizer_tokenize_method fresh (bytes "<div class=\"a")).tokenize (bytes "b\">")).tokens =
      some [tok symbol.text 0 1, tok symbol.attribute_value_end 1 2, tok symbol.tag_end 2 3] ∧
    ((tokenizer_tokenize_method fresh (bytes "<div class=\"a")).tokenize (bytes "b\">")).stack =
      some [TOKENIZER_HTML] ∧
    (tokenizer_tokenize_method fresh (bytes "b\">")).tokens = some [tok symbol.text 0 3] :=
  ⟨fun _ _ => ⟨rfl, rfl, rfl, rfl, rfl, rfl, rfl, rfl, rfl, rfl⟩, by decide, by decide,
    by decide, by decide⟩

/-- C5. Raw script content is not reparsed as markup: on
`<script>var x="<b>";</script>` a fresh tokenizer yields tag_start[0,1),
tag_name[1,7), tag_end[7,8), then text tokens only, contiguous over [8,20),
then tag_start[20,21), solidus[21,22), tag_name[22,28), tag_end[28,29); no
token is malformed and the stack ends as [HTML]. -/
theorem raw_script_content :
    (bytes "<script>var x=\"<b>\";</script>").length = 29 ∧
    ∃ mid : List token,
      (tokenizer_tokenize_method fresh (bytes "<script>var x=\"<b>\";</script>")).tokens =
        some ([tok symbol.tag_start 0 1, tok symbol.tag_name 1 7, tok symbol.tag_end 7 8] ++ mid ++
          [tok symbol.tag_start 20 21, tok symbol.solidus 21 22, tok symbol.tag_name 22 28,
            tok symbol.tag_end 28 29]) ∧
      mid ≠ [] ∧ (∀ t ∈ mid, t.kind = symbol.text) ∧ chained 8 mid 20 ∧
      (tokenizer_tokenize_method fresh (bytes "<script>var x=\"<b>\";</script>")).stack =
        some [TOKENIZER_HTML] :=
  ⟨by decide, [tok symbol.text 8 15, tok symbol.text 15 17, tok symbol.text 17 20],
    by decide, by decide, by decide, by decide, by decide⟩

/-- C9 fails on the code: inside `<script>` the closing tag `</s>`, whose name
is only a prefix of the tracked name, ends the raw content. On
`<script>a</s>b` the handler of SCRIPT_DATA pops at offset 9, so `</s>` is
tokenized as a closing tag by the root state and the stack ends as [HTML]. -/
theorem raw_exit_on_partial_name :
    (tokenizer_tokenize_method fresh (bytes "<script>a</s>b")).tokens =
      some [tok symbol.tag_start 0 1, tok symbol.tag_name 1 7, tok symbol.tag_end 7 8,
        tok symbol.text 8 9, tok symbol.tag_start 9 10, tok symbol.solidus 10 11,
        tok symbol.tag_name 11 12, tok symbol.tag_end 12 13, tok symbol.text 13 14] ∧
    (tokenizer_tokenize_method fresh (bytes "<script>a</s>b")).stack = some [TOKENIZER_HTML] ∧
    (tokenizer_tokenize_method fresh (bytes "<script>a")).stack =
      some [TOKENIZER_HTML, TOKENIZER_SCRIPT_DATA] ∧
    (tokenizer_tokenize_method fresh (bytes "<script>a</s>")).stack = some [TOKENIZER_HTML] :=
  ⟨by decide, by decide, by decide, by decide⟩

/-- C15 fails on the code: on `<!---->` the terminator at the cursor is not
recognised; the classifier reports no match because the matched length is 0,
and the three bytes are yielded as text. -/
theorem empty_comment_swallowed :
    is_comment_end ⟨bytes "<!---->", 4, 7⟩ = some (false, 0, true) ∧
    (tokenizer_tokenize_method fresh (bytes "<!---->")).tokens =
      some [tok symbol.comment_start 0 4, tok symbol.text 4 7] :=
  ⟨by decide, by decide⟩

/-- C6 fails as stated: on `<!-- abc` the rest of the buffer is yielded as two
text tokens, not one. -/
theorem unterminated_comment_two_texts :
    (tokenizer_tokenize_method fresh (bytes "<!-- abc")).tokens =
      some [tok symbol.comment_start 0 4, tok symbol.text 4 6, tok symbol.text 6 8] ∧
    (tokenizer_tokenize_method fresh (bytes "<!-- abc")).tokens ≠
      some [tok symbol.comment_start 0 4, tok symbol.text 4 8] :=
  ⟨by decide, by decide⟩

theorem scan3_true_occurs (a b c : Nat) : ∀ l : List Nat,
    (scan3 a b c l).2 = true → [a, b, c] <:+: l := by
  intro l
  induction l with
  | nil => simp [scan3]
  | cons x t ih =>
    match t, ih with
    | [], _ => simp [scan3]
    | [y], _ => simp [scan3]
    | y :: z :: u, ih =>
      rw [scan3]
      by_cases hm : x = a ∧ y = b ∧ z = c
      · obtain ⟨rfl, rfl, rfl⟩ := hm
        intro _
        exact ⟨[], u, rfl⟩
      · rw [if_neg hm]
        intro h
        obtain ⟨p, s, hps⟩ := ih h
        exact ⟨x :: p, s, by rw [← hps]; rfl⟩

/-- One call of a terminator handler when no terminator lies ahead: one text
token, up to the end of the buffer when at most two bytes remain and up to two
bytes before it otherwise; the stack is unchanged. -/
theorem until_end_absent (tk : tokenizer_t) (hb : base tk)
    (hlt : tk.scan.cursor < tk.scan.length) (h2 : 2 ≤ tk.scan.length) (a b c : Nat) (sym : symbol)
    (hno : ¬ [a, b, c] <:+: rest tk.scan) :
    ∃ tk1, scan_until_end tk (find_end tk.scan a b c) sym = some (true, tk1) ∧
      base tk1 ∧ stack tk1 = stack tk ∧ tk1.scan.string = tk.scan.string ∧
      tk1.scan.length = tk.scan.length ∧
      tk1.scan.cursor =
        (if tk.scan.length - tk.scan.cursor ≤ 2 then tk.scan.length else tk.scan.length - 2) ∧
      tk1.yielded = tk.yielded ++ [tok symbol.text tk.scan.cursor tk1.scan.cursor] := by
  obtain ⟨hok, hcb⟩ := hb
  have hrl := rest_length hok
  have hfalse : (scan3 a b c (rest tk.scan)).2 = false := by
    cases h : (scan3 a b c (rest tk.scan)).2 with
    | false => rfl
    | true => exact absurd (scan3_true_occurs a b c _ h) hno
  have hn := (scan3_bound a b c (rest tk.scan)).2 hfalse
  rw [hrl] at hn
  obtain ⟨h1, hb2, h3⟩ := hok
  rw [find_end_eq ⟨h1, hb2, h3⟩ h2, hfalse, hn]
  simp only [scan_until_end, Option.some_bind, Bool.false_eq_true, if_false]
  by_cases hr : tk.scan.length - tk.scan.cursor ≤ 2
  · have e0 : tk.scan.length - tk.scan.cursor - 2 = 0 := by omega
    have e : u32 (tk.scan.cursor + (tk.scan.length - tk.scan.cursor)) = tk.scan.length := by
      unfold u32; omega
    rw [e0, if_neg (by simp), u32_of_int_remaining ⟨h1, hb2, h3⟩, tokenizer_callback_eq hcb, e,
      if_pos hr]
    exact ⟨_, rfl, ⟨⟨h1, hb2, Nat.le_refl _⟩, hcb⟩, rfl, rfl, rfl, rfl, rfl⟩
  · have e : u32 (tk.scan.cursor + (tk.scan.length - tk.scan.cursor - 2)) =
        tk.scan.length - 2 := by
      unfold u32; omega
    rw [if_pos (by simp; omega), tokenizer_callback_eq hcb, e, if_neg hr]
    exact ⟨_, rfl, ⟨⟨h1, hb2, Nat.sub_le _ _⟩, hcb⟩, rfl, rfl, rfl, rfl, rfl⟩

theorem rest_drop_absent {s s1 : scan_t} {l : List Nat} (hs : s1.string = s.string)
    (hc : s.cursor ≤ s1.cursor) (hno : ¬ l <:+: rest s) : ¬ l <:+: rest s1 := by
  intro h
  apply hno
  have : rest s1 = (rest s).drop (s1.cursor - s.cursor) := by
    unfold rest
    rw [hs, List.drop_drop]
    congr 1
    omega
  rw [this] at h
  exact h.trans (List.drop_suffix _ _).isInfix

/-- C6 as amended. An unterminated comment: when `scan_comment` runs on a
buffer of at least two bytes at a cursor from which no `-->` follows, the rest
of the buffer is yielded as text only, with the stack unchanged and neither
comment_end nor malformed: as one text token up to the end of the buffer when
at most two bytes remain; otherwise as one text token that stops two bytes
before the end, and the next call of `scan_comment` yields those two bytes as
a second text token. -/
theorem unterminated_comment (tk : tokenizer_t) (hb : base tk)
    (hlt : tk.scan.cursor < tk.scan.length) (h2 : 2 ≤ tk.scan.length)
    (hno : ¬ [45, 45, 62] <:+: rest tk.scan) :
    ∃ tk1, scan_comment tk = some (true, tk1) ∧ stack tk1 = stack tk ∧
      ((tk.scan.length - tk.scan.cursor ≤ 2 ∧ tk1.scan.cursor = tk.scan.length ∧
          tk1.yielded = tk.yielded ++ [tok symbol.text tk.scan.cursor tk.scan.length]) ∨
        (2 < tk.scan.length - tk.scan.cursor ∧ tk1.scan.cursor = tk.scan.length - 2 ∧
          tk1.yielded = tk.yielded ++ [tok symbol.text tk.scan.cursor (tk.scan.length - 2)] ∧
          ∃ tk2, scan_comment tk1 = some (true, tk2) ∧ stack tk2 = stack tk ∧
            tk2.scan.cursor = tk.scan.length ∧
            tk2.yielded = tk.yielded ++ [tok symbol.text tk.scan.cursor (tk.scan.length - 2),
              tok symbol.text (tk.scan.length - 2) tk.scan.length])) := by
  obtain ⟨tk1, hr, hb1, hs1, hstr1, hl1, hc1, hy1⟩ :=
    until_end_absent tk hb hlt h2 45 45 62 symbol.comment_end hno
  refine ⟨tk1, hr, hs1, ?_⟩
  by_cases hrem : tk.scan.length - tk.scan.cursor ≤ 2
  · rw [if_pos hrem] at hc1
    rw [hc1] at hy1
    exact Or.inl ⟨hrem, hc1, hy1⟩
  · rw [if_neg hrem] at hc1
    rw [hc1] at hy1
    have hno1 : ¬ [45, 45, 62] <:+: rest tk1.scan :=
      rest_drop_absent hstr1 (by omega) hno
    obtain ⟨tk2, hr2, _, hs2, _, _, hc2, hy2⟩ :=
      until_end_absent tk1 hb1 (by omega) (by omega) 45 45 62 symbol.comment_end hno1
    rw [if_pos (by omega)] at hc2
    rw [hc2, hy1, hc1, hl1] at hy2
    refine Or.inr ⟨by omega, hc1, hy1, tk2, hr2, hs2.trans hs1, by rw [hc2, hl1], ?_⟩
    rw [hy2, List.append_assoc]
    rfl

/-- Witness of C6 as amended: the state after `<!--` in `<!-- abc`. -/
theorem unterminated_comment_witness :
    ∃ tk1, scan_comment (push_context (tokenizer_callback
        (bind_source fresh (bytes "<!-- abc")) symbol.comment_start 4) TOKENIZER_COMMENT) =
          some (true, tk1) ∧
      tk1.scan.cursor = 6 ∧ tk1.yielded = [tok symbol.comment_start 0 4, tok symbol.text 4 6] ∧
      ∃ tk2, scan_comment tk1 = some (true, tk2) ∧ tk2.scan.cursor = 8 ∧
        tk2.yielded = [tok symbol.comment_start 0 4, tok symbol.text 4 6, tok symbol.text 6 8] := by
  obtain ⟨tk1, h1, _, h | ⟨_, hc, hy, tk2, h2, _, hc2, hy2⟩⟩ :=
    unterminated_comment (push_context (tokenizer_callback
      (bind_source fresh (bytes "<!-- abc")) symbol.comment_start 4) TOKENIZER_COMMENT)
      ⟨⟨by decide, by decide, by decide⟩, rfl⟩ (by decide) (by decide) (by decide)
  · exact absurd h.1 (by decide)
  · exact ⟨tk1, h1, hc, hy, tk2, h2, hc2, hy2⟩

theorem base_fresh : base fresh := ⟨⟨rfl, by decide, by decide⟩, rfl⟩

theorem shape_init : shape fresh := shape_fresh []

theorem scan_tail_base {tk : tokenizer_t} (hb : base tk) : base (scan_tail tk) := by
  cases he : eos tk.scan with
  | true => rw [scan_tail_eos he]; exact hb
  | false =>
    obtain ⟨h1, _, h3, _⟩ := scan_tail_malformed hb he
    obtain ⟨⟨a, b, c⟩, hcb⟩ := hb
    rw [h1]
    refine ⟨?_, ?_⟩
    · rw [← h1]
      have e : (scan_tail tk).scan.string = tk.scan.string ∧
          (scan_tail tk).scan.length = tk.scan.length := by
        rw [h1, tokenizer_callback_eq hcb]
        exact ⟨rfl, rfl⟩
      exact ⟨by rw [e.1, e.2]; exact a, by rw [e.2]; exact b, by rw [h3, e.2]⟩
    · rw [callback_f_callback]; exact hcb

theorem scan_tail_shape {tk : tokenizer_t} (hb : base tk) (hs : shape tk) :
    shape (scan_tail tk) := by
  cases he : eos tk.scan with
  | true => rw [scan_tail_eos he]; exact hs
  | false =>
    obtain ⟨h1, _, _, h4⟩ := scan_tail_malformed hb he
    refine ⟨by rw [h4]; exact hs.1, ?_⟩
    rw [h4, h1, callback_current_tag]
    exact hs.2

theorem reachable_inv {tk : tokenizer_t} (h : reachable tk) : base tk ∧ shape tk := by
  induction h with
  | init => exact ⟨base_fresh, shape_init⟩
  | call tk source _ hlen ih =>
    exact ⟨bind_source_base tk source ih.1.2 hlen, ih.2⟩
  | step tk tk1 b _ he hr ih =>
    cases b with
    | true =>
      have hp := scan_once_true ih.1 he hr
      exact ⟨step_post_base hp ih.1, step_post_shape hp ih.2⟩
    | false =>
      have := scan_once_spec tk ih.1.1 ((eos_false_iff _).mp he) ih.1.2
      rw [hr] at this
      rw [this.1]
      exact ih
  | tail tk _ ih => exact ⟨scan_tail_base ih.1, scan_tail_shape ih.1 ih.2⟩

theorem valid_facts : ∀ s ∈ valid_stacks,
    s.head? = some TOKENIZER_HTML ∧ TOKENIZER_HTML ∉ s.tail ∧ TOKENIZER_NONE ∉ s ∧
      s.length ≤ 5 := by decide

theorem reachable_tokenize {tk tk2 : tokenizer_t} {source : List Nat} (h : reachable tk)
    (hlen : source.length < 2 ^ 31)
    (hr : tokenizer_tokenize_method tk source = outcome.done tk2) : reachable tk2 := by
  have hb := bind_source_base tk source (reachable_inv h).1.2 hlen
  obtain ⟨tk1, _, hre, _, hres⟩ :=
    scan_loop_spec reachable
      (fun a b _ ha he hs => reachable.step a b true ha he hs)
      (fuel_of (bind_source tk source)) (bind_source tk source) hb
      (reachable.call tk source h hlen) (potential_lt_fuel _)
  unfold tokenizer_tokenize_method scan_all at hr
  rcases hres with ⟨_, _, _, hf⟩ | ⟨_, hd⟩ | ⟨_, _, _, hd⟩
  · rw [hf] at hr; cases hr
  · rw [hd] at hr
    cases hr
    exact reachable.tail tk1 hre
  · rw [hd] at hr
    cases hr
    exact reachable.tail tk1 hre

theorem callback_frame {tk : tokenizer_t} (hcb : tk.f_callback = some callback_t.yield_tag)
    (sym : symbol) (n : Nat) :
    stack (tokenizer_callback tk sym n) = stack tk ∧
    (tokenizer_callback tk sym n).f_callback = some callback_t.yield_tag ∧
    ∃ t, t.kind = sym ∧ (tokenizer_callback tk sym n).yielded = tk.yielded ++ [t] := by
  rw [tokenizer_callback_eq hcb]
  exact ⟨rfl, hcb, _, rfl, rfl⟩

theorem until_end_frame {tk tk1 : tokenizer_t} {e : Option (Bool × Nat × Bool)} {sym : symbol}
    {b : Bool} (hcb : tk.f_callback = some callback_t.yield_tag)
    (h : scan_until_end tk e sym = some (b, tk1)) :
    b = true ∧ stack tk1 = stack tk ∧ tk1.f_callback = some callback_t.yield_tag ∧
      ∃ new, tk1.yielded = tk.yielded ++ new ∧
        ∀ t ∈ new, t.kind = symbol.text ∨ t.kind = sym := by
  cases e with
  | none => simp [scan_until_end] at h
  | some r =>
    obtain ⟨s1, f1, t1, hy1⟩ := callback_frame hcb symbol.text r.2.1
    obtain ⟨s2, f2, t2, hy2⟩ := callback_frame f1 sym 3
    obtain ⟨s3, f3, t3, hy3⟩ :=
      callback_frame hcb symbol.text (u32_of_int (length_remaining tk.scan))
    simp only [scan_until_end, Option.some_bind] at h
    by_cases h1 : r.1 = true
    · rw [if_pos h1] at h
      by_cases h2 : r.2.2 = true
      · simp only [h2, if_true, Option.some.injEq, Prod.mk.injEq] at h
        obtain ⟨rfl, rfl⟩ := h
        refine ⟨rfl, s2.trans s1, f2, [t1, t2], ?_, ?_⟩
        · rw [hy2.2, hy1.2, List.append_assoc]; rfl
        · intro t ht
          simp only [List.mem_cons, List.mem_singleton, List.not_mem_nil, or_false] at ht
          rcases ht with rfl | rfl
          · exact Or.inl hy1.1
          · exact Or.inr hy2.1
      · simp only [h2, Bool.false_eq_true, if_false, Option.some.injEq, Prod.mk.injEq] at h
        obtain ⟨rfl, rfl⟩ := h
        refine ⟨rfl, s1, f1, [t1], hy1.2, ?_⟩
        intro t ht
        rw [List.mem_singleton] at ht
        subst ht
        exact Or.inl hy1.1
    · rw [if_neg h1] at h
      simp only [Option.some.injEq, Prod.mk.injEq] at h
      obtain ⟨rfl, rfl⟩ := h
      refine ⟨rfl, s3, f3, [t3], hy3.2, ?_⟩
      intro t ht
      rw [List.mem_singleton] at ht
      subst ht
      exact Or.inl hy3.1

theorem once_frame {tk tk1 : tokenizer_t} {b : Bool}
    (hcb : tk.f_callback = some callback_t.yield_tag)
    (htop : top tk = TOKENIZER_COMMENT ∨ top tk = TOKENIZER_CDATA)
    (h : scan_once tk = some (b, tk1)) :
    b = true ∧ stack tk1 = stack tk ∧ tk1.f_callback = some callback_t.yield_tag ∧
      ∃ new, tk1.yielded = tk.yielded ++ new ∧
        ∀ t ∈ new, t.kind = symbol.text ∨ t.kind = end_symbol (top tk) := by
  unfold scan_once at h
  unfold top at htop
  rcases htop with ht | ht
  · rw [ht] at h
    have := until_end_frame hcb h
    unfold top
    rw [ht]
    exact this
  · rw [ht] at h
    have := until_end_frame hcb h
    unfold top
    rw [ht]
    exact this

theorem stack_eq_top {tk tk1 : tokenizer_t} (h : stack tk1 = stack tk) : top tk1 = top tk := by
  have h1 := stack_top tk1
  rw [h, stack_top] at h1
  exact (Option.some.inj h1).symm

theorem once_none_short {tk : tokenizer_t} (hb : base tk) (he : eos tk.scan = false)
    (htop : top tk = TOKENIZER_COMMENT ∨ top tk = TOKENIZER_CDATA)
    (h : scan_once tk = none) : tk.scan.length = 1 := by
  have hlt := (eos_false_iff _).mp he
  have h1 := scan_comment_spec tk hb.1 hlt hb.2
  have h2 := scan_cdata_spec tk hb.1 hlt hb.2
  unfold scan_once at h
  unfold top at htop
  rcases htop with ht | ht
  · rw [ht] at h
    simp only at h
    rw [h] at h1
    have : tk.scan.length < 2 := h1
    omega
  · rw [ht] at h
    simp only at h
    rw [h] at h2
    have : tk.scan.length < 2 := h2
    omega

/-- The rest of a call from a state with a comment or CDATA context on top:
the stack stays as it is and only text and terminator tokens are yielded. -/
theorem comment_call (tk : tokenizer_t) (hb : base tk)
    (htop : top tk = TOKENIZER_COMMENT ∨ top tk = TOKENIZER_CDATA) (fuel : Nat)
    (hf : potential tk < fuel) :
    (tk.scan.length ≠ 1 → ∃ tk2, scan_all fuel tk = outcome.done tk2) ∧
    ∀ tk2, scan_all fuel tk = outcome.done tk2 →
      stack tk2 = stack tk ∧ tk2.f_callback = some callback_t.yield_tag ∧
      ∃ new, tk2.yielded = tk.yielded ++ new ∧
        ∀ t ∈ new, t.kind = symbol.text ∨ t.kind = end_symbol (top tk) := by
  obtain ⟨tk1, hb1, ⟨hs1, hl1, new, hy1, hk1⟩, _, hres⟩ :=
    scan_loop_spec (fun t => stack t = stack tk ∧ t.scan.length = tk.scan.length ∧
        ∃ new, t.yielded = tk.yielded ++ new ∧
          ∀ x ∈ new, x.kind = symbol.text ∨ x.kind = end_symbol (top tk))
      (by
        intro t t2 hbt ⟨h1, h2, new, h3, h4⟩ he hr
        have ht : top t = top tk := stack_eq_top h1
        obtain ⟨_, a1, _, new2, a3, a4⟩ := once_frame hbt.2 (by rw [ht]; exact htop) hr
        have hp := scan_once_true hbt he hr
        refine ⟨a1.trans h1, by rw [hp.length_eq]; exact h2, new ++ new2, ?_, ?_⟩
        · rw [a3, h3, List.append_assoc]
        · intro x hx
          rw [List.mem_append] at hx
          rcases hx with hx | hx
          · exact h4 x hx
          · rw [← ht]; exact a4 x hx)
      fuel tk hb ⟨rfl, rfl, [], by simp, by simp⟩ hf
  have ht1 : top tk1 = TOKENIZER_COMMENT ∨ top tk1 = TOKENIZER_CDATA := by
    rw [stack_eq_top hs1]; exact htop
  unfold scan_all
  rcases hres with ⟨he, hn, _, hr⟩ | ⟨he, hr⟩ | ⟨_, hst, _, _⟩
  · rw [hr]
    refine ⟨fun h => ?_, fun tk2 h => by cases h⟩
    have := once_none_short hb1 he ht1 hn
    omega
  · rw [hr]
    refine ⟨fun _ => ⟨_, rfl⟩, ?_⟩
    intro tk2 h
    cases h
    rw [scan_tail_eos he]
    exact ⟨hs1, hb1.2, new, hy1, hk1⟩
  · have := (once_frame hb1.2 ht1 hst).1
    cases this

theorem later_call_frame {tk tk2 : tokenizer_t}
    (hcb : tk.f_callback = some callback_t.yield_tag)
    (htop : top tk = TOKENIZER_COMMENT ∨ top tk = TOKENIZER_CDATA) (h : later_call tk tk2) :
    stack tk2 = stack tk ∧ tk2.f_callback = some callback_t.yield_tag ∧
      ∀ t ∈ tk2.yielded, t.kind = symbol.text ∨ t.kind = end_symbol (top tk) := by
  induction h with
  | first tk2 source hlen hr =>
    have hb := bind_source_base tk source hcb hlen
    obtain ⟨h1, h2, new, h3, h4⟩ :=
      (comment_call (bind_source tk source) hb htop _ (potential_lt_fuel _)).2 tk2 hr
    refine ⟨h1, h2, ?_⟩
    intro t ht
    rw [h3] at ht
    exact h4 t (by simpa [bind_source] using ht)
  | next tk1 tk2 source _ hlen hr ih =>
    obtain ⟨i1, i2, _⟩ := ih
    have ht1 : top tk1 = top tk := stack_eq_top i1
    have hb := bind_source_base tk1 source i2 hlen
    obtain ⟨h1, h2, new, h3, h4⟩ :=
      (comment_call (bind_source tk1 source) hb (by
        show top tk1 = _ ∨ top tk1 = _
        rw [ht1]; exact htop) _ (potential_lt_fuel _)).2 tk2 hr
    refine ⟨h1.trans i1, h2, ?_⟩
    intro t ht
    rw [h3] at ht
    have := h4 t (by simpa [bind_source] using ht)
    rw [← ht1]
    exact this

/-- C16. COMMENT and CDATA are never popped. For an instance with the callback
installed and COMMENT (or CDATA) on top of the stack: a handler call never
reports no match, leaves the stack as it is and yields only text and
comment_end (cdata_end) tokens; so do the rest of the call in progress and
every later call that returns, whatever the buffers; a later call returns
unless its buffer has exactly one byte. -/
theorem comment_never_popped (tk : tokenizer_t)
    (hcb : tk.f_callback = some callback_t.yield_tag)
    (htop : top tk = TOKENIZER_COMMENT ∨ top tk = TOKENIZER_CDATA) :
    (∀ b tk1, scan_once tk = some (b, tk1) →
      b = true ∧ stack tk1 = stack tk ∧
        ∃ new, tk1.yielded = tk.yielded ++ new ∧
          ∀ t ∈ new, t.kind = symbol.text ∨ t.kind = end_symbol (top tk)) ∧
    (scan_ok tk.scan → ∀ tk2, scan_all (fuel_of tk) tk = outcome.done tk2 →
      stack tk2 = stack tk ∧
        ∃ new, tk2.yielded = tk.yielded ++ new ∧
          ∀ t ∈ new, t.kind = symbol.text ∨ t.kind = end_symbol (top tk)) ∧
    (∀ tk2, later_call tk tk2 →
      stack tk2 = stack tk ∧
        ∀ t ∈ tk2.yielded, t.kind = symbol.text ∨ t.kind = end_symbol (top tk)) ∧
    (∀ source : List Nat, source.length < 2 ^ 31 → source.length ≠ 1 →
      ∃ tk2, tokenizer_tokenize_method tk source = outcome.done tk2) := by
  refine ⟨?_, ?_, ?_, ?_⟩
  · intro b tk1 h
    obtain ⟨h1, h2, _, h3⟩ := once_frame hcb htop h
    exact ⟨h1, h2, h3⟩
  · intro hok tk2 h
    obtain ⟨h1, _, h3⟩ := (comment_call tk ⟨hok, hcb⟩ htop _ (potential_lt_fuel _)).2 tk2 h
    exact ⟨h1, h3⟩
  · intro tk2 h
    obtain ⟨h1, _, h3⟩ := later_call_frame hcb htop h
    exact ⟨h1, h3⟩
  · intro source hlen h1
    have hb := bind_source_base tk source hcb hlen
    exact (comment_call (bind_source tk source) hb htop _ (potential_lt_fuel _)).1
      (by rw [bind_source_length tk source hlen]; exact h1)

/-- Witness of C16: `<!--a--><b>`; the markup after the terminator is text. -/
theorem comment_never_popped_witness :
    (tokenizer_tokenize_method fresh (bytes "<!--a--><b>")).tokens =
      some [tok symbol.comment_start 0 4, tok symbol.text 4 5, tok symbol.comment_end 5 8,
        tok symbol.text 8 9, tok symbol.text 9 11] ∧
    scan_once (bind_source fresh (bytes "<!--a--><b>")) =
      some (true, push_context (tokenizer_callback (bind_source fresh (bytes "<!--a--><b>"))
        symbol.comment_start 4) TOKENIZER_COMMENT) ∧
    ∀ tk2, later_call (push_context (tokenizer_callback
        (bind_source fresh (bytes "<!--a--><b>")) symbol.comment_start 4) TOKENIZER_COMMENT) tk2 →
      stack tk2 = [TOKENIZER_HTML, TOKENIZER_COMMENT] ∧
        ∀ t ∈ tk2.yielded, t.kind = symbol.text ∨ t.kind = symbol.comment_end :=
  ⟨by decide, rfl,
    (comment_never_popped (push_context (tokenizer_callback
      (bind_source fresh (bytes "<!--a--><b>")) symbol.comment_start 4) TOKENIZER_COMMENT)
      rfl (Or.inl rfl)).2.2.1⟩

theorem sees_view_of {tk : tokenizer_t} (hb : base tk) : sees tk (view_of tk) :=
  ⟨hb.1, rfl, rfl, hb.2, rfl, rfl, rfl, rfl, rfl, rfl, rfl⟩

theorem rel_some {r : Option (Bool × tokenizer_t)} {b : Bool} {c : cfg}
    (h : rel r (some (b, c))) : ∃ tk1, r = some (b, tk1) ∧ sees tk1 c := by
  match r, h with
  | some (b1, tk1), h => exact ⟨tk1, by rw [h.1], h.2⟩

theorem view_attributes_stuck (c : cfg) (x : Nat) (r : List Nat) (hr : c.rest = x :: r)
    (hx : attributes_stuck x = true) : view_attributes c = some (false, c) := by
  unfold attributes_stuck at hx
  simp only [Bool.and_eq_true, bne_iff_ne, ne_eq, Bool.not_eq_true'] at hx
  obtain ⟨⟨⟨⟨⟨⟨h1, h61⟩, h47⟩, h62⟩, h39⟩, h34⟩, h7⟩ := hx
  have r1 : run_length (fun x => x != 32 && x != 9 && x != 13 && x != 10) (x :: r) = 0 :=
    run_length_zero (by simp [h1])
  have r2 : run_length (fun x => !is_alnum x && x != 58 && x != 45 && x != 95 && x != 46)
      (x :: r) = 0 := run_length_zero (by simp [h7])
  simp only [view_attributes, cfg.run, cfg.is_char, hr, r1, r2]
  simp [h61, h47, h62, h39, h34]

theorem view_attribute_name_stuck (c : cfg) (x : Nat) (r : List Nat) (hr : c.rest = x :: r)
    (hx : attribute_name_stuck x = true) : view_attribute_name c = some (false, c) := by
  unfold attribute_name_stuck at hx
  simp only [Bool.and_eq_true, bne_iff_ne, ne_eq, Bool.not_eq_true'] at hx
  obtain ⟨⟨⟨⟨h7, h1⟩, h47⟩, h62⟩, h61⟩ := hx
  have r1 : run_length (fun x => x != 32 && x != 9 && x != 13 && x != 10) (x :: r) = 0 :=
    run_length_zero (by simp [h1])
  have r2 : run_length (fun x => !is_alnum x && x != 58 && x != 45 && x != 95 && x != 46)
      (x :: r) = 0 := run_length_zero (by simp [h7])
  simp only [view_attribute_name, cfg.run, cfg.is_char, hr, r1, r2]
  simp [h61, h47, h62]

theorem once_stuck {tk : tokenizer_t} (hb : base tk) (x : Nat) (r : List Nat)
    (hr : rest tk.scan = x :: r)
    (h : (top tk = TOKENIZER_ATTRIBUTES ∧ attributes_stuck x = true) ∨
      (top tk = TOKENIZER_ATTRIBUTE_NAME ∧ attribute_name_stuck x = true)) :
    scan_once tk = some (false, tk) := by
  have hs := sees_view_of hb
  have hne : (view_of tk).rest ≠ [] := by
    show rest tk.scan ≠ []
    rw [hr]
    exact List.cons_ne_nil _ _
  have hlt := (sees_cons hs hne).1
  have hrel := refine_once hs hne
  have hv : view_once (view_of tk) = some (false, view_of tk) := by
    unfold view_once
    have : (view_of tk).stk.getLast? = some (top tk) := stack_top tk
    rw [this]
    rcases h with ⟨h1, h2⟩ | ⟨h1, h2⟩
    · rw [h1]
      exact view_attributes_stuck _ x r hr h2
    · rw [h1]
      exact view_attribute_name_stuck _ x r hr h2
  rw [hv] at hrel
  obtain ⟨tk1, h1, _⟩ := rel_some hrel
  have hspec := scan_once_spec tk hb.1 hlt hb.2
  rw [h1] at hspec
  rw [h1, hspec.1]

theorem shape_top_ne_none {tk : tokenizer_t} (hs : shape tk) : top tk ≠ TOKENIZER_NONE := by
  intro he
  apply (valid_facts _ hs.1).2.2.1
  rw [← he]
  exact top_mem_stack tk

theorem outcome_tokens_some {o : outcome} {l : List token} (h : o.tokens = some l) :
    ∃ tk1, o = outcome.done tk1 ∧ tk1.yielded = l := by
  cases o with
  | done tk1 => exact ⟨tk1, rfl, by simpa [outcome.tokens] using h⟩
  | fault => simp [outcome.tokens] at h
  | timeout => simp [outcome.tokens] at h

theorem stuck_top {tk tk1 : tokenizer_t} (hb : base tk) (hs : shape tk)
    (he : eos tk.scan = false) (h : scan_once tk = some (false, tk1)) :
    tk1 = tk ∧ ∃ x r, rest tk.scan = x :: r ∧
      ((top tk = TOKENIZER_ATTRIBUTES ∧ attributes_stuck x = true) ∨
        (top tk = TOKENIZER_ATTRIBUTE_NAME ∧ attribute_name_stuck x = true)) := by
  have hspec := scan_once_spec tk hb.1 ((eos_false_iff _).mp he) hb.2
  rw [h] at hspec
  refine ⟨hspec.1, ?_⟩
  rcases hspec.2 with h1 | ⟨h1, x, r, h2, h3⟩ | ⟨h1, x, r, h2, h3⟩
  · exact absurd h1 (shape_top_ne_none hs)
  · exact ⟨x, r, h2, Or.inl ⟨h1, h3⟩⟩
  · exact ⟨x, r, h2, Or.inr ⟨h1, h3⟩⟩

theorem steps_reachable {tk tk1 : tokenizer_t} (h : steps tk tk1) (hr : reachable tk) :
    reachable tk1 := by
  induction h with
  | refl => exact hr
  | step a b _ he hs ih => exact reachable.step a b true ih he hs

/-- C20. Where malformed can arise. In every reachable state with input left:
when the top of the stack is neither ATTRIBUTES nor ATTRIBUTE_NAME the handler
never reports no match, and it reports a match unless it is the comment or
CDATA handler on a buffer shorter than two bytes; when the top is ATTRIBUTES
(ATTRIBUTE_NAME) the handler reports no match exactly when the byte at the
cursor is none of whitespace, `=`, `/`, `>`, a quote or an attribute-name
character (none of an attribute-name character, whitespace, `/`, `>` or `=`).
And when a call yields a malformed token, its loop stopped in such a state. -/
theorem malformed_origin (tk : tokenizer_t) (hr : reachable tk) :
    (eos tk.scan = false → top tk ≠ TOKENIZER_ATTRIBUTES →
      top tk ≠ TOKENIZER_ATTRIBUTE_NAME →
      (∀ tk1, scan_once tk ≠ some (false, tk1)) ∧
      (((top tk = TOKENIZER_COMMENT ∨ top tk = TOKENIZER_CDATA) → 2 ≤ tk.scan.length) →
        ∃ tk1, scan_once tk = some (true, tk1))) ∧
    (eos tk.scan = false → top tk = TOKENIZER_ATTRIBUTES →
      ((∃ tk1, scan_once tk = some (false, tk1)) ↔
        ∃ x r, rest tk.scan = x :: r ∧ attributes_stuck x = true)) ∧
    (eos tk.scan = false → top tk = TOKENIZER_ATTRIBUTE_NAME →
      ((∃ tk1, scan_once tk = some (false, tk1)) ↔
        ∃ x r, rest tk.scan = x :: r ∧ attribute_name_stuck x = true)) ∧
    (∀ (source : List Nat) (tk2 : tokenizer_t), source.length < 2 ^ 31 →
      tokenizer_tokenize_method tk source = outcome.done tk2 →
      (∃ t ∈ tk2.yielded, t.kind = symbol.malformed) →
      ∃ tk1 x r, steps (bind_source tk source) tk1 ∧ eos tk1.scan = false ∧
        scan_once tk1 = some (false, tk1) ∧ tk2 = scan_tail tk1 ∧ rest tk1.scan = x :: r ∧
        ((top tk1 = TOKENIZER_ATTRIBUTES ∧ attributes_stuck x = true) ∨
          (top tk1 = TOKENIZER_ATTRIBUTE_NAME ∧ attribute_name_stuck x = true))) := by
  obtain ⟨hb, hs⟩ := reachable_inv hr
  refine ⟨?_, ?_, ?_, ?_⟩
  · intro he h1 h2
    have hno : ∀ tk1, scan_once tk ≠ some (false, tk1) := by
      intro tk1 h
      obtain ⟨_, x, r, _, h3 | h3⟩ := stuck_top hb hs he h
      · exact h1 h3.1
      · exact h2 h3.1
    refine ⟨hno, fun hlong => ?_⟩
    have hspec := scan_once_spec tk hb.1 ((eos_false_iff _).mp he) hb.2
    match hres : scan_once tk with
    | none =>
      rw [hres] at hspec
      rcases hspec with ⟨h5, h6⟩ | ⟨h5, h6⟩ | ⟨h5, h6⟩
      · exact absurd (shape_root hs h6) h5
      · obtain ⟨h7, h8⟩ := shape_raw hs h5
        rcases h6 with h6 | h6
        · exact absurd h6 h7
        · exact absurd h6 h8
      · have := hlong h5
        omega
    | some (false, tk1) => exact absurd hres (hno tk1)
    | some (true, tk1) => exact ⟨tk1, rfl⟩
  · intro he h1
    constructor
    · rintro ⟨tk1, h⟩
      obtain ⟨_, x, r, h2, h3 | h3⟩ := stuck_top hb hs he h
      · exact ⟨x, r, h2, h3.2⟩
      · rw [h1] at h3
        exact absurd h3.1 (by decide)
    · rintro ⟨x, r, h2, h3⟩
      exact ⟨tk, once_stuck hb x r h2 (Or.inl ⟨h1, h3⟩)⟩
  · intro he h1
    constructor
    · rintro ⟨tk1, h⟩
      obtain ⟨_, x, r, h2, h3 | h3⟩ := stuck_top hb hs he h
      · rw [h1] at h3
        exact absurd h3.1 (by decide)
      · exact ⟨x, r, h2, h3.2⟩
    · rintro ⟨x, r, h2, h3⟩
      exact ⟨tk, once_stuck hb x r h2 (Or.inr ⟨h1, h3⟩)⟩
  · intro source tk2 hlen hdone ⟨t, ht, hk⟩
    have hbs := bind_source_base tk source hb.2 hlen
    obtain ⟨tk1, hb1, hm1, hst, hres⟩ :=
      scan_loop_spec (fun t => ∀ x ∈ t.yielded, x.kind ≠ symbol.malformed)
        (by
          intro a b hba h1 he hres
          have hp := scan_once_true hba he hres
          obtain ⟨new, hn1, _, hn3⟩ := hp.tokens
          intro x hx
          rw [hn1, List.mem_append] at hx
          rcases hx with hx | hx
          · exact h1 x hx
          · exact (hn3 x hx).2)
        (fuel_of (bind_source tk source)) (bind_source tk source) hbs
        (by intro x hx; cases hx) (potential_lt_fuel _)
    have hr1 : reachable tk1 := steps_reachable hst (reachable.call tk source hr hlen)
    unfold tokenizer_tokenize_method scan_all at hdone
    rcases hres with ⟨_, _, _, hf⟩ | ⟨he, hd⟩ | ⟨he, hstuck, _, hd⟩
    · rw [hf] at hdone; cases hdone
    · rw [hd] at hdone
      cases hdone
      rw [scan_tail_eos he] at ht
      exact absurd hk (hm1 t ht)
    · rw [hd] at hdone
      cases hdone
      obtain ⟨_, x, r, h2, h3⟩ := stuck_top hb1 (reachable_inv hr1).2 he hstuck
      exact ⟨tk1, x, r, hst, he, hstuck, rfl, h2, h3⟩

/-- Witness of C20: in `<a b"c">` the quote after the attribute name stops the
ATTRIBUTE_NAME handler and the rest is malformed[4,8). -/
theorem malformed_origin_witness :
    (tokenizer_tokenize_method fresh (bytes "<a b\"c\">")).tokens =
      some [tok symbol.tag_start 0 1, tok symbol.tag_name 1 2, tok symbol.whitespace 2 3,
        tok symbol.attribute_name 3 4, tok symbol.malformed 4 8] ∧
    attribute_name_stuck 34 = true ∧
    ∃ tk1 x r, steps (bind_source fresh (bytes "<a b\"c\">")) tk1 ∧ eos tk1.scan = false ∧
      scan_once tk1 = some (false, tk1) ∧ rest tk1.scan = x :: r ∧
      ((top tk1 = TOKENIZER_ATTRIBUTES ∧ attributes_stuck x = true) ∨
        (top tk1 = TOKENIZER_ATTRIBUTE_NAME ∧ attribute_name_stuck x = true)) := by
  have ht : (tokenizer_tokenize_method fresh (bytes "<a b\"c\">")).tokens =
      some [tok symbol.tag_start 0 1, tok symbol.tag_name 1 2, tok symbol.whitespace 2 3,
        tok symbol.attribute_name 3 4, tok symbol.malformed 4 8] := by decide
  obtain ⟨tk2, h1, h2⟩ := outcome_tokens_some ht
  obtain ⟨tk1, x, r, a1, a2, a3, _, a5, a6⟩ :=
    (malformed_origin fresh reachable.init).2.2.2 (bytes "<a b\"c\">") tk2 (by decide) h1
      ⟨tok symbol.malformed 4 8, by rw [h2]; simp, rfl⟩
  exact ⟨ht, by decide, tk1, x, r, a1, a2, a3, a5, a6⟩

theorem view_value_space (c : cfg) (x : Nat) (r : List Nat) (hr : c.rest = x :: r)
    (hl : c.last ≠ some symbol.attribute_value_end) (hx : space_stop x = false)
    (hd : 1 < c.stk.length) :
    view_attribute_value c = some (true,
      if c.found then { c.emit symbol.whitespace (run_length space_stop c.rest) with
        stk := c.stk.dropLast }
      else c.emit symbol.whitespace (run_length space_stop c.rest)) := by
  obtain ⟨p, rest, stk, toks, tag, cl, last, f, q⟩ := c
  simp only at hr hl hd
  subst hr
  have h47 : x ≠ 47 := by rintro rfl; revert hx; decide
  have h62 : x ≠ 62 := by rintro rfl; revert hx; decide
  have hrun : (run_length (fun x => x != 32 && x != 9 && x != 13 && x != 10) (x :: r) != 0) =
      true := (run_length_cons_ne _ x r).mpr hx
  have ers : (fun x => x != 32 && x != 9 && x != 13 && x != 10) = space_stop := rfl
  simp only [view_attribute_value, cfg.is_char, cfg.run]
  rw [if_neg hl, if_neg (by simp [h47, h62]), if_pos hrun]
  cases f with
  | true => simp [cfg.emit, cfg.pop, Nat.not_le.mpr hd, ers]
  | false => simp [cfg.emit, ers]

theorem view_value_unquoted (c : cfg) (x : Nat) (r : List Nat) (hr : c.rest = x :: r)
    (hl : c.last ≠ some symbol.attribute_value_end) (hx : space_stop x = true)
    (hp : x ≠ 47 ∧ x ≠ 62 ∧ x ≠ 39 ∧ x ≠ 34) :
    view_attribute_value c = some (true,
      { c.emit symbol.attribute_unquoted_value (run_length value_stop c.rest) with
        found := true }) ∧ 0 < run_length value_stop c.rest := by
  obtain ⟨p, rest, stk, toks, tag, cl, last, f, q⟩ := c
  simp only at hr hl
  subst hr
  obtain ⟨h47, h62, h39, h34⟩ := hp
  have hws : run_length (fun x => x != 32 && x != 9 && x != 13 && x != 10) (x :: r) = 0 :=
    run_length_zero hx
  have hv : value_stop x = false := by
    simp only [space_stop, Bool.and_eq_true, bne_iff_ne, ne_eq] at hx
    simp [value_stop, hx.1.1.1, hx.1.1.2, hx.1.2, hx.2, h62]
  have hrun : (run_length (fun x => x == 32 || x == 13 || x == 10 || x == 9 || x == 62)
      (x :: r) != 0) = true := (run_length_cons_ne _ x r).mpr hv
  have ers : (fun x => x == 32 || x == 13 || x == 10 || x == 9 || x == 62) = value_stop := rfl
  refine ⟨?_, run_length_pos hv⟩
  simp only [view_attribute_value, cfg.is_char, cfg.run, hws]
  rw [if_neg hl, if_neg (by simp [h47, h62]), if_neg (by simp), if_neg (by simp [h39, h34]),
    if_pos hrun]
  simp [cfg.emit, ers]

theorem outcome_value_state_some {o : outcome} {s : List tokenizer_context}
    {l : Option symbol} {f : Bool} (h : o.value_state = some (s, l, f)) :
    ∃ tk1, o = outcome.done tk1 ∧ stack tk1 = s ∧ tk1.last_token = l ∧
      tk1.found_attribute = f := by
  cases o with
  | done tk1 =>
    simp only [outcome.value_state, Option.some.injEq, Prod.mk.injEq] at h
    exact ⟨tk1, rfl, h.1, h.2.1, h.2.2⟩
  | fault => simp [outcome.value_state] at h
  | timeout => simp [outcome.value_state] at h

theorem value_once {tk : tokenizer_t} {c1 : cfg} (hb : base tk)
    (htop : top tk = TOKENIZER_ATTRIBUTE_VALUE) (hne : rest tk.scan ≠ [])
    (hv : view_attribute_value (view_of tk) = some (true, c1)) :
    ∃ tk1, scan_once tk = some (true, tk1) ∧ sees tk1 c1 := by
  have hs := sees_view_of hb
  have hrel := refine_once hs hne
  have hvo : view_once (view_of tk) = view_attribute_value (view_of tk) := by
    unfold view_once
    have : (view_of tk).stk.getLast? = some (top tk) := stack_top tk
    rw [this, htop]
    rfl
  rw [hvo, hv] at hrel
  exact rel_some hrel

/-- C18 as amended. The ATTRIBUTE_VALUE state, when the last token was not
attribute_value_end: in a reachable state with ATTRIBUTE_VALUE on top and the
byte `x` at the cursor, (1) if `x` is whitespace and the found-attribute flag
is clear, the whitespace run is yielded as one whitespace token and the stack
and the flag are kept; (2) if `x` is not whitespace, `/`, `>` or a quote, the
run of bytes up to the next space, tab, CR, LF or `>` is yielded as one
attribute_unquoted_value token, the flag is set and the stack is kept; (3) if
`x` is whitespace and the flag is set, the whitespace run is yielded and the
state is popped. -/
theorem unquoted_value (tk : tokenizer_t) (hr : reachable tk)
    (htop : top tk = TOKENIZER_ATTRIBUTE_VALUE)
    (hl : tk.last_token ≠ some symbol.attribute_value_end)
    (x : Nat) (r : List Nat) (hrest : rest tk.scan = x :: r) :
    (space_stop x = false → tk.found_attribute = false →
      ∃ tk1, scan_once tk = some (true, tk1) ∧
        tk1.yielded = tk.yielded ++ [tok symbol.whitespace tk.scan.cursor
          (tk.scan.cursor + run_length space_stop (x :: r))] ∧
        tk1.scan.cursor = tk.scan.cursor + run_length space_stop (x :: r) ∧
        stack tk1 = stack tk ∧ tk1.found_attribute = false) ∧
    (space_stop x = true → x ≠ 47 ∧ x ≠ 62 ∧ x ≠ 39 ∧ x ≠ 34 →
      ∃ tk1, scan_once tk = some (true, tk1) ∧
        tk1.yielded = tk.yielded ++ [tok symbol.attribute_unquoted_value tk.scan.cursor
          (tk.scan.cursor + run_length value_stop (x :: r))] ∧
        tk1.scan.cursor = tk.scan.cursor + run_length value_stop (x :: r) ∧
        0 < run_length value_stop (x :: r) ∧
        stack tk1 = stack tk ∧ tk1.found_attribute = true) ∧
    (space_stop x = false → tk.found_attribute = true →
      ∃ tk1, scan_once tk = some (true, tk1) ∧
        tk1.yielded = tk.yielded ++ [tok symbol.whitespace tk.scan.cursor
          (tk.scan.cursor + run_length space_stop (x :: r))] ∧
        tk1.scan.cursor = tk.scan.cursor + run_length space_stop (x :: r) ∧
        stack tk1 = (stack tk).dropLast) := by
  obtain ⟨hb, hs⟩ := reachable_inv hr
  have hne : rest tk.scan ≠ [] := by rw [hrest]; exact List.cons_ne_nil _ _
  have hd : 1 < (stack tk).length := by
    rw [stack_length]
    have : tk.current_context ≠ 0 := fun h0 => by
      have := shape_root hs h0
      rw [htop] at this
      cases this
    omega
  have hrv : (view_of tk).rest = x :: r := hrest
  refine ⟨?_, ?_, ?_⟩
  · intro hx hf
    have hv := view_value_space (view_of tk) x r hrv hl hx hd
    have hf2 : (view_of tk).found = false := hf
    rw [hf2, hrv] at hv
    obtain ⟨tk1, h1, _, hcur, _, _, hstk, hy, _, _, _, hfound, _⟩ := value_once hb htop hne hv
    exact ⟨tk1, h1, hy, hcur, hstk, hfound.trans hf⟩
  · intro hx hp
    obtain ⟨hv, hpos⟩ := view_value_unquoted (view_of tk) x r hrv hl hx hp
    rw [hrv] at hv hpos
    obtain ⟨tk1, h1, _, hcur, _, _, hstk, hy, _, _, _, hfound, _⟩ := value_once hb htop hne hv
    exact ⟨tk1, h1, hy, hcur, hpos, hstk, hfound⟩
  · intro hx hf
    have hv := view_value_space (view_of tk) x r hrv hl hx hd
    have hf2 : (view_of tk).found = true := hf
    rw [hf2, hrv] at hv
    obtain ⟨tk1, h1, _, hcur, _, _, hstk, hy, _, _, _, _, _⟩ := value_once hb htop hne hv
    exact ⟨tk1, h1, hy, hcur, hstk⟩

/-- Witness of C18 as amended: after `<a b=` the whitespace of ` c d>` is kept
in the ATTRIBUTE_VALUE state; and the tokens of `<a b= c d>`. -/
theorem unquoted_value_witness :
    (tokenizer_tokenize_method fresh (bytes "<a b= c d>")).tokens =
      some [tok symbol.tag_start 0 1, tok symbol.tag_name 1 2, tok symbol.whitespace 2 3,
        tok symbol.attribute_name 3 4, tok symbol.equal 4 5, tok symbol.whitespace 5 6,
        tok symbol.attribute_unquoted_value 6 7, tok symbol.whitespace 7 8,
        tok symbol.attribute_name 8 9, tok symbol.tag_end 9 10] ∧
    ∃ tk0, tokenizer_tokenize_method fresh (bytes "<a b=") = outcome.done tk0 ∧
      ∃ tk1, scan_once (bind_source tk0 (bytes " c d>")) = some (true, tk1) ∧
        tk1.yielded = [tok symbol.whitespace 0 1] ∧ stack tk1 = stack tk0 ∧
        tk1.found_attribute = false := by
  refine ⟨by decide, ?_⟩
  obtain ⟨tk0, h0, hs0, hl0, hf0⟩ := outcome_value_state_some
    (show (tokenizer_tokenize_method fresh (bytes "<a b=")).value_state =
      some ([TOKENIZER_HTML, TOKENIZER_OPEN_TAG, TOKENIZER_ATTRIBUTES,
        TOKENIZER_ATTRIBUTE_VALUE], some symbol.equal, false) by decide)
  have hr0 : reachable tk0 := reachable_tokenize reachable.init (by decide) h0
  have htop : top (bind_source tk0 (bytes " c d>")) = TOKENIZER_ATTRIBUTE_VALUE := by
    have h1 := stack_top (bind_source tk0 (bytes " c d>"))
    rw [stack_bind_source, hs0] at h1
    exact (Option.some.inj h1).symm
  obtain ⟨tk1, h1, h2, _, h4, h5⟩ :=
    (unquoted_value (bind_source tk0 (bytes " c d>"))
      (reachable.call tk0 _ hr0 (by decide)) htop
      (by show tk0.last_token ≠ _; rw [hl0]; decide) 32 (bytes "c d>") rfl).1
      (by decide) hf0
  exact ⟨tk0, h0, tk1, h1, h2, h4, h5⟩

/-- C18 fails as stated: right after a quoted value the ATTRIBUTE_VALUE
handler pops without yielding. After `<a b="c"` the state on top is
ATTRIBUTE_VALUE; on `d>` its handler yields nothing and pops, and `d` becomes
an attribute name, not an unquoted value; on ` d>` it pops without yielding
the whitespace. -/
theorem value_after_quoted_pops :
    (tokenizer_tokenize_method fresh (bytes "<a b=\"c\"")).stack =
      some [TOKENIZER_HTML, TOKENIZER_OPEN_TAG, TOKENIZER_ATTRIBUTES,
        TOKENIZER_ATTRIBUTE_VALUE] ∧
    (tokenizer_tokenize_method fresh (bytes "<a b=\"c\"")).once (bytes "d>") =
      some (true, [], [TOKENIZER_HTML, TOKENIZER_OPEN_TAG, TOKENIZER_ATTRIBUTES]) ∧
    (tokenizer_tokenize_method fresh (bytes "<a b=\"c\"")).once (bytes " d>") =
      some (true, [], [TOKENIZER_HTML, TOKENIZER_OPEN_TAG, TOKENIZER_ATTRIBUTES]) ∧
    ((tokenizer_tokenize_method fresh (bytes "<a b=\"c\"")).tokenize (bytes "d>")).tokens =
      some [tok symbol.attribute_name 0 1, tok symbol.tag_end 1 2] ∧
    (tokenizer_tokenize_method fresh (bytes "<a b=\"c\"d>")).tokens =
      some [tok symbol.tag_start 0 1, tok symbol.tag_name 1 2, tok symbol.whitespace 2 3,
        tok symbol.attribute_name 3 4, tok symbol.equal 4 5,
        tok symbol.attribute_value_start 5 6, tok symbol.text 6 7,
        tok symbol.attribute_value_end 7 8, tok symbol.attribute_name 8 9,
        tok symbol.tag_end 9 10] :=
  ⟨by decide, by decide, by decide, by decide, by decide⟩

end HtmlTokenizer
